import Mathlib

/-!
Verification of the kD-tree / TLAS acceleration-structure core of `bvh.h`.

Shallow embedding conventions:
* 32-bit floats are idealised as exact rationals (`ℚ`); `fminf`/`fmaxf` are
  componentwise `min`/`max`; the float sentinel `1e30f` is the exact rational
  `10^30`; the float literal `0.5f` is `1/2`, `0.15f` is `3/20`, `0.85f` is
  `17/20`.  `+∞` (used to seed `FindNearest`) is modelled by `⊤ : WithTop ℚ`.
* Flat arrays (`node`, `bounds`, `tlasIdx`, `leaf`) are total functions from
  `ℕ`; an in-place write is a `Function.update`.  The C `uint` indices are
  `ℕ` (indices stay far below `2^32` for all inputs considered, so the
  wrap-around of `uint` arithmetic never fires; the mask `& 0xfffffff8` is
  embedded as `/ 8 * 8` and `>> 3` as `/ 8`).
* C `while` loops are embedded with explicit fuel so that every definition
  stays kernel-computable; each operation wrapper supplies fuel that is
  proved (or checked) sufficient for the states it is used on.
* The SIMD padding lanes (`w0`, `w1`, ...) never influence the observable
  values considered here and are omitted.
-/

namespace KDVerify

attribute [local semireducible] Rat.add Rat.mul Rat.sub Rat.inv Rat.ofScientific

set_option maxRecDepth 100000

/-- Exact-rational model of the template's `float3` vector type. -/
structure Vec3 where
  x : ℚ
  y : ℚ
  z : ℚ
deriving DecidableEq

/-- Componentwise access `v[k]` for an axis `k` (0/1/2); out-of-range axes
read the (unspecified) padding lane, modelled as `0`. -/
def Vec3.get (v : Vec3) : ℕ → ℚ
  | 0 => v.x
  | 1 => v.y
  | 2 => v.z
  | _ => 0

instance : Add Vec3 := ⟨fun a b => ⟨a.x + b.x, a.y + b.y, a.z + b.z⟩⟩

instance : Sub Vec3 := ⟨fun a b => ⟨a.x - b.x, a.y - b.y, a.z - b.z⟩⟩

instance : Neg Vec3 := ⟨fun a => ⟨-a.x, -a.y, -a.z⟩⟩

/-- Componentwise minimum, the template's `fminf` on `float3`. -/
def fminf (a b : Vec3) : Vec3 := ⟨min a.x b.x, min a.y b.y, min a.z b.z⟩

/-- Componentwise maximum, the template's `fmaxf` on `float3`. -/
def fmaxf (a b : Vec3) : Vec3 := ⟨max a.x b.x, max a.y b.y, max a.z b.z⟩

/-- Scalar multiple of a `float3` (`c * v`). -/
def scl (c : ℚ) (v : Vec3) : Vec3 := ⟨c * v.x, c * v.y, c * v.z⟩

/-- Constant vector, e.g. `float3(1e30f)`. -/
def vec3const (c : ℚ) : Vec3 := ⟨c, c, c⟩

/-- The float sentinel `1e30f`, idealised as the exact rational `10^30`. -/
def big : ℚ := 10 ^ 30

/-- Modelled from the spec: `dominantAxis(v)` returns the axis (0/1/2) of
largest magnitude of `v` ("the axis of largest centroid spread", "greatest
axis of separation"); the function lives in the template headers which are
not part of `src/`, so it is reconstructed from the spec with a
first-axis-wins tie break.  All general theorems below use only the fact
that its result is `≤ 2`; concrete inputs in counterexamples are chosen
symmetric in the three axes so the tie break is irrelevant. -/
def dominantAxis (v : Vec3) : ℕ :=
  if |v.y| ≤ |v.x| ∧ |v.z| ≤ |v.x| then 0
  else if |v.z| ≤ |v.y| then 1 else 2

/-- Intersection record (`struct Intersection`): distance `t` (a float whose
sentinel is `+∞`, hence `WithTop ℚ`), barycentrics and packed indices. -/
structure Intersection where
  t : WithTop ℚ
  u : ℚ
  v : ℚ
  instPrim : ℕ
deriving DecidableEq

/-- Ray record (`struct Ray`): origin, direction, reciprocal direction and
the intersection record. -/
structure Ray where
  O : Vec3
  D : Vec3
  rD : Vec3
  hit : Intersection
deriving DecidableEq

/-- The `Ray()` constructor: `O4 = D4 = rD4 = _mm_set1_ps(1)`.  The `hit`
member is not written by the constructor, so the record it holds is whatever
was in memory; that indeterminate content is the explicit argument `h`. -/
def mkRay (h : Intersection) : Ray :=
  { O := vec3const 1, D := vec3const 1, rD := vec3const 1, hit := h }

/-- Half surface area of a box, `aabb::area()`: `e.x*e.y + e.y*e.z + e.z*e.x`. -/
def aabbArea (bmn bmx : Vec3) : ℚ :=
  let e := bmx - bmn
  e.x * e.y + e.y * e.z + e.z * e.x

/-- Axis-aligned box of a kD-tree instance: the SIMD-friendly copy
(`KDTree::Bounds`) of a TLAS node's `aabbMin`/`aabbMax`. -/
structure Bounds where
  bmin : Vec3
  bmax : Vec3
deriving DecidableEq

/-- Half area of the union (`aabb::grow` of both boxes followed by
`aabb::area`) of two instance boxes. -/
def unionArea (a b : Bounds) : ℚ :=
  aabbArea (fminf a.bmin b.bmin) (fmaxf a.bmax b.bmax)

/-- Centroid of an instance box, the recurring `(bmin + bmax) * 0.5f`. -/
def centroidOf (b : Bounds) : Vec3 := scl (1/2) (b.bmin + b.bmax)

/-- One `KDTree::KDNode` (64 bytes).  The C union overlays the interior
fields `left`/`right` with the leaf fields `first`/`count`, so `first` IS
`left` and `count` IS `right` here; `parax` packs `parent << 3 | tag` with
tag `7` for a leaf and the split axis (0/1/2) for an interior node. -/
structure KDNode where
  left : ℕ
  right : ℕ
  parax : ℕ
  splitPos : ℚ
  bmin : Vec3
  bmax : Vec3
  minSize : Vec3
deriving DecidableEq

/-- Leaf test of a kD-tree node, `KDNode::isLeaf()`: `(parax & 7) > 3`. -/
def KDNode.isLeaf (n : KDNode) : Bool := decide (3 < n.parax % 8)

/-- The all-zero node produced by the constructor's `memset`. -/
def zeroNode : KDNode :=
  { left := 0, right := 0, parax := 0, splitPos := 0,
    bmin := vec3const 0, bmax := vec3const 0, minSize := vec3const 0 }

/-- The mutable state of a `KDTree`: the flat arrays and the counters.
`tlas` is the (read-only) array of TLAS nodes handed to the constructor,
with only its `aabbMin`/`aabbMax` retained, as `Bounds`. -/
structure KD where
  node : ℕ → KDNode
  tlas : ℕ → Bounds
  bounds : ℕ → Bounds
  leaf : ℕ → ℕ
  tlasIdx : ℕ → ℕ
  nodePtr : ℕ
  tlasCount : ℕ
  blasCount : ℕ
  freed0 : ℕ
  freed1 : ℕ

/-- Write one node slot. -/
def KD.setNode (st : KD) (i : ℕ) (n : KDNode) : KD :=
  { st with node := Function.update st.node i n }

/-- Write one `leaf[]` entry. -/
def KD.setLeaf (st : KD) (i v : ℕ) : KD :=
  { st with leaf := Function.update st.leaf i v }

/-- Write one `tlasIdx[]` entry. -/
def KD.setTlasIdx (st : KD) (i v : ℕ) : KD :=
  { st with tlasIdx := Function.update st.tlasIdx i v }

/-- Write one `bounds[]` entry. -/
def KD.setBounds (st : KD) (i : ℕ) (b : Bounds) : KD :=
  { st with bounds := Function.update st.bounds i b }

/-- `KDTree::swap`: exchange two `tlasIdx[]` entries. -/
def KD.swapIdx (st : KD) (a b : ℕ) : KD :=
  { st with
    tlasIdx := Function.update (Function.update st.tlasIdx a (st.tlasIdx b)) b (st.tlasIdx a) }

/-- The state right after the `KDTree` constructor: node array `memset` to
zero, counters set, `nodePtr = 1`, and the `leaf`/`tlasIdx`/`bounds` arrays
allocated but uninitialised (their indeterminate contents are the explicit
arguments). -/
def KD.init (tlas0 : ℕ → Bounds) (N : ℕ) (leafG tlasIdxG : ℕ → ℕ) (boundsG : ℕ → Bounds) : KD :=
  { node := fun _ => zeroNode, tlas := tlas0, bounds := boundsG, leaf := leafG,
    tlasIdx := tlasIdxG, nodePtr := 1, tlasCount := N, blasCount := N,
    freed0 := 0, freed1 := 0 }

/-- The initialisation loop of `KDTree::rebuild`: `tlasIdx[i-1] = i` and
`bounds[i] = tlas[i].aabb` for `i = 1 .. blasCount`. -/
def rebuildInit (st : KD) : KD :=
  (List.range st.blasCount).foldl
    (fun s k =>
      let i := k + 1
      (s.setTlasIdx (i - 1) i).setBounds i ⟨(s.tlas i).bmin, (s.tlas i).bmax⟩)
    st

/-- The centroid-bounds pass at the top of `KDTree::subdivide`: fold over the
node's instances computing `(bmin, bmax, minSize)` from the sentinels.  Note
the faithful translation of the source's `0.5f * (tln.bmax - tln.bmax)`
(which is the zero vector; `minRefit` later recomputes `minSize` properly). -/
def boundsFold (st : KD) (f c : ℕ) : Vec3 × Vec3 × Vec3 :=
  (List.range c).foldl
    (fun acc i =>
      let tln := st.bounds (st.tlasIdx (f + i))
      let C := scl (1/2) (tln.bmin + tln.bmax)
      (fminf acc.1 C, fmaxf acc.2.1 C, fminf acc.2.2 (scl (1/2) (tln.bmax - tln.bmax))))
    (vec3const big, vec3const (-big), vec3const big)

/-- The balancing count in `KDTree::subdivide`: how many instance centroids
have `P[axis] <= center`. -/
def leftCountFold (st : KD) (f c axis : ℕ) (center : ℚ) : ℕ :=
  (List.range c).foldl
    (fun lc i =>
      let tl := st.bounds (st.tlasIdx (f + i))
      let P := scl (1/2) (tl.bmin + tl.bmax)
      if P.get axis ≤ center then lc + 1 else lc)
    0

/-- The split position chosen by `KDTree::subdivide`: the midpoint of the
centroid range on `axis`, replaced for `count > 150` by
`ratio*bmin[axis] + (1-ratio)*bmax[axis]` with
`ratio = max(0.15, min(0.85, leftCount/count))`. -/
def splitCenter (st : KD) (f c axis : ℕ) (bmn bmx : Vec3) : ℚ :=
  let center := (bmn.get axis + bmx.get axis) * (1/2)
  if 150 < c then
    let leftCount := leftCountFold st f c axis center
    let ratio := max (3/20 : ℚ) (min (17/20 : ℚ) ((leftCount : ℚ) / (c : ℚ)))
    ratio * bmn.get axis + (1 - ratio) * bmx.get axis
  else center

/-- The two-ended scan loop of `KDTree::partition` (the `while (1)` body):
look at `tlasIdx[first]`; an item whose centroid is right of `splitPos` is
swapped to `--last`, otherwise `first++`; stop as soon as `first >= last`.
Returns the final state and the final `last`.  Fuel `≥ last - first` is
enough for the loop to run to completion. -/
def partitionScan : ℕ → KD → ℕ → ℚ → ℕ → ℕ → KD × ℕ
  | 0, st, _, _, _, lst => (st, lst)
  | fuel + 1, st, axis, splitPos, fst, lst =>
    let P := centroidOf (st.bounds (st.tlasIdx fst))
    if splitPos < P.get axis then
      let st1 := st.swapIdx fst (lst - 1)
      if lst - 1 ≤ fst then (st1, lst - 1)
      else partitionScan fuel st1 axis splitPos fst (lst - 1)
    else
      if lst ≤ fst + 1 then (st, lst)
      else partitionScan fuel st axis splitPos (fst + 1) lst

/-- `KDTree::partition`: for `N < 3` skip the scan and put `last = first + 1`;
otherwise run the two-ended scan; then fill in the two child slots at
`nodePtr` and `nodePtr + 1` (ranges `[first, last)` / `[last, first + N)`,
both tagged as leaves with parent `nidx`). -/
def partition (st : KD) (nidx : ℕ) (splitPos : ℚ) (axis : ℕ) : KD :=
  let n0 := st.node nidx
  let N := n0.right
  let f := n0.left
  let scanRes := if N < 3 then (st, f + 1) else partitionScan N st axis splitPos f (f + N)
  let st1 := scanRes.1
  let lst := scanRes.2
  let st2 := st1.setNode st1.nodePtr
    { (st1.node st1.nodePtr) with left := f, right := lst - f, parax := nidx * 8 + 7 }
  st2.setNode (st2.nodePtr + 1)
    { (st2.node (st2.nodePtr + 1)) with left := lst, right := N - (lst - f), parax := nidx * 8 + 7 }

/-- `KDTree::subdivide`: recompute the node's centroid bounds, stop below two
instances, choose axis and split position, partition, and if both halves are
non-empty claim the two child slots and recurse.  Structure recursion on
explicit fuel (`fuel > count` suffices, since each child has strictly fewer
instances). -/
def subdivide : ℕ → KD → ℕ → KD
  | 0, st, _ => st
  | fuel + 1, st, nidx =>
    let n0 := st.node nidx
    let f := n0.left
    let c := n0.right
    let b := boundsFold st f c
    let st1 := st.setNode nidx { n0 with bmin := b.1, bmax := b.2.1, minSize := b.2.2 }
    if c < 2 then st1
    else
      let axis := dominantAxis (b.2.1 - b.1)
      let center := splitCenter st1 f c axis b.1 b.2.1
      let st2 := partition st1 nidx center axis
      if (st2.node st2.nodePtr).right = 0 ∨ (st2.node (st2.nodePtr + 1)).right = 0 then st2
      else
        let leftIdx := st2.nodePtr
        let n1 := st2.node nidx
        let st3a := st2.setNode nidx
          { n1 with
            left := leftIdx, right := leftIdx + 1,
            parax := n1.parax / 8 * 8 + axis, splitPos := center }
        let st3 := { st3a with nodePtr := st2.nodePtr + 2 }
        subdivide fuel (subdivide fuel st3 leftIdx) (leftIdx + 1)

/-- View of `subdivide`'s bounds pass result on the node it was called on
(the state named `st1` in the body). -/
def subdivSt1 (st : KD) (nidx : ℕ) : KD :=
  st.setNode nidx
    { st.node nidx with
      bmin := (boundsFold st (st.node nidx).left (st.node nidx).right).1,
      bmax := (boundsFold st (st.node nidx).left (st.node nidx).right).2.1,
      minSize := (boundsFold st (st.node nidx).left (st.node nidx).right).2.2 }

/-- View of the split axis `subdivide` chooses for a node. -/
def subdivAxis (st : KD) (nidx : ℕ) : ℕ :=
  dominantAxis ((boundsFold st (st.node nidx).left (st.node nidx).right).2.1 -
    (boundsFold st (st.node nidx).left (st.node nidx).right).1)

/-- View of the split position `subdivide` chooses for a node. -/
def subdivCenter (st : KD) (nidx : ℕ) : ℚ :=
  splitCenter (subdivSt1 st nidx) (st.node nidx).left (st.node nidx).right (subdivAxis st nidx)
    (boundsFold st (st.node nidx).left (st.node nidx).right).1
    (boundsFold st (st.node nidx).left (st.node nidx).right).2.1

/-- View of the state after `subdivide`'s `partition` call (named `st2`). -/
def subdivSt2 (st : KD) (nidx : ℕ) : KD :=
  partition (subdivSt1 st nidx) nidx (subdivCenter st nidx) (subdivAxis st nidx)

/-- The split-failure test of `subdivide`: one of the two scratch children is
empty. -/
def SplitFailed (st : KD) (nidx : ℕ) : Prop :=
  ((subdivSt2 st nidx).node (subdivSt2 st nidx).nodePtr).right = 0 ∨
  ((subdivSt2 st nidx).node ((subdivSt2 st nidx).nodePtr + 1)).right = 0

instance (st : KD) (nidx : ℕ) : Decidable (SplitFailed st nidx) := by
  unfold SplitFailed
  infer_instance

/-- View of the state in which `subdivide` recurses after claiming the two
child slots (named `st3`). -/
def subdivSt3 (st : KD) (nidx : ℕ) : KD :=
  { (subdivSt2 st nidx).setNode nidx
      { (subdivSt2 st nidx).node nidx with
        left := (subdivSt2 st nidx).nodePtr,
        right := (subdivSt2 st nidx).nodePtr + 1,
        parax := ((subdivSt2 st nidx).node nidx).parax / 8 * 8 + subdivAxis st nidx,
        splitPos := subdivCenter st nidx } with
    nodePtr := (subdivSt2 st nidx).nodePtr + 2 }

/-- The interior-node combine of `minRefit`/`recurseRefit`: bounds and
minimum sizes of a node from its two children. -/
def combineAt (st : KD) (i : ℕ) : KD :=
  let n := st.node i
  let l := st.node n.left
  let r := st.node n.right
  st.setNode i
    { n with
      minSize := fminf l.minSize r.minSize,
      bmin := fminf l.bmin r.bmin, bmax := fmaxf l.bmax r.bmax }

/-- The leaf case of `KDTree::minRefit`: reset the node's bounds to the
sentinels, then for each contained instance record `leaf[idx] = i` and grow
`minSize`/`bmin`/`bmax` from the instance's half extent and centroid. -/
def refitLeafBody (i : ℕ) (s : KD) (j : ℕ) : KD :=
  let idx := s.tlasIdx ((s.node i).left + j)
  let s1 := s.setLeaf idx i
  let tlSize := scl (1/2) ((s1.bounds idx).bmax - (s1.bounds idx).bmin)
  let C := scl (1/2) ((s1.bounds idx).bmax + (s1.bounds idx).bmin)
  let n := s1.node i
  s1.setNode i
    { n with
      minSize := fminf n.minSize tlSize,
      bmin := fminf n.bmin C, bmax := fmaxf n.bmax C }

def refitLeafScan (st : KD) (i : ℕ) : KD :=
  (List.range (st.node i).right).foldl (refitLeafBody i)
    (let n := st.node i
     st.setNode i
       { n with minSize := vec3const big, bmin := vec3const big, bmax := vec3const (-big) })

/-- One iteration of the `minRefit` loop at node `i`. -/
def refitOne (st : KD) (i : ℕ) : KD :=
  if (st.node i).isLeaf then refitLeafScan st i else combineAt st i

/-- The descending index list `[k-1, ..., 1, 0]` of the `minRefit` loop. -/
def descList : ℕ → List ℕ
  | 0 => []
  | k + 1 => k :: descList k

/-- `KDTree::minRefit`: process every node from `nodePtr - 1` down to `0`. -/
def minRefit (st : KD) : KD := (descList st.nodePtr).foldl refitOne st

/-- The `minRefit` loop truncated to the node slots below `k` (processed in
descending order, as in the source). -/
def minRefitLoop (k : ℕ) (s : KD) : KD := (descList k).foldl refitOne s

/-- The children of every interior node below `k` sit at strictly larger
slot indices.  `subdivide` allocates children from `nodePtr`, so it
establishes this; it is exactly the ordering the descending `minRefit`
loop relies on. -/
def ChildOrder (s : KD) (k : ℕ) : Prop :=
  ∀ i, i < k → (s.node i).isLeaf = false →
    i < (s.node i).left ∧ i < (s.node i).right

/-- `KDTree::recurseRefit`: walk from a node to the root, recomputing each
ancestor from its two children.  Fuel bounds the length of the parent chain. -/
def recurseRefit : ℕ → KD → ℕ → KD
  | 0, st, _ => st
  | fuel + 1, st, i =>
    if i = 0 then st
    else
      let j := (st.node i).parax / 8
      recurseRefit fuel (combineAt st j) j

/-- `KDTree::rebuild`: reset `tlasCount`, run the initialisation loop, make
node 0 the all-covering root leaf, subdivide it and run `minRefit`.  (The
`Timer`/`printf` instrumentation has no state effect and is omitted.) -/
def rebuildOp (st0 : KD) : KD :=
  let st1 := rebuildInit { st0 with tlasCount := st0.blasCount }
  let n0 := st1.node 0
  let st2a := st1.setNode 0 { n0 with left := 0, right := st1.blasCount, parax := 7 }
  let st2 := { st2a with nodePtr := 1 }
  minRefit (subdivide (st2.blasCount + 1) st2 0)

/-- View of `rebuild`'s state just before the `subdivide` call: the
initialisation loop has run and node 0 is the all-covering root leaf. -/
def rebuildSt2 (st0 : KD) : KD :=
  let st1 := rebuildInit { st0 with tlasCount := st0.blasCount }
  let st2a := st1.setNode 0 { st1.node 0 with left := 0, right := st1.blasCount, parax := 7 }
  { st2a with nodePtr := 1 }

/-- The swap-remove loop in the `count > 1` branch of `KDTree::removeLeaf`:
`for (j = 0; j < n.count; j++) if (tlasIdx[n.first+j] == idx)
tlasIdx[n.first+j] = tlasIdx[n.first + n.count-- - 1]`.  The loop index `j`
and the live `count` are threaded explicitly; the result is the final
`tlasIdx` state and the final count. -/
def removeScan : ℕ → KD → ℕ → ℕ → ℕ → ℕ → KD × ℕ
  | 0, st, _, _, _, cnt => (st, cnt)
  | fuel + 1, st, tgt, f, j, cnt =>
    if cnt ≤ j then (st, cnt)
    else if st.tlasIdx (f + j) = tgt then
      removeScan fuel (st.setTlasIdx (f + j) (st.tlasIdx (f + cnt - 1))) tgt f (j + 1) (cnt - 1)
    else removeScan fuel st tgt f (j + 1) cnt

/-- `KDTree::removeLeaf`.  If the leaf holding `idx` has several instances,
swap-remove `idx` from its range and record two fresh slots in `freed`.
Otherwise promote the sibling into the parent slot (copy by value, fixing up
the parent bits of its `parax`), redirect either the `leaf[]` entries (leaf
sibling) or the children's parent pointers (interior sibling), and free the
sibling and deleted slots. -/
def removeLeafOp (st : KD) (idx : ℕ) : KD :=
  let toDelete := st.leaf idx
  let nd := st.node toDelete
  if 1 < nd.right then
    let res := removeScan nd.right st idx nd.left 0 nd.right
    let st1 := res.1.setNode toDelete { (res.1.node toDelete) with right := res.2 }
    { st1 with freed0 := st1.nodePtr, freed1 := st1.nodePtr + 1, nodePtr := st1.nodePtr + 2 }
  else
    let parentIdx := nd.parax / 8
    let parent := st.node parentIdx
    let sibling := if parent.left = toDelete then parent.right else parent.left
    let st1 := st.setNode sibling
      { (st.node sibling) with parax := parent.parax / 8 * 8 + (st.node sibling).parax % 8 }
    let st2 := st1.setNode parentIdx (st1.node sibling)
    let p2 := st2.node parentIdx
    let st3 :=
      if p2.isLeaf then
        (List.range p2.right).foldl
          (fun s j => s.setLeaf (s.tlasIdx (p2.left + j)) parentIdx) st2
      else
        let st2a := st2.setNode p2.left
          { (st2.node p2.left) with parax := parentIdx * 8 + (st2.node p2.left).parax % 8 }
        st2a.setNode p2.right
          { (st2a.node p2.right) with parax := parentIdx * 8 + (st2a.node p2.right).parax % 8 }
    { st3 with freed0 := sibling, freed1 := toDelete }

/-- The descent loop of `KDTree::add`: from the root, follow the stored split
axis/position (`parax & 7`, `splitPos`) until a leaf is reached. -/
def descend : ℕ → KD → Vec3 → ℕ → ℕ
  | 0, _, _, n => n
  | fuel + 1, st, P, n =>
    if (st.node n).isLeaf then n
    else
      descend fuel st P
        (if P.get ((st.node n).parax % 8) < (st.node n).splitPos
         then (st.node n).left else (st.node n).right)

/-- Centroid of a node's stored centroid-bounds box: `(bmin + bmax) * 0.5f`. -/
def centroidNode (n : KDNode) : Vec3 := scl (1/2) (n.bmin + n.bmax)

/-- The common tail of `KDTree::add`: pick the new interior node's axis as
`dominantAxis(P - Pn)`, add it to `parax`, set `splitPos` to the midpoint of
the two centroids, and order the two children by which side of the split the
new instance falls on. -/
def addFinish (st : KD) (intI leafI otherI : ℕ) (P Pn : Vec3) : KD :=
  let axis := dominantAxis (P - Pn)
  let st1 := st.setNode intI { (st.node intI) with parax := (st.node intI).parax + axis }
  let sp := (scl (1/2) (Pn + P)).get axis
  let st2 := st1.setNode intI { (st1.node intI) with splitPos := sp }
  if P.get axis < sp then
    st2.setNode intI { (st2.node intI) with left := leafI, right := otherI }
  else
    st2.setNode intI { (st2.node intI) with left := otherI, right := leafI }

/-- `KDTree::add`: capture the new instance's bounds, append its index to
`tlasIdx`, build a fresh one-instance leaf in `freed[0]`, descend to the
leaf the instance falls into, splice the new interior node `freed[1]` in its
place (with the special case when the root itself is that leaf), and refit
the ancestors of the new leaf. -/
def addOp (st0 : KD) (idx : ℕ) : KD :=
  let stA := st0.setBounds idx ⟨(st0.tlas idx).bmin, (st0.tlas idx).bmax⟩
  let stBa := stA.setTlasIdx stA.tlasCount idx
  let stB := { stBa with tlasCount := stA.tlasCount + 1 }
  let leafIdx := stB.freed0
  let stC := stB.setLeaf idx leafIdx
  let C := centroidOf (stC.bounds idx)
  let stD := stC.setNode leafIdx
    { (stC.node leafIdx) with
      left := stC.tlasCount - 1, right := 1,
      bmin := C, bmax := C, minSize := scl (1/2) ((stC.bounds idx).bmax - (stC.bounds idx).bmin) }
  let intIdx := stD.freed1
  let P := centroidOf (stD.bounds idx)
  let m := descend (stD.nodePtr + 1) stD P 0
  let stF :=
    if m = 0 then
      let stE1 := stD.setNode intIdx (stD.node 0)
      let stE2 := stE1.setNode intIdx
        { (stE1.node intIdx) with parax := (stE1.node intIdx).parax % 8 }
      let stE3 := stE2.setNode leafIdx { (stE2.node leafIdx) with parax := 7 }
      let Pn := centroidNode (stE3.node intIdx)
      let stE4 := (List.range (stE3.node intIdx).right).foldl
        (fun s j => s.setLeaf (s.tlasIdx ((s.node intIdx).left + j)) intIdx) stE3
      let stE5 := stE4.setNode 0 { (stE4.node 0) with parax := 0 }
      addFinish stE5 0 leafIdx intIdx P Pn
    else
      let q := (stD.node m).parax / 8
      let stE1 :=
        if (stD.node q).left = m then stD.setNode q { (stD.node q) with left := intIdx }
        else stD.setNode q { (stD.node q) with right := intIdx }
      let stE2 := stE1.setNode intIdx
        { (stE1.node intIdx) with parax := (stE1.node m).parax / 8 * 8 }
      let stE3 := stE2.setNode m { (stE2.node m) with parax := intIdx * 8 + 7 }
      let stE4 := stE3.setNode leafIdx { (stE3.node leafIdx) with parax := intIdx * 8 + 7 }
      let Pn := centroidNode (stE4.node m)
      addFinish stE4 intIdx leafIdx m P Pn
  recurseRefit (stF.nodePtr + 1) stF (stF.leaf idx)

/-- View of `KDTree::add` just after the new one-instance leaf is built in
`freed[0]` (bounds captured, index appended, `leaf[]` entry set, leaf node
written), before the descent. -/
def addStD (st0 : KD) (idx : ℕ) : KD :=
  let stA := st0.setBounds idx ⟨(st0.tlas idx).bmin, (st0.tlas idx).bmax⟩
  let stBa := stA.setTlasIdx stA.tlasCount idx
  let stB := { stBa with tlasCount := stA.tlasCount + 1 }
  let stC := stB.setLeaf idx stB.freed0
  let C := centroidOf (stC.bounds idx)
  stC.setNode stB.freed0
    { (stC.node stB.freed0) with
      left := stC.tlasCount - 1, right := 1,
      bmin := C, bmax := C,
      minSize := scl (1/2) ((stC.bounds idx).bmax - (stC.bounds idx).bmin) }

/-- The leaf slot `KDTree::add`'s descent ends in. -/
def addM (st0 : KD) (idx : ℕ) : ℕ :=
  descend ((addStD st0 idx).nodePtr + 1) (addStD st0 idx)
    (centroidOf ((addStD st0 idx).bounds idx)) 0

/-- The generic-position splice of `KDTree::add` (`m != 0`): replace the
found leaf `m` in its parent by the new interior node `freed[1]`, whose
children are the new leaf `freed[0]` and `m`. -/
def addSpliceOp (stD : KD) (idx m : ℕ) : KD :=
  let leafIdx := stD.freed0
  let intIdx := stD.freed1
  let P := centroidOf (stD.bounds idx)
  let q := (stD.node m).parax / 8
  let stE1 :=
    if (stD.node q).left = m then stD.setNode q { (stD.node q) with left := intIdx }
    else stD.setNode q { (stD.node q) with right := intIdx }
  let stE2 := stE1.setNode intIdx
    { (stE1.node intIdx) with parax := (stE1.node m).parax / 8 * 8 }
  let stE3 := stE2.setNode m { (stE2.node m) with parax := intIdx * 8 + 7 }
  let stE4 := stE3.setNode leafIdx { (stE3.node leafIdx) with parax := intIdx * 8 + 7 }
  let Pn := centroidNode (stE4.node m)
  addFinish stE4 intIdx leafIdx m P Pn

/-- The root-position splice of `KDTree::add` (`m == 0`): copy the root leaf
into `freed[1]`, redirect its instances' `leaf[]` entries, and make the root
an interior node over `freed[0]` and `freed[1]`. -/
def addRootOp (stD : KD) (idx : ℕ) : KD :=
  let leafIdx := stD.freed0
  let intIdx := stD.freed1
  let P := centroidOf (stD.bounds idx)
  let stE1 := stD.setNode intIdx (stD.node 0)
  let stE2 := stE1.setNode intIdx
    { (stE1.node intIdx) with parax := (stE1.node intIdx).parax % 8 }
  let stE3 := stE2.setNode leafIdx { (stE2.node leafIdx) with parax := 7 }
  let Pn := centroidNode (stE3.node intIdx)
  let stE4 := (List.range (stE3.node intIdx).right).foldl
    (fun s j => s.setLeaf (s.tlasIdx ((s.node intIdx).left + j)) intIdx) stE3
  let stE5 := stE4.setNode 0 { (stE4.node 0) with parax := 0 }
  addFinish stE5 0 leafIdx intIdx P Pn

/-- The leaf body of `KDTree::FindNearest`: fold over the instances of a
leaf, computing for each candidate `B ≠ A` the SIMD expression
`max(tlasAbmax4, bounds[B].bmax4) - min(tlasAbmax4, bounds[B].bmin4)` and
its half area, improving the running best on strict decrease.  NOTE: the
second operand is `tlasAbmax4` in the source (`bvh.h` line 408), not
`tlasAbmin4`; the translation keeps that faithfully. -/
def leafScanFN (st : KD) (A : ℕ) (bmaxA : Vec3) (f c : ℕ)
    (best : ℕ × WithTop ℚ) : ℕ × WithTop ℚ :=
  (List.range c).foldl
    (fun acc i =>
      let B := st.tlasIdx (f + i)
      if B = A then acc
      else
        let size := fmaxf bmaxA (st.bounds B).bmax - fminf bmaxA (st.bounds B).bmin
        let SA := size.x * size.y + size.y * size.z + size.z * size.x
        if (SA : WithTop ℚ) < acc.2 then (B, (SA : WithTop ℚ)) else acc)
    best

/-- The traversal of `KDTree::FindNearest`.  The source drives an explicit
60-entry stack: at an interior node it orders the children by the side of
`Pa`, computes the surface-area lower bound of each child against the
current best, pushes/visits accordingly, and pops without re-checking; that
LIFO discipline visits exactly the depth-first order of this recursion, with
each decision taken against the best known at node entry, so the recursion
(on fuel, threading the whole state) computes the same result.  The sign-bit
tests of `diff1`/`diff2` are the comparisons `sa < smallestSA` (exact
arithmetic has no `-0`). -/
def findNearestGo : ℕ → KD → ℕ → Vec3 → Vec3 → Vec3 → Vec3 → ℕ →
    ℕ × WithTop ℚ → KD × (ℕ × WithTop ℚ)
  | 0, st, _, _, _, _, _, _, best => (st, best)
  | fuel + 1, st, A, Pa, extentA, halfExtentA, bmaxA, n, best =>
    if (st.node n).isLeaf then
      (st, leafScanFN st A bmaxA (st.node n).left (st.node n).right best)
    else
      let nearFar :=
        if (st.node n).splitPos < Pa.get ((st.node n).parax % 8)
        then ((st.node n).right, (st.node n).left)
        else ((st.node n).left, (st.node n).right)
      let nearN := nearFar.1
      let farN := nearFar.2
      let v0a := fmaxf ((st.node nearN).bmin - Pa) (Pa - (st.node nearN).bmax)
      let v0b := fmaxf ((st.node farN).bmin - Pa) (Pa - (st.node farN).bmax)
      let d4a := fmaxf extentA (v0a - ((st.node nearN).minSize + halfExtentA))
      let d4b := fmaxf extentA (v0b - ((st.node farN).minSize + halfExtentA))
      let sa1 := d4a.x * d4a.y + d4a.y * d4a.z + d4a.z * d4a.x
      let sa2 := d4b.x * d4b.y + d4b.y * d4b.z + d4b.z * d4b.x
      let visitNear := (sa1 : WithTop ℚ) < best.2
      let visitFar := (sa2 : WithTop ℚ) < best.2
      if visitNear then
        if visitFar then
          let r1 := findNearestGo fuel st A Pa extentA halfExtentA bmaxA nearN best
          findNearestGo fuel r1.1 A Pa extentA halfExtentA bmaxA farN r1.2
        else findNearestGo fuel st A Pa extentA halfExtentA bmaxA nearN best
      else if visitFar then findNearestGo fuel st A Pa extentA halfExtentA bmaxA farN best
      else (st, best)

/-- `KDTree::FindNearest(A, startB, startSA)`: gather `A`'s box data, run the
traversal from the root with the seeded best, and return the (threaded)
state together with the written-back `(bestB, smallestSA)`. -/
def FindNearest (st : KD) (A startB : ℕ) (startSA : WithTop ℚ) : KD × (ℕ × WithTop ℚ) :=
  let bmn := (st.bounds A).bmin
  let bmx := (st.bounds A).bmax
  let Pa := scl (1/2) (bmn + bmx)
  let extentA := bmx - bmn
  let halfExtentA := scl (1/2) (bmx - bmn)
  findNearestGo (st.nodePtr + 1) st A Pa extentA halfExtentA bmx 0 (startB, startSA)

/-- The set `{1, ..., N}` of instance indices made live by `rebuild`. -/
def liveInit (N : ℕ) : Finset ℕ := (Finset.range N).image (· + 1)

/-- States reachable from a freshly constructed tree by `rebuild` followed by
any sequence of `removeLeaf`/`add` respecting the caller contract of the
agglomerative TLAS build: removal requires a live instance and at least two
live instances; `add` requires a fresh index and the two slots released by a
preceding `removeLeaf` (`canAdd` flag). -/
inductive Reach (st0 : KD) : KD → Finset ℕ → Bool → Prop
  | rebuilt : 1 ≤ st0.blasCount → Reach st0 (rebuildOp st0) (liveInit st0.blasCount) false
  | remove (st : KD) (live : Finset ℕ) (c : Bool) (idx : ℕ) :
      Reach st0 st live c → idx ∈ live → 2 ≤ live.card →
      Reach st0 (removeLeafOp st idx) (live.erase idx) true
  | addStep (st : KD) (live : Finset ℕ) (idx : ℕ) :
      Reach st0 st live true → idx ∉ live →
      Reach st0 (addOp st idx) (insert idx live) false

/-- Structural description of the live kD-tree in state `st`.
`Tree useMap st p n S P L` says that slot `n` roots a well-formed (sub)tree
whose stored parent index is `p`, that the subtree occupies exactly the node
slots `S`, covers exactly the `tlasIdx` positions `P`, and holds exactly the
instance indices `L`.  With `useMap = true` the `leaf[]` back-map is also
required to point into the right leaf.  This is the layout the source
maintains: `parax` packs `parent * 8 + axis` for an interior node (axis
`≤ 2`, children in the `left`/`right` slots) and `parent * 8 + 7` for a
leaf covering `tlasIdx[first .. first + count)` with `count ≥ 1`. -/
inductive Tree (useMap : Bool) (st : KD) : ℕ → ℕ → Finset ℕ → Finset ℕ → Finset ℕ → Prop
  | leaf (p n : ℕ) :
      (st.node n).parax = p * 8 + 7 →
      1 ≤ (st.node n).right →
      Set.InjOn st.tlasIdx (Set.Ico (st.node n).left ((st.node n).left + (st.node n).right)) →
      (useMap = true → ∀ j, (st.node n).left ≤ j →
        j < (st.node n).left + (st.node n).right → st.leaf (st.tlasIdx j) = n) →
      Tree useMap st p n {n}
        (Finset.Ico (st.node n).left ((st.node n).left + (st.node n).right))
        ((Finset.Ico (st.node n).left ((st.node n).left + (st.node n).right)).image st.tlasIdx)
  | node (p n : ℕ) (S1 S2 P1 P2 L1 L2 : Finset ℕ) :
      (st.node n).parax % 8 ≤ 2 →
      (st.node n).parax / 8 = p →
      Tree useMap st n (st.node n).left S1 P1 L1 →
      Tree useMap st n (st.node n).right S2 P2 L2 →
      Disjoint S1 S2 → n ∉ S1 → n ∉ S2 →
      Disjoint P1 P2 → Disjoint L1 L2 →
      Tree useMap st p n (insert n (S1 ∪ S2)) (P1 ∪ P2) (L1 ∪ L2)

/-- The full state invariant tying a reachable state to its live set: the
live instances form a kD-tree rooted in slot 0 (with a correct `leaf[]`
map), all tree slots are allocated, all covered positions are below
`tlasCount`, and — when the last operation was a `removeLeaf` — the two
`freed` slots are distinct allocated slots outside the tree. -/
def Inv (st : KD) (live : Finset ℕ) (canAdd : Bool) : Prop :=
  ∃ S P, Tree true st 0 0 S P live ∧
    (∀ m ∈ S, m < st.nodePtr) ∧
    (∀ j ∈ P, j < st.tlasCount) ∧
    (canAdd = true → st.freed0 ∉ S ∧ st.freed1 ∉ S ∧ st.freed0 ≠ st.freed1 ∧
      st.freed0 < st.nodePtr ∧ st.freed1 < st.nodePtr)

/-! ### Concrete inputs used by evaluations and counterexamples -/

/-- All-zero garbage for the uninitialised `leaf`/`tlasIdx` arrays. -/
def zeroIdx : ℕ → ℕ := fun _ => 0

/-- All-zero garbage for the uninitialised `bounds` array. -/
def zeroBoundsArr : ℕ → Bounds := fun _ => ⟨vec3const 0, vec3const 0⟩

/-- A cube `[lo, hi]^3`. -/
def cube (lo hi : ℚ) : Bounds := ⟨vec3const lo, vec3const hi⟩

/-- Three instances for the `FindNearest` evaluation: `1 ↦ [0,4]^3`,
`2 ↦ [1,2]^3` (inside instance 1), `3 ↦ [3.9, 4.1]^3` (straddling instance
1's upper face). -/
def fnTlas : ℕ → Bounds := fun i =>
  if i = 1 then cube 0 4
  else if i = 2 then cube 1 2
  else if i = 3 then cube (39/10) (41/10)
  else cube 0 0

/-- The kD-tree over `fnTlas` after `rebuild`. -/
def fnState : KD := rebuildOp (KD.init fnTlas 3 zeroIdx zeroIdx zeroBoundsArr)

/-- Two instances whose centroids are `(10,10,10)` and `(0,0,0)`, stored in
that order, for the `count == 2` partition counterexample. -/
def c3Tlas : ℕ → Bounds := fun i =>
  if i = 1 then cube 10 10 else if i = 2 then cube 0 0 else cube 0 0

/-- The kD-tree over `c3Tlas` after `rebuild`. -/
def c3State : KD := rebuildOp (KD.init c3Tlas 2 zeroIdx zeroIdx zeroBoundsArr)

/-- Three point instances at `0`, `10`, `30` on the diagonal, for the
deferred-refit counterexample. -/
def c2Tlas : ℕ → Bounds := fun i =>
  if i = 1 then cube 0 0 else if i = 2 then cube 10 10
  else if i = 3 then cube 30 30 else cube 0 0

/-- The initial state over `c2Tlas`. -/
def c2Init : KD := KD.init c2Tlas 3 zeroIdx zeroIdx zeroBoundsArr

/-- The tree over `c2Tlas` after `rebuild` and then `removeLeaf(1)`. -/
def c2State : KD := removeLeafOp (rebuildOp c2Init) 1

/-- A raw pre-partition state for the C3 witness: one root leaf over three
instances with centroids `0`, `10`, `4` on the diagonal. -/
def c3wState : KD :=
  { node := fun i => if i = 0 then { zeroNode with left := 0, right := 3, parax := 7 } else zeroNode,
    tlas := zeroBoundsArr,
    bounds := fun i =>
      if i = 1 then cube 0 0 else if i = 2 then cube 10 10
      else if i = 3 then cube 4 4 else cube 0 0,
    leaf := zeroIdx,
    tlasIdx := fun j => if j = 0 then 1 else if j = 1 then 2 else if j = 2 then 3 else 0,
    nodePtr := 1, tlasCount := 3, blasCount := 3, freed0 := 0, freed1 := 0 }

/-- `v` is the minimum of `g` over `{0, ..., c-1}`: a lower bound that is
attained.  Used to state "the centroid range" independently of the fold that
computes it. -/
def IsInfOn (g : ℕ → ℚ) (c : ℕ) (v : ℚ) : Prop :=
  (∀ j, j < c → v ≤ g j) ∧ ∃ j, j < c ∧ g j = v

/-- `v` is the maximum of `g` over `{0, ..., c-1}`. -/
def IsSupOn (g : ℕ → ℚ) (c : ℕ) (v : ℚ) : Prop :=
  (∀ j, j < c → g j ≤ v) ∧ ∃ j, j < c ∧ g j = v

/-! ### Projections of the single-slot setters -/

@[simp] theorem setNode_node (st : KD) (i : ℕ) (n : KDNode) :
    (st.setNode i n).node = Function.update st.node i n := rfl

@[simp] theorem setNode_tlas (st : KD) (i : ℕ) (n : KDNode) : (st.setNode i n).tlas = st.tlas := rfl

@[simp] theorem setNode_bounds (st : KD) (i : ℕ) (n : KDNode) :
    (st.setNode i n).bounds = st.bounds := rfl

@[simp] theorem setNode_leaf (st : KD) (i : ℕ) (n : KDNode) : (st.setNode i n).leaf = st.leaf := rfl

@[simp] theorem setNode_tlasIdx (st : KD) (i : ℕ) (n : KDNode) :
    (st.setNode i n).tlasIdx = st.tlasIdx := rfl

@[simp] theorem setNode_nodePtr (st : KD) (i : ℕ) (n : KDNode) :
    (st.setNode i n).nodePtr = st.nodePtr := rfl

@[simp] theorem setNode_tlasCount (st : KD) (i : ℕ) (n : KDNode) :
    (st.setNode i n).tlasCount = st.tlasCount := rfl

@[simp] theorem setNode_blasCount (st : KD) (i : ℕ) (n : KDNode) :
    (st.setNode i n).blasCount = st.blasCount := rfl

@[simp] theorem setNode_freed0 (st : KD) (i : ℕ) (n : KDNode) :
    (st.setNode i n).freed0 = st.freed0 := rfl

@[simp] theorem setNode_freed1 (st : KD) (i : ℕ) (n : KDNode) :
    (st.setNode i n).freed1 = st.freed1 := rfl

@[simp] theorem setLeaf_leaf (st : KD) (i v : ℕ) :
    (st.setLeaf i v).leaf = Function.update st.leaf i v := rfl

@[simp] theorem setLeaf_node (st : KD) (i v : ℕ) : (st.setLeaf i v).node = st.node := rfl

@[simp] theorem setLeaf_tlas (st : KD) (i v : ℕ) : (st.setLeaf i v).tlas = st.tlas := rfl

@[simp] theorem setLeaf_bounds (st : KD) (i v : ℕ) : (st.setLeaf i v).bounds = st.bounds := rfl

@[simp] theorem setLeaf_tlasIdx (st : KD) (i v : ℕ) : (st.setLeaf i v).tlasIdx = st.tlasIdx := rfl

@[simp] theorem setLeaf_nodePtr (st : KD) (i v : ℕ) : (st.setLeaf i v).nodePtr = st.nodePtr := rfl

@[simp] theorem setLeaf_tlasCount (st : KD) (i v : ℕ) :
    (st.setLeaf i v).tlasCount = st.tlasCount := rfl

@[simp] theorem setLeaf_blasCount (st : KD) (i v : ℕ) :
    (st.setLeaf i v).blasCount = st.blasCount := rfl

@[simp] theorem setLeaf_freed0 (st : KD) (i v : ℕ) : (st.setLeaf i v).freed0 = st.freed0 := rfl

@[simp] theorem setLeaf_freed1 (st : KD) (i v : ℕ) : (st.setLeaf i v).freed1 = st.freed1 := rfl

@[simp] theorem setTlasIdx_tlasIdx (st : KD) (i v : ℕ) :
    (st.setTlasIdx i v).tlasIdx = Function.update st.tlasIdx i v := rfl

@[simp] theorem setTlasIdx_node (st : KD) (i v : ℕ) : (st.setTlasIdx i v).node = st.node := rfl

@[simp] theorem setTlasIdx_tlas (st : KD) (i v : ℕ) : (st.setTlasIdx i v).tlas = st.tlas := rfl

@[simp] theorem setTlasIdx_bounds (st : KD) (i v : ℕ) :
    (st.setTlasIdx i v).bounds = st.bounds := rfl

@[simp] theorem setTlasIdx_leaf (st : KD) (i v : ℕ) : (st.setTlasIdx i v).leaf = st.leaf := rfl

@[simp] theorem setTlasIdx_nodePtr (st : KD) (i v : ℕ) :
    (st.setTlasIdx i v).nodePtr = st.nodePtr := rfl

@[simp] theorem setTlasIdx_tlasCount (st : KD) (i v : ℕ) :
    (st.setTlasIdx i v).tlasCount = st.tlasCount := rfl

@[simp] theorem setTlasIdx_blasCount (st : KD) (i v : ℕ) :
    (st.setTlasIdx i v).blasCount = st.blasCount := rfl

@[simp] theorem setTlasIdx_freed0 (st : KD) (i v : ℕ) :
    (st.setTlasIdx i v).freed0 = st.freed0 := rfl

@[simp] theorem setTlasIdx_freed1 (st : KD) (i v : ℕ) :
    (st.setTlasIdx i v).freed1 = st.freed1 := rfl

@[simp] theorem setBounds_bounds (st : KD) (i : ℕ) (b : Bounds) :
    (st.setBounds i b).bounds = Function.update st.bounds i b := rfl

@[simp] theorem setBounds_node (st : KD) (i : ℕ) (b : Bounds) :
    (st.setBounds i b).node = st.node := rfl

@[simp] theorem setBounds_tlas (st : KD) (i : ℕ) (b : Bounds) :
    (st.setBounds i b).tlas = st.tlas := rfl

@[simp] theorem setBounds_leaf (st : KD) (i : ℕ) (b : Bounds) :
    (st.setBounds i b).leaf = st.leaf := rfl

@[simp] theorem setBounds_tlasIdx (st : KD) (i : ℕ) (b : Bounds) :
    (st.setBounds i b).tlasIdx = st.tlasIdx := rfl

@[simp] theorem setBounds_nodePtr (st : KD) (i : ℕ) (b : Bounds) :
    (st.setBounds i b).nodePtr = st.nodePtr := rfl

@[simp] theorem setBounds_tlasCount (st : KD) (i : ℕ) (b : Bounds) :
    (st.setBounds i b).tlasCount = st.tlasCount := rfl

@[simp] theorem setBounds_blasCount (st : KD) (i : ℕ) (b : Bounds) :
    (st.setBounds i b).blasCount = st.blasCount := rfl

@[simp] theorem setBounds_freed0 (st : KD) (i : ℕ) (b : Bounds) :
    (st.setBounds i b).freed0 = st.freed0 := rfl

@[simp] theorem setBounds_freed1 (st : KD) (i : ℕ) (b : Bounds) :
    (st.setBounds i b).freed1 = st.freed1 := rfl


/-! ### Partition: the two-ended scan is a permutation that splits by side -/

/-- `swapIdx` only permutes `tlasIdx`, by the transposition of the two
positions. -/
theorem swapIdx_eq (st : KD) (a b : ℕ) :
    st.swapIdx a b = { st with tlasIdx := fun j => st.tlasIdx (Equiv.swap a b j) } := by
  unfold KD.swapIdx
  congr 1
  funext j
  rcases eq_or_ne j b with rfl | hb
  · rcases eq_or_ne j a with rfl | ha
    · simp
    · simp [Function.update_apply, Equiv.swap_apply_right, ha]
  · rcases eq_or_ne j a with rfl | ha
    · simp [Function.update_apply, Equiv.swap_apply_left, hb]
    · simp [Function.update_apply, Equiv.swap_apply_of_ne_of_ne ha hb, ha, hb]

/-- One-step unfolding of the scan loop. -/
theorem partitionScan_succ (fuel : ℕ) (st : KD) (axis : ℕ) (c : ℚ) (fst lst : ℕ) :
    partitionScan (fuel + 1) st axis c fst lst =
      if c < (centroidOf (st.bounds (st.tlasIdx fst))).get axis then
        if lst - 1 ≤ fst then (st.swapIdx fst (lst - 1), lst - 1)
        else partitionScan fuel (st.swapIdx fst (lst - 1)) axis c fst (lst - 1)
      else
        if lst ≤ fst + 1 then (st, lst)
        else partitionScan fuel st axis c (fst + 1) lst := rfl

/-- Correctness of the two-ended scan: it permutes `tlasIdx` inside the
window `[fst, lst)` only, and on exit every position left of the returned
split index holds an instance with centroid at or below `c` on `axis`, and
every position from the split index to `lst` holds one strictly above `c`. -/
theorem partitionScan_spec (axis : ℕ) (c : ℚ) :
    ∀ (fuel : ℕ) (st : KD) (fst lst : ℕ), fst < lst → lst - fst ≤ fuel →
    ∃ e : Equiv.Perm ℕ,
      (∀ j, j < fst ∨ lst ≤ j → e j = j) ∧
      (partitionScan fuel st axis c fst lst).1 =
        { st with tlasIdx := fun j => st.tlasIdx (e j) } ∧
      fst ≤ (partitionScan fuel st axis c fst lst).2 ∧
      (partitionScan fuel st axis c fst lst).2 ≤ lst ∧
      (∀ j, fst ≤ j → j < (partitionScan fuel st axis c fst lst).2 →
        (centroidOf (st.bounds ((partitionScan fuel st axis c fst lst).1.tlasIdx j))).get axis ≤ c) ∧
      (∀ j, (partitionScan fuel st axis c fst lst).2 ≤ j → j < lst →
        c < (centroidOf (st.bounds ((partitionScan fuel st axis c fst lst).1.tlasIdx j))).get axis) := by
  intro fuel
  induction fuel with
  | zero => intro st fst lst h1 h2; omega
  | succ k ih =>
    intro st fst lst h1 h2
    rw [partitionScan_succ]
    by_cases hc : c < (centroidOf (st.bounds (st.tlasIdx fst))).get axis
    · rw [if_pos hc]
      by_cases hend : lst - 1 ≤ fst
      · rw [if_pos hend]
        dsimp only
        have hfe : lst - 1 = fst := by omega
        refine ⟨Equiv.refl ℕ, fun j _ => rfl, ?_, by omega, by omega, ?_, ?_⟩
        · rw [swapIdx_eq, hfe]
          simp [Equiv.swap_self]
        · intro j hj1 hj2; omega
        · intro j hj1 hj2
          have hj : j = fst := by omega
          rw [hj, swapIdx_eq, hfe]
          simpa [Equiv.swap_self] using hc
      · rw [if_neg hend]
        obtain ⟨e, hfix, hst, hr1, hr2, hle, hgt⟩ :=
          ih (st.swapIdx fst (lst - 1)) fst (lst - 1) (by omega) (by omega)
        refine ⟨e.trans (Equiv.swap fst (lst - 1)), ?_, ?_, hr1, by omega, ?_, ?_⟩
        · intro j hj
          have h1j : e j = j := hfix j (by omega)
          have hja : j ≠ fst := by omega
          have hjb : j ≠ lst - 1 := by omega
          simp only [Equiv.trans_apply, h1j]
          exact Equiv.swap_apply_of_ne_of_ne hja hjb
        · rw [hst, swapIdx_eq]
          simp only [Equiv.trans_apply]
        · intro j hj1 hj2
          exact hle j hj1 hj2
        · intro j hj1 hj2
          rcases lt_or_ge j (lst - 1) with hj | hj
          · exact hgt j hj1 hj
          · have hj' : j = lst - 1 := by omega
            rw [hj']
            have hcl : (partitionScan k (st.swapIdx fst (lst - 1)) axis c fst (lst - 1)).1.tlasIdx
                (lst - 1) = st.tlasIdx fst := by
              rw [hst]
              show (st.swapIdx fst (lst - 1)).tlasIdx (e (lst - 1)) = st.tlasIdx fst
              rw [hfix (lst - 1) (Or.inr (le_refl _)), swapIdx_eq]
              show st.tlasIdx (Equiv.swap fst (lst - 1) (lst - 1)) = st.tlasIdx fst
              rw [Equiv.swap_apply_right]
            rw [hcl]
            exact hc
    · rw [if_neg hc]
      by_cases hend : lst ≤ fst + 1
      · rw [if_pos hend]
        dsimp only
        refine ⟨Equiv.refl ℕ, fun j _ => rfl, by simp, le_of_lt h1, le_refl lst, ?_, ?_⟩
        · intro j hj1 hj2
          have hj : j = fst := by omega
          rw [hj]
          simpa using le_of_not_lt hc
        · intro j hj1 hj2; omega
      · rw [if_neg hend]
        obtain ⟨e, hfix, hst, hr1, hr2, hle, hgt⟩ := ih st (fst + 1) lst (by omega) (by omega)
        refine ⟨e, fun j hj => hfix j (by omega), hst, by omega, hr2, ?_, hgt⟩
        intro j hj1 hj2
        rcases eq_or_lt_of_le hj1 with hj | hj
        · have hcl : (partitionScan k st axis c (fst + 1) lst).1.tlasIdx j = st.tlasIdx j := by
            rw [hst]
            show st.tlasIdx (e j) = st.tlasIdx j
            rw [hfix j (by omega)]
          rw [hcl, ← hj]
          exact le_of_not_lt hc
        · exact hle j (by omega) hj2

/-- Workhorse description of `partition` on a node with `count ≥ 3`: `tlasIdx`
is permuted inside the node's range only; the two scratch slots `nodePtr`,
`nodePtr + 1` receive the left/right leaf records around the scan's split
index `r`; nothing else changes; and the two sub-ranges lie on the two sides
of the split position. -/
theorem partition_spec3 (st : KD) (nidx : ℕ) (c : ℚ) (axis : ℕ)
    (h3 : 3 ≤ (st.node nidx).right) :
    ∃ (e : Equiv.Perm ℕ) (r : ℕ),
      (st.node nidx).left ≤ r ∧ r ≤ (st.node nidx).left + (st.node nidx).right ∧
      (∀ j, j < (st.node nidx).left ∨ (st.node nidx).left + (st.node nidx).right ≤ j →
        e j = j) ∧
      (partition st nidx c axis).tlasIdx = (fun j => st.tlasIdx (e j)) ∧
      (partition st nidx c axis).node st.nodePtr =
        { st.node st.nodePtr with
          left := (st.node nidx).left,
          right := r - (st.node nidx).left, parax := nidx * 8 + 7 } ∧
      (partition st nidx c axis).node (st.nodePtr + 1) =
        { st.node (st.nodePtr + 1) with
          left := r,
          right := (st.node nidx).right - (r - (st.node nidx).left),
          parax := nidx * 8 + 7 } ∧
      (∀ k, k ≠ st.nodePtr → k ≠ st.nodePtr + 1 →
        (partition st nidx c axis).node k = st.node k) ∧
      (partition st nidx c axis).nodePtr = st.nodePtr ∧
      (partition st nidx c axis).tlasCount = st.tlasCount ∧
      (partition st nidx c axis).bounds = st.bounds ∧
      (partition st nidx c axis).leaf = st.leaf ∧
      (partition st nidx c axis).blasCount = st.blasCount ∧
      (partition st nidx c axis).tlas = st.tlas ∧
      (partition st nidx c axis).freed0 = st.freed0 ∧
      (partition st nidx c axis).freed1 = st.freed1 ∧
      (∀ j, (st.node nidx).left ≤ j → j < r →
        (centroidOf (st.bounds (st.tlasIdx (e j)))).get axis ≤ c) ∧
      (∀ j, r ≤ j → j < (st.node nidx).left + (st.node nidx).right →
        c < (centroidOf (st.bounds (st.tlasIdx (e j)))).get axis) := by
  have hu : partition st nidx c axis =
      ((partitionScan (st.node nidx).right st axis c (st.node nidx).left
          ((st.node nidx).left + (st.node nidx).right)).1.setNode
        (partitionScan (st.node nidx).right st axis c (st.node nidx).left
          ((st.node nidx).left + (st.node nidx).right)).1.nodePtr
        { ((partitionScan (st.node nidx).right st axis c (st.node nidx).left
            ((st.node nidx).left + (st.node nidx).right)).1.node
            (partitionScan (st.node nidx).right st axis c (st.node nidx).left
              ((st.node nidx).left + (st.node nidx).right)).1.nodePtr) with
          left := (st.node nidx).left,
          right := (partitionScan (st.node nidx).right st axis c (st.node nidx).left
              ((st.node nidx).left + (st.node nidx).right)).2 - (st.node nidx).left,
          parax := nidx * 8 + 7 }).setNode
        (((partitionScan (st.node nidx).right st axis c (st.node nidx).left
            ((st.node nidx).left + (st.node nidx).right)).1.setNode
          (partitionScan (st.node nidx).right st axis c (st.node nidx).left
            ((st.node nidx).left + (st.node nidx).right)).1.nodePtr
          { ((partitionScan (st.node nidx).right st axis c (st.node nidx).left
              ((st.node nidx).left + (st.node nidx).right)).1.node
              (partitionScan (st.node nidx).right st axis c (st.node nidx).left
                ((st.node nidx).left + (st.node nidx).right)).1.nodePtr) with
            left := (st.node nidx).left,
            right := (partitionScan (st.node nidx).right st axis c (st.node nidx).left
                ((st.node nidx).left + (st.node nidx).right)).2 - (st.node nidx).left,
            parax := nidx * 8 + 7 }).nodePtr + 1)
        { (((partitionScan (st.node nidx).right st axis c (st.node nidx).left
            ((st.node nidx).left + (st.node nidx).right)).1.setNode
          (partitionScan (st.node nidx).right st axis c (st.node nidx).left
            ((st.node nidx).left + (st.node nidx).right)).1.nodePtr
          { ((partitionScan (st.node nidx).right st axis c (st.node nidx).left
              ((st.node nidx).left + (st.node nidx).right)).1.node
              (partitionScan (st.node nidx).right st axis c (st.node nidx).left
                ((st.node nidx).left + (st.node nidx).right)).1.nodePtr) with
            left := (st.node nidx).left,
            right := (partitionScan (st.node nidx).right st axis c (st.node nidx).left
                ((st.node nidx).left + (st.node nidx).right)).2 - (st.node nidx).left,
            parax := nidx * 8 + 7 }).node
          (((partitionScan (st.node nidx).right st axis c (st.node nidx).left
              ((st.node nidx).left + (st.node nidx).right)).1.setNode
            (partitionScan (st.node nidx).right st axis c (st.node nidx).left
              ((st.node nidx).left + (st.node nidx).right)).1.nodePtr
            { ((partitionScan (st.node nidx).right st axis c (st.node nidx).left
                ((st.node nidx).left + (st.node nidx).right)).1.node
                (partitionScan (st.node nidx).right st axis c (st.node nidx).left
                  ((st.node nidx).left + (st.node nidx).right)).1.nodePtr) with
              left := (st.node nidx).left,
              right := (partitionScan (st.node nidx).right st axis c (st.node nidx).left
                  ((st.node nidx).left + (st.node nidx).right)).2 - (st.node nidx).left,
              parax := nidx * 8 + 7 }).nodePtr + 1)) with
          left := (partitionScan (st.node nidx).right st axis c (st.node nidx).left
              ((st.node nidx).left + (st.node nidx).right)).2,
          right := (st.node nidx).right -
            ((partitionScan (st.node nidx).right st axis c (st.node nidx).left
                ((st.node nidx).left + (st.node nidx).right)).2 - (st.node nidx).left),
          parax := nidx * 8 + 7 } := by
    simp only [partition]
    simp only [if_neg (by omega : ¬(st.node nidx).right < 3)]
  obtain ⟨e, hfix, hst, hr1, hr2, hle, hgt⟩ :=
    partitionScan_spec axis c (st.node nidx).right st (st.node nidx).left
      ((st.node nidx).left + (st.node nidx).right) (by omega) (by omega)
  refine ⟨e, (partitionScan (st.node nidx).right st axis c (st.node nidx).left
      ((st.node nidx).left + (st.node nidx).right)).2, hr1, hr2, hfix, ?_⟩
  rw [hu, hst]
  refine ⟨rfl, ?_, ?_, ?_, rfl, rfl, rfl, rfl, rfl, rfl, rfl, rfl, ?_, ?_⟩
  · simp [KD.setNode, Function.update_apply]
  · simp [KD.setNode, Function.update_apply]
  · intro k hk1 hk2
    simp [KD.setNode, Function.update_apply, hk1, hk2]
  · intro j hj1 hj2
    have := hle j hj1 hj2
    rwa [hst] at this
  · intro j hj1 hj2
    have := hgt j hj1 hj2
    rwa [hst] at this

/-- Behaviour of `partition` on a node with `count == 2`: the `N < 3`
shortcut sets `last = first + 1`, so the children are the first and second
stored item respectively, with no reordering and no look at the split
position. -/
theorem partition_spec2 (st : KD) (nidx : ℕ) (c : ℚ) (axis : ℕ)
    (h2 : (st.node nidx).right = 2) :
    partition st nidx c axis =
      (st.setNode st.nodePtr
        { st.node st.nodePtr with
          left := (st.node nidx).left, right := 1,
          parax := nidx * 8 + 7 }).setNode (st.nodePtr + 1)
        { st.node (st.nodePtr + 1) with
          left := (st.node nidx).left + 1, right := 1,
          parax := nidx * 8 + 7 } := by
  simp only [partition]
  simp only [if_pos (by omega : (st.node nidx).right < 3), h2]
  simp [KD.setNode, Function.update_apply]

/-! ### C3 amended — partition splits by centroid side for `count ≥ 3` -/

/-- C3 amended: for a node with `count ≥ 3`, `subdivide`'s `partition` call
reorders `tlasIdx[first .. first+count)` in place (a permutation fixing
everything outside the node's range; the two-ended scan only swaps items
out) so that the left child's range holds exactly the instances whose
centroid on the split axis is at or below the split position and the right
child's range those strictly above it, the two ranges being adjacent and
together exactly the parent's range.  (For `count == 2` this fails, see the
counterexample: `partition` takes the `N < 3` shortcut.) -/
theorem subdivide_partition_sides (st : KD) (nidx : ℕ) (c : ℚ) (axis : ℕ)
    (h3 : 3 ≤ (st.node nidx).right) :
    ∃ e : Equiv.Perm ℕ,
      (∀ j, j < (st.node nidx).left ∨ (st.node nidx).left + (st.node nidx).right ≤ j →
        e j = j) ∧
      (partition st nidx c axis).tlasIdx = (fun j => st.tlasIdx (e j)) ∧
      ((partition st nidx c axis).node st.nodePtr).left = (st.node nidx).left ∧
      ((partition st nidx c axis).node (st.nodePtr + 1)).left =
        (st.node nidx).left + ((partition st nidx c axis).node st.nodePtr).right ∧
      ((partition st nidx c axis).node st.nodePtr).right +
        ((partition st nidx c axis).node (st.nodePtr + 1)).right = (st.node nidx).right ∧
      (∀ j, ((partition st nidx c axis).node st.nodePtr).left ≤ j →
          j < ((partition st nidx c axis).node st.nodePtr).left +
            ((partition st nidx c axis).node st.nodePtr).right →
        (centroidOf (st.bounds ((partition st nidx c axis).tlasIdx j))).get axis ≤ c) ∧
      (∀ j, ((partition st nidx c axis).node (st.nodePtr + 1)).left ≤ j →
          j < ((partition st nidx c axis).node (st.nodePtr + 1)).left +
            ((partition st nidx c axis).node (st.nodePtr + 1)).right →
        c < (centroidOf (st.bounds ((partition st nidx c axis).tlasIdx j))).get axis) := by
  obtain ⟨e, r, hr1, hr2, hfix, hidx, hL, hR, hother, hnp, htc, hbs, hlf, hbc, htl, hf0, hf1,
    hle, hgt⟩ := partition_spec3 st nidx c axis h3
  refine ⟨e, hfix, hidx, ?_, ?_, ?_, ?_, ?_⟩
  · rw [hL]
  · rw [hL, hR]
    simp only
    omega
  · rw [hL, hR]
    simp only
    omega
  · intro j hj1 hj2
    rw [hL] at hj1 hj2
    simp only at hj1 hj2
    rw [hidx]
    exact hle j hj1 (by omega)
  · intro j hj1 hj2
    rw [hR] at hj1 hj2
    simp only at hj1 hj2
    rw [hidx]
    exact hgt j hj1 (by omega)

/-- Witness for `subdivide_partition_sides` on `c3wState` with split
position `5` on axis `0`. -/
theorem subdivide_partition_sides_witness :
    3 ≤ (c3wState.node 0).right ∧
    (∃ e : Equiv.Perm ℕ,
      (∀ j, j < (c3wState.node 0).left ∨ (c3wState.node 0).left + (c3wState.node 0).right ≤ j →
        e j = j) ∧
      (partition c3wState 0 5 0).tlasIdx = (fun j => c3wState.tlasIdx (e j)) ∧
      ((partition c3wState 0 5 0).node c3wState.nodePtr).left = (c3wState.node 0).left ∧
      ((partition c3wState 0 5 0).node (c3wState.nodePtr + 1)).left =
        (c3wState.node 0).left + ((partition c3wState 0 5 0).node c3wState.nodePtr).right ∧
      ((partition c3wState 0 5 0).node c3wState.nodePtr).right +
        ((partition c3wState 0 5 0).node (c3wState.nodePtr + 1)).right =
        (c3wState.node 0).right ∧
      (∀ j, ((partition c3wState 0 5 0).node c3wState.nodePtr).left ≤ j →
          j < ((partition c3wState 0 5 0).node c3wState.nodePtr).left +
            ((partition c3wState 0 5 0).node c3wState.nodePtr).right →
        (centroidOf (c3wState.bounds ((partition c3wState 0 5 0).tlasIdx j))).get 0 ≤ 5) ∧
      (∀ j, ((partition c3wState 0 5 0).node (c3wState.nodePtr + 1)).left ≤ j →
          j < ((partition c3wState 0 5 0).node (c3wState.nodePtr + 1)).left +
            ((partition c3wState 0 5 0).node (c3wState.nodePtr + 1)).right →
        5 < (centroidOf (c3wState.bounds ((partition c3wState 0 5 0).tlasIdx j))).get 0)) :=
  ⟨by decide, subdivide_partition_sides c3wState 0 5 0 (by decide)⟩

/-! ### Componentwise access lemmas -/

theorem fminf_get (a b : Vec3) (k : ℕ) (hk : k ≤ 2) :
    (fminf a b).get k = min (a.get k) (b.get k) := by
  interval_cases k <;> rfl

theorem fmaxf_get (a b : Vec3) (k : ℕ) (hk : k ≤ 2) :
    (fmaxf a b).get k = max (a.get k) (b.get k) := by
  interval_cases k <;> rfl

theorem vec3const_get (q : ℚ) (k : ℕ) (hk : k ≤ 2) : (vec3const q).get k = q := by
  interval_cases k <;> rfl

theorem sub_get (a b : Vec3) (k : ℕ) (hk : k ≤ 2) : (a - b).get k = a.get k - b.get k := by
  interval_cases k <;> rfl

theorem add_get (a b : Vec3) (k : ℕ) (hk : k ≤ 2) : (a + b).get k = a.get k + b.get k := by
  interval_cases k <;> rfl

theorem scl_get (q : ℚ) (v : Vec3) (k : ℕ) (hk : k ≤ 2) : (scl q v).get k = q * v.get k := by
  interval_cases k <;> rfl

/-! ### Fold characterisations for the subdivide bounds pass -/

theorem foldl_min_spec (g : ℕ → ℚ) (a : ℚ) :
    ∀ c : ℕ,
      ((List.range c).foldl (fun acc i => min acc (g i)) a ≤ a ∧
        ∀ j, j < c → (List.range c).foldl (fun acc i => min acc (g i)) a ≤ g j) ∧
      ((List.range c).foldl (fun acc i => min acc (g i)) a = a ∨
        ∃ j, j < c ∧ (List.range c).foldl (fun acc i => min acc (g i)) a = g j) := by
  intro c
  induction c with
  | zero => exact ⟨⟨le_refl a, fun j hj => absurd hj (Nat.not_lt_zero j)⟩, Or.inl rfl⟩
  | succ k ih =>
    rw [List.range_succ, List.foldl_append, List.foldl_cons, List.foldl_nil]
    refine ⟨⟨le_trans (min_le_left _ _) ih.1.1, ?_⟩, ?_⟩
    · intro j hj
      rcases Nat.lt_succ_iff_lt_or_eq.mp hj with hj | hj
      · exact le_trans (min_le_left _ _) (ih.1.2 j hj)
      · rw [hj]
        exact min_le_right _ _
    · rcases le_or_lt ((List.range k).foldl (fun acc i => min acc (g i)) a) (g k) with h | h
      · rw [min_eq_left h]
        exact ih.2.imp id (fun hj => hj.imp (fun j hj2 => ⟨Nat.lt_succ_of_lt hj2.1, hj2.2⟩))
      · rw [min_eq_right (le_of_lt h)]
        exact Or.inr ⟨k, Nat.lt_succ_self k, rfl⟩

theorem foldl_max_spec (g : ℕ → ℚ) (a : ℚ) :
    ∀ c : ℕ,
      (a ≤ (List.range c).foldl (fun acc i => max acc (g i)) a ∧
        ∀ j, j < c → g j ≤ (List.range c).foldl (fun acc i => max acc (g i)) a) ∧
      ((List.range c).foldl (fun acc i => max acc (g i)) a = a ∨
        ∃ j, j < c ∧ (List.range c).foldl (fun acc i => max acc (g i)) a = g j) := by
  intro c
  induction c with
  | zero => exact ⟨⟨le_refl a, fun j hj => absurd hj (Nat.not_lt_zero j)⟩, Or.inl rfl⟩
  | succ k ih =>
    rw [List.range_succ, List.foldl_append, List.foldl_cons, List.foldl_nil]
    refine ⟨⟨le_trans ih.1.1 (le_max_left _ _), ?_⟩, ?_⟩
    · intro j hj
      rcases Nat.lt_succ_iff_lt_or_eq.mp hj with hj | hj
      · exact le_trans (ih.1.2 j hj) (le_max_left _ _)
      · rw [hj]
        exact le_max_right _ _
    · rcases le_or_lt (g k) ((List.range k).foldl (fun acc i => max acc (g i)) a) with h | h
      · rw [max_eq_left h]
        exact ih.2.imp id (fun hj => hj.imp (fun j hj2 => ⟨Nat.lt_succ_of_lt hj2.1, hj2.2⟩))
      · rw [max_eq_right (le_of_lt h)]
        exact Or.inr ⟨k, Nat.lt_succ_self k, rfl⟩

/-- One step of the centroid-bounds fold. -/
theorem boundsFold_succ (st : KD) (f c : ℕ) :
    boundsFold st f (c + 1) =
      (fminf (boundsFold st f c).1
          (scl (1/2) ((st.bounds (st.tlasIdx (f + c))).bmin + (st.bounds (st.tlasIdx (f + c))).bmax)),
        fmaxf (boundsFold st f c).2.1
          (scl (1/2) ((st.bounds (st.tlasIdx (f + c))).bmin + (st.bounds (st.tlasIdx (f + c))).bmax)),
        fminf (boundsFold st f c).2.2
          (scl (1/2) ((st.bounds (st.tlasIdx (f + c))).bmax - (st.bounds (st.tlasIdx (f + c))).bmax))) := by
  unfold boundsFold
  rw [List.range_succ, List.foldl_append, List.foldl_cons, List.foldl_nil]

/-- The `bmin` component of the bounds pass is the running minimum of the
centroid coordinates, on each real axis. -/
theorem boundsFold_bmin_get (st : KD) (f : ℕ) (k : ℕ) (hk : k ≤ 2) :
    ∀ c, (boundsFold st f c).1.get k =
      (List.range c).foldl
        (fun acc i => min acc ((centroidOf (st.bounds (st.tlasIdx (f + i)))).get k)) big := by
  intro c
  induction c with
  | zero =>
    simp only [List.range_zero, List.foldl_nil]
    exact vec3const_get big k hk
  | succ m ih =>
    rw [boundsFold_succ, List.range_succ, List.foldl_append, List.foldl_cons, List.foldl_nil, ← ih]
    exact fminf_get _ _ k hk

/-- The `bmax` component of the bounds pass is the running maximum of the
centroid coordinates, on each real axis. -/
theorem boundsFold_bmax_get (st : KD) (f : ℕ) (k : ℕ) (hk : k ≤ 2) :
    ∀ c, (boundsFold st f c).2.1.get k =
      (List.range c).foldl
        (fun acc i => max acc ((centroidOf (st.bounds (st.tlasIdx (f + i)))).get k)) (-big) := by
  intro c
  induction c with
  | zero =>
    simp only [List.range_zero, List.foldl_nil]
    exact vec3const_get (-big) k hk
  | succ m ih =>
    rw [boundsFold_succ, List.range_succ, List.foldl_append, List.foldl_cons, List.foldl_nil, ← ih]
    exact fmaxf_get _ _ k hk

/-- The bounds pass computes the attained minimum/maximum of the centroid
coordinates whenever the node is non-empty and the coordinates do not reach
the `1e30` sentinels. -/
theorem boundsFold_inf_sup (st : KD) (f c : ℕ) (k : ℕ) (hk : k ≤ 2) (hc : 1 ≤ c)
    (hb : ∀ j, j < c → -big < (centroidOf (st.bounds (st.tlasIdx (f + j)))).get k ∧
      (centroidOf (st.bounds (st.tlasIdx (f + j)))).get k < big) :
    IsInfOn (fun j => (centroidOf (st.bounds (st.tlasIdx (f + j)))).get k) c
      ((boundsFold st f c).1.get k) ∧
    IsSupOn (fun j => (centroidOf (st.bounds (st.tlasIdx (f + j)))).get k) c
      ((boundsFold st f c).2.1.get k) := by
  rw [boundsFold_bmin_get st f k hk c, boundsFold_bmax_get st f k hk c]
  obtain ⟨⟨hminb, hminlb⟩, hminat⟩ :=
    foldl_min_spec (fun j => (centroidOf (st.bounds (st.tlasIdx (f + j)))).get k) big c
  obtain ⟨⟨hmaxb, hmaxub⟩, hmaxat⟩ :=
    foldl_max_spec (fun j => (centroidOf (st.bounds (st.tlasIdx (f + j)))).get k) (-big) c
  constructor
  · refine ⟨hminlb, ?_⟩
    rcases hminat with h | h
    · exfalso
      have := hminlb 0 (by omega)
      rw [h] at this
      exact absurd (lt_of_lt_of_le (hb 0 (by omega)).2 this) (lt_irrefl _)
    · obtain ⟨j, hj, he⟩ := h
      exact ⟨j, hj, he.symm⟩
  · refine ⟨hmaxub, ?_⟩
    rcases hmaxat with h | h
    · exfalso
      have := hmaxub 0 (by omega)
      rw [h] at this
      have h2 := (hb 0 (by omega)).1
      exact absurd (lt_of_le_of_lt this h2) (lt_irrefl _)
    · obtain ⟨j, hj, he⟩ := h
      exact ⟨j, hj, he.symm⟩

/-- The balancing count of `subdivide` is the cardinality of the set of
instances whose centroid lies at or below `center` on `axis`. -/
theorem leftCountFold_eq_card (st : KD) (f axis : ℕ) (center : ℚ) :
    ∀ c, leftCountFold st f c axis center =
      ((Finset.range c).filter (fun i =>
        (centroidOf (st.bounds (st.tlasIdx (f + i)))).get axis ≤ center)).card := by
  intro c
  induction c with
  | zero => rfl
  | succ m ih =>
    unfold leftCountFold at ih ⊢
    rw [List.range_succ, List.foldl_append, List.foldl_cons, List.foldl_nil, ih,
      Finset.range_succ, Finset.filter_insert]
    simp only [centroidOf]
    by_cases h : (scl (1/2)
        ((st.bounds (st.tlasIdx (f + m))).bmin + (st.bounds (st.tlasIdx (f + m))).bmax)).get axis ≤
        center
    · simp only [if_pos h]
      rw [Finset.card_insert_of_not_mem (by simp)]
    · simp only [if_neg h]

/-- One-step unfolding of `subdivide` in terms of the named intermediate
views; definitional. -/
theorem subdivide_succ_eq (fl : ℕ) (st : KD) (nidx : ℕ) :
    subdivide (fl + 1) st nidx =
      if (st.node nidx).right < 2 then subdivSt1 st nidx
      else if SplitFailed st nidx then subdivSt2 st nidx
      else subdivide fl (subdivide fl (subdivSt3 st nidx) (subdivSt2 st nidx).nodePtr)
        ((subdivSt2 st nidx).nodePtr + 1) := by
  rw [subdivide]
  by_cases h1 : (st.node nidx).right < 2
  · rw [if_pos h1]
    rw [if_pos h1]
    rfl
  · rw [if_neg h1]
    rw [if_neg h1]
    by_cases h2 : SplitFailed st nidx
    · rw [if_pos h2]
      have h2x := h2
      simp only [SplitFailed, subdivSt2, subdivCenter, subdivSt1, subdivAxis] at h2x
      simp only [if_pos h2x]
      rfl
    · rw [if_neg h2]
      have h2x := h2
      simp only [SplitFailed, subdivSt2, subdivCenter, subdivSt1, subdivAxis] at h2x
      simp only [if_neg h2x]
      rfl

/-! ### Frame lemmas for partition and subdivide -/

/-- The scan loop changes only `tlasIdx`. -/
theorem partitionScan_frame :
    ∀ (fuel : ℕ) (st : KD) (axis : ℕ) (c : ℚ) (fst lst : ℕ),
      (partitionScan fuel st axis c fst lst).1.node = st.node ∧
      (partitionScan fuel st axis c fst lst).1.bounds = st.bounds ∧
      (partitionScan fuel st axis c fst lst).1.leaf = st.leaf ∧
      (partitionScan fuel st axis c fst lst).1.tlas = st.tlas ∧
      (partitionScan fuel st axis c fst lst).1.nodePtr = st.nodePtr ∧
      (partitionScan fuel st axis c fst lst).1.tlasCount = st.tlasCount ∧
      (partitionScan fuel st axis c fst lst).1.blasCount = st.blasCount ∧
      (partitionScan fuel st axis c fst lst).1.freed0 = st.freed0 ∧
      (partitionScan fuel st axis c fst lst).1.freed1 = st.freed1 := by
  intro fuel
  induction fuel with
  | zero => intro st axis c fst lst; exact ⟨rfl, rfl, rfl, rfl, rfl, rfl, rfl, rfl, rfl⟩
  | succ k ih =>
    intro st axis c fst lst
    rw [partitionScan_succ]
    split_ifs with h1 h2 h3
    · exact ⟨rfl, rfl, rfl, rfl, rfl, rfl, rfl, rfl, rfl⟩
    · exact ih (st.swapIdx fst (lst - 1)) axis c fst (lst - 1)
    · exact ⟨rfl, rfl, rfl, rfl, rfl, rfl, rfl, rfl, rfl⟩
    · exact ih st axis c (fst + 1) lst

/-- `partition` changes only the two scratch node slots and `tlasIdx`. -/
theorem partition_frame (st : KD) (nidx : ℕ) (c : ℚ) (axis : ℕ) :
    (∀ k, k ≠ st.nodePtr → k ≠ st.nodePtr + 1 → (partition st nidx c axis).node k = st.node k) ∧
    (partition st nidx c axis).nodePtr = st.nodePtr ∧
    (partition st nidx c axis).bounds = st.bounds ∧
    (partition st nidx c axis).leaf = st.leaf ∧
    (partition st nidx c axis).tlas = st.tlas ∧
    (partition st nidx c axis).tlasCount = st.tlasCount ∧
    (partition st nidx c axis).blasCount = st.blasCount ∧
    (partition st nidx c axis).freed0 = st.freed0 ∧
    (partition st nidx c axis).freed1 = st.freed1 := by
  by_cases h : (st.node nidx).right < 3
  · simp only [partition]
    simp only [if_pos h]
    refine ⟨?_, by simp, by simp, by simp, by simp, by simp, by simp, by simp, by simp⟩
    intro k hk1 hk2
    simp only [setNode_node, setNode_nodePtr]
    rw [Function.update_noteq (by simpa using hk2), Function.update_noteq (by simpa using hk1)]
  · simp only [partition]
    simp only [if_neg h]
    obtain ⟨hn, hb, hl, ht, hp, htc, hbc, h0, h1⟩ :=
      partitionScan_frame (st.node nidx).right st axis c (st.node nidx).left
        ((st.node nidx).left + (st.node nidx).right)
    refine ⟨?_, by simp [hp], by simp [hb], by simp [hl], by simp [ht], by simp [htc],
      by simp [hbc], by simp [h0], by simp [h1]⟩
    intro k hk1 hk2
    simp only [setNode_node, setNode_nodePtr]
    rw [hp, Function.update_noteq (by simpa using hk2), Function.update_noteq (by simpa using hk1),
      hn]

/-- Unfolding of the `subdivSt2` view. -/
theorem subdivSt2_eq (st : KD) (nidx : ℕ) :
    subdivSt2 st nidx =
      partition (subdivSt1 st nidx) nidx (subdivCenter st nidx) (subdivAxis st nidx) := rfl

theorem subdivSt1_node_noteq (st : KD) (nidx k : ℕ) (hk : k ≠ nidx) :
    (subdivSt1 st nidx).node k = st.node k := Function.update_noteq hk _ _

theorem subdivSt2_nodePtr (st : KD) (nidx : ℕ) : (subdivSt2 st nidx).nodePtr = st.nodePtr := by
  rw [subdivSt2_eq, (partition_frame _ _ _ _).2.1]
  rfl

theorem subdivSt2_node_low (st : KD) (nidx k : ℕ) (hk1 : k ≠ st.nodePtr)
    (hk2 : k ≠ st.nodePtr + 1) :
    (subdivSt2 st nidx).node k = (subdivSt1 st nidx).node k := by
  rw [subdivSt2_eq]
  exact (partition_frame _ _ _ _).1 k hk1 hk2

theorem subdivSt2_bounds (st : KD) (nidx : ℕ) : (subdivSt2 st nidx).bounds = st.bounds := by
  rw [subdivSt2_eq, (partition_frame _ _ _ _).2.2.1]
  rfl

theorem subdivSt2_leaf (st : KD) (nidx : ℕ) : (subdivSt2 st nidx).leaf = st.leaf := by
  rw [subdivSt2_eq, (partition_frame _ _ _ _).2.2.2.1]
  rfl

theorem subdivSt2_tlas (st : KD) (nidx : ℕ) : (subdivSt2 st nidx).tlas = st.tlas := by
  rw [subdivSt2_eq, (partition_frame _ _ _ _).2.2.2.2.1]
  rfl

theorem subdivSt2_tlasCount (st : KD) (nidx : ℕ) :
    (subdivSt2 st nidx).tlasCount = st.tlasCount := by
  rw [subdivSt2_eq, (partition_frame _ _ _ _).2.2.2.2.2.1]
  rfl

theorem subdivSt2_blasCount (st : KD) (nidx : ℕ) :
    (subdivSt2 st nidx).blasCount = st.blasCount := by
  rw [subdivSt2_eq, (partition_frame _ _ _ _).2.2.2.2.2.2.1]
  rfl

theorem subdivSt2_freed0 (st : KD) (nidx : ℕ) : (subdivSt2 st nidx).freed0 = st.freed0 := by
  rw [subdivSt2_eq, (partition_frame _ _ _ _).2.2.2.2.2.2.2.1]
  rfl

theorem subdivSt2_freed1 (st : KD) (nidx : ℕ) : (subdivSt2 st nidx).freed1 = st.freed1 := by
  rw [subdivSt2_eq, (partition_frame _ _ _ _).2.2.2.2.2.2.2.2]
  rfl

theorem subdivSt3_nodePtr (st : KD) (nidx : ℕ) :
    (subdivSt3 st nidx).nodePtr = (subdivSt2 st nidx).nodePtr + 2 := rfl

theorem subdivSt3_node_noteq (st : KD) (nidx k : ℕ) (hk : k ≠ nidx) :
    (subdivSt3 st nidx).node k = (subdivSt2 st nidx).node k := Function.update_noteq hk _ _

theorem subdivSt3_bounds (st : KD) (nidx : ℕ) :
    (subdivSt3 st nidx).bounds = (subdivSt2 st nidx).bounds := rfl

theorem subdivSt3_leaf (st : KD) (nidx : ℕ) :
    (subdivSt3 st nidx).leaf = (subdivSt2 st nidx).leaf := rfl

theorem subdivSt3_tlas (st : KD) (nidx : ℕ) :
    (subdivSt3 st nidx).tlas = (subdivSt2 st nidx).tlas := rfl

theorem subdivSt3_tlasCount (st : KD) (nidx : ℕ) :
    (subdivSt3 st nidx).tlasCount = (subdivSt2 st nidx).tlasCount := rfl

theorem subdivSt3_blasCount (st : KD) (nidx : ℕ) :
    (subdivSt3 st nidx).blasCount = (subdivSt2 st nidx).blasCount := rfl

theorem subdivSt3_freed0 (st : KD) (nidx : ℕ) :
    (subdivSt3 st nidx).freed0 = (subdivSt2 st nidx).freed0 := rfl

theorem subdivSt3_freed1 (st : KD) (nidx : ℕ) :
    (subdivSt3 st nidx).freed1 = (subdivSt2 st nidx).freed1 := rfl

/-- `subdivide` never touches node slots below the incoming `nodePtr` other
than the node it was called on, only grows `nodePtr`, and leaves every
non-`node`/`tlasIdx` array and counter unchanged. -/
theorem subdivide_frame :
    ∀ (fuel : ℕ) (st : KD) (nidx : ℕ),
      st.nodePtr ≤ (subdivide fuel st nidx).nodePtr ∧
      (∀ k, k < st.nodePtr → k ≠ nidx → (subdivide fuel st nidx).node k = st.node k) ∧
      (subdivide fuel st nidx).bounds = st.bounds ∧
      (subdivide fuel st nidx).leaf = st.leaf ∧
      (subdivide fuel st nidx).tlas = st.tlas ∧
      (subdivide fuel st nidx).tlasCount = st.tlasCount ∧
      (subdivide fuel st nidx).blasCount = st.blasCount ∧
      (subdivide fuel st nidx).freed0 = st.freed0 ∧
      (subdivide fuel st nidx).freed1 = st.freed1 := by
  intro fuel
  induction fuel with
  | zero =>
    intro st nidx
    exact ⟨le_refl _, fun k _ _ => rfl, rfl, rfl, rfl, rfl, rfl, rfl, rfl⟩
  | succ fl ih =>
    intro st nidx
    rw [subdivide_succ_eq]
    by_cases h1 : (st.node nidx).right < 2
    · rw [if_pos h1]
      refine ⟨le_refl _, ?_, rfl, rfl, rfl, rfl, rfl, rfl, rfl⟩
      intro k hk1 hk2
      exact subdivSt1_node_noteq st nidx k hk2
    · rw [if_neg h1]
      by_cases h2 : SplitFailed st nidx
      · rw [if_pos h2]
        refine ⟨le_of_eq (subdivSt2_nodePtr st nidx).symm, ?_, subdivSt2_bounds st nidx,
          subdivSt2_leaf st nidx, subdivSt2_tlas st nidx, subdivSt2_tlasCount st nidx,
          subdivSt2_blasCount st nidx, subdivSt2_freed0 st nidx, subdivSt2_freed1 st nidx⟩
        intro k hk1 hk2
        rw [subdivSt2_node_low st nidx k (by omega) (by omega)]
        exact subdivSt1_node_noteq st nidx k hk2
      · rw [if_neg h2]
        obtain ⟨m1, n1, b1, l1, t1, tc1, bc1, f01, f11⟩ :=
          ih (subdivSt3 st nidx) (subdivSt2 st nidx).nodePtr
        obtain ⟨m2, n2, b2, l2, t2, tc2, bc2, f02, f12⟩ :=
          ih (subdivide fl (subdivSt3 st nidx) (subdivSt2 st nidx).nodePtr)
            ((subdivSt2 st nidx).nodePtr + 1)
        have hp2 : (subdivSt2 st nidx).nodePtr = st.nodePtr := subdivSt2_nodePtr st nidx
        have hp3 : (subdivSt3 st nidx).nodePtr = st.nodePtr + 2 := by
          rw [subdivSt3_nodePtr, hp2]
        constructor
        · refine le_trans ?_ (le_trans m1 m2)
          rw [hp3]
          omega
        refine ⟨?_, by rw [b2, b1, subdivSt3_bounds, subdivSt2_bounds],
          by rw [l2, l1, subdivSt3_leaf, subdivSt2_leaf],
          by rw [t2, t1, subdivSt3_tlas, subdivSt2_tlas],
          by rw [tc2, tc1, subdivSt3_tlasCount, subdivSt2_tlasCount],
          by rw [bc2, bc1, subdivSt3_blasCount, subdivSt2_blasCount],
          by rw [f02, f01, subdivSt3_freed0, subdivSt2_freed0],
          by rw [f12, f11, subdivSt3_freed1, subdivSt2_freed1]⟩
        intro k hk1 hk2
        rw [n2 k (by rw [hp3] at m1; omega) (by omega), n1 k (by rw [hp3]; omega) (by omega),
          subdivSt3_node_noteq st nidx k hk2, subdivSt2_node_low st nidx k (by omega) (by omega)]
        exact subdivSt1_node_noteq st nidx k hk2

/-! ### C7 — the split position chosen by subdivide -/

theorem dominantAxis_le_two (v : Vec3) : dominantAxis v ≤ 2 := by
  unfold dominantAxis
  split_ifs <;> omega

theorem subdivSt1_node_self (st : KD) (nidx : ℕ) :
    (subdivSt1 st nidx).node nidx =
      { st.node nidx with
        bmin := (boundsFold st (st.node nidx).left (st.node nidx).right).1,
        bmax := (boundsFold st (st.node nidx).left (st.node nidx).right).2.1,
        minSize := (boundsFold st (st.node nidx).left (st.node nidx).right).2.2 } := by
  show Function.update _ nidx _ nidx = _
  rw [Function.update_same]

theorem subdivSt3_node_self (st : KD) (nidx : ℕ) :
    (subdivSt3 st nidx).node nidx =
      { (subdivSt2 st nidx).node nidx with
        left := (subdivSt2 st nidx).nodePtr,
        right := (subdivSt2 st nidx).nodePtr + 1,
        parax := ((subdivSt2 st nidx).node nidx).parax / 8 * 8 + subdivAxis st nidx,
        splitPos := subdivCenter st nidx } := by
  show Function.update _ nidx _ nidx = _
  rw [Function.update_same]

/-- C7: whenever `subdivide` actually splits a (leaf-tagged) node with
`count ≥ 2` and with centroid coordinates away from the `1e30` sentinels,
the recorded split position is: for `count ≤ 150` the midpoint of the
centroid range on the dominant axis (the attained min/max of the centroid
coordinates), and for `count > 150` the balanced position
`r·lo + (1−r)·hi` where `r = clamp(leftCount/count, 0.15, 0.85)` and
`leftCount` counts the centroids at or below the midpoint on that axis. -/
theorem subdivide_splitpos (st : KD) (nidx : ℕ) (fl : ℕ)
    (hn : nidx < st.nodePtr)
    (hleaf : (st.node nidx).parax % 8 = 7)
    (h2 : 2 ≤ (st.node nidx).right)
    (hb : ∀ j, j < (st.node nidx).right → ∀ k, k ≤ 2 →
      -big < (centroidOf (st.bounds (st.tlasIdx ((st.node nidx).left + j)))).get k ∧
      (centroidOf (st.bounds (st.tlasIdx ((st.node nidx).left + j)))).get k < big)
    (hsplit : ((subdivide (fl + 1) st nidx).node nidx).parax % 8 ≤ 2) :
    ∃ lov hiv : Vec3,
      (∀ k, k ≤ 2 →
        IsInfOn (fun j => (centroidOf (st.bounds (st.tlasIdx ((st.node nidx).left + j)))).get k)
          (st.node nidx).right (lov.get k) ∧
        IsSupOn (fun j => (centroidOf (st.bounds (st.tlasIdx ((st.node nidx).left + j)))).get k)
          (st.node nidx).right (hiv.get k)) ∧
      ((subdivide (fl + 1) st nidx).node nidx).splitPos =
        (let A := dominantAxis (hiv - lov)
         let mid := (lov.get A + hiv.get A) * (1/2)
         let lc := ((Finset.range (st.node nidx).right).filter
            (fun j =>
              (centroidOf (st.bounds (st.tlasIdx ((st.node nidx).left + j)))).get A ≤ mid)).card
         let r := max (3/20 : ℚ) (min (17/20 : ℚ) ((lc : ℚ) / ((st.node nidx).right : ℚ)))
         if 150 < (st.node nidx).right then r * lov.get A + (1 - r) * hiv.get A else mid) := by
  rw [subdivide_succ_eq] at hsplit ⊢
  rw [if_neg (by omega : ¬(st.node nidx).right < 2)] at hsplit ⊢
  by_cases hsf : SplitFailed st nidx
  · exfalso
    rw [if_pos hsf] at hsplit
    rw [subdivSt2_node_low st nidx nidx (by omega) (by omega), subdivSt1_node_self] at hsplit
    simp only at hsplit
    omega
  · rw [if_neg hsf] at hsplit ⊢
    obtain ⟨m1, n1, -, -, -, -, -, -, -⟩ :=
      subdivide_frame fl (subdivSt3 st nidx) (subdivSt2 st nidx).nodePtr
    obtain ⟨m2, n2, -, -, -, -, -, -, -⟩ :=
      subdivide_frame fl (subdivide fl (subdivSt3 st nidx) (subdivSt2 st nidx).nodePtr)
        ((subdivSt2 st nidx).nodePtr + 1)
    have hp2 : (subdivSt2 st nidx).nodePtr = st.nodePtr := subdivSt2_nodePtr st nidx
    have hN : ((subdivide fl (subdivSt3 st nidx) (subdivSt2 st nidx).nodePtr).node nidx) =
        (subdivSt3 st nidx).node nidx := by
      refine n1 nidx ?_ (by omega)
      rw [subdivSt3_nodePtr, hp2]
      omega
    have hN2 : ((subdivide fl (subdivide fl (subdivSt3 st nidx) (subdivSt2 st nidx).nodePtr)
        ((subdivSt2 st nidx).nodePtr + 1)).node nidx) = (subdivSt3 st nidx).node nidx := by
      rw [n2 nidx ?_ (by omega), hN]
      refine lt_of_lt_of_le ?_ m1
      rw [subdivSt3_nodePtr, hp2]
      omega
    rw [hN2, subdivSt3_node_self]
    refine ⟨(boundsFold st (st.node nidx).left (st.node nidx).right).1,
      (boundsFold st (st.node nidx).left (st.node nidx).right).2.1, ?_, ?_⟩
    · intro k hk
      exact boundsFold_inf_sup st (st.node nidx).left (st.node nidx).right k hk (by omega)
        (fun j hj => hb j hj k hk)
    · show subdivCenter st nidx = _
      simp only [subdivCenter, splitCenter, subdivAxis, subdivSt1, leftCountFold_eq_card,
        setNode_bounds, setNode_tlasIdx]

/-- Witness for `subdivide_splitpos` on a root leaf over three instances with
centroids `0`, `10`, `4` on the diagonal: the dominant-axis centroid range is
`[0, 10]` and the recorded split position is the midpoint `5`. -/
theorem subdivide_splitpos_witness :
    2 ≤ (c3wState.node 0).right ∧
    ∃ lov hiv : Vec3,
      (∀ k, k ≤ 2 →
        IsInfOn
          (fun j => (centroidOf (c3wState.bounds (c3wState.tlasIdx ((c3wState.node 0).left + j)))).get k)
          (c3wState.node 0).right (lov.get k) ∧
        IsSupOn
          (fun j => (centroidOf (c3wState.bounds (c3wState.tlasIdx ((c3wState.node 0).left + j)))).get k)
          (c3wState.node 0).right (hiv.get k)) ∧
      ((subdivide (3 + 1) c3wState 0).node 0).splitPos =
        (let A := dominantAxis (hiv - lov)
         let mid := (lov.get A + hiv.get A) * (1/2)
         let lc := ((Finset.range (c3wState.node 0).right).filter
            (fun j =>
              (centroidOf (c3wState.bounds (c3wState.tlasIdx ((c3wState.node 0).left + j)))).get A ≤
                mid)).card
         let r := max (3/20 : ℚ) (min (17/20 : ℚ) ((lc : ℚ) / ((c3wState.node 0).right : ℚ)))
         if 150 < (c3wState.node 0).right then r * lov.get A + (1 - r) * hiv.get A else mid) :=
  ⟨by decide, subdivide_splitpos c3wState 0 3 (by decide) (by decide) (by decide)
    (by decide) (by decide)⟩

/-! ### C2 amended — after rebuild, interior bounds combine the children -/

theorem setNode_shape (st : KD) (i m : ℕ) (v : KDNode)
    (hp : v.parax = (st.node i).parax) (hL : v.left = (st.node i).left)
    (hR : v.right = (st.node i).right) :
    ((st.setNode i v).node m).parax = (st.node m).parax ∧
    ((st.setNode i v).node m).left = (st.node m).left ∧
    ((st.setNode i v).node m).right = (st.node m).right ∧
    (st.setNode i v).nodePtr = st.nodePtr ∧
    (m ≠ i → (st.setNode i v).node m = st.node m) := by
  rw [setNode_node]
  by_cases hm : m = i
  · subst hm
    rw [Function.update_same]
    exact ⟨hp, hL, hR, rfl, fun hc => absurd rfl hc⟩
  · rw [Function.update_noteq hm]
    exact ⟨rfl, rfl, rfl, rfl, fun h => rfl⟩

theorem refitLeafBody_node (i : ℕ) (s : KD) (j m : ℕ) :
    (refitLeafBody i s j).node m = Function.update s.node i
      { s.node i with
        minSize := fminf (s.node i).minSize
          (scl (1/2) ((s.bounds (s.tlasIdx ((s.node i).left + j))).bmax -
            (s.bounds (s.tlasIdx ((s.node i).left + j))).bmin)),
        bmin := fminf (s.node i).bmin
          (scl (1/2) ((s.bounds (s.tlasIdx ((s.node i).left + j))).bmax +
            (s.bounds (s.tlasIdx ((s.node i).left + j))).bmin)),
        bmax := fmaxf (s.node i).bmax
          (scl (1/2) ((s.bounds (s.tlasIdx ((s.node i).left + j))).bmax +
            (s.bounds (s.tlasIdx ((s.node i).left + j))).bmin)) } m := rfl

theorem refitLeafBody_shape (i : ℕ) (s : KD) (j m : ℕ) :
    ((refitLeafBody i s j).node m).parax = (s.node m).parax ∧
    ((refitLeafBody i s j).node m).left = (s.node m).left ∧
    ((refitLeafBody i s j).node m).right = (s.node m).right ∧
    (refitLeafBody i s j).nodePtr = s.nodePtr ∧
    (m ≠ i → (refitLeafBody i s j).node m = s.node m) := by
  rw [refitLeafBody_node]
  by_cases hm : m = i
  · subst hm
    rw [Function.update_same]
    exact ⟨rfl, rfl, rfl, rfl, fun hc => absurd rfl hc⟩
  · rw [Function.update_noteq hm]
    exact ⟨rfl, rfl, rfl, rfl, fun h => rfl⟩

theorem foldl_refitLeafBody_shape (i : ℕ) :
    ∀ (l : List ℕ) (s : KD) (m : ℕ),
      ((l.foldl (refitLeafBody i) s).node m).parax = (s.node m).parax ∧
      ((l.foldl (refitLeafBody i) s).node m).left = (s.node m).left ∧
      ((l.foldl (refitLeafBody i) s).node m).right = (s.node m).right ∧
      (l.foldl (refitLeafBody i) s).nodePtr = s.nodePtr ∧
      (m ≠ i → (l.foldl (refitLeafBody i) s).node m = s.node m) := by
  intro l
  induction l with
  | nil => intro s m; exact ⟨rfl, rfl, rfl, rfl, fun h => rfl⟩
  | cons a t ih =>
    intro s m
    have hb := refitLeafBody_shape i s a m
    have ht := ih (refitLeafBody i s a) m
    rw [List.foldl_cons]
    exact ⟨ht.1.trans hb.1, ht.2.1.trans hb.2.1, ht.2.2.1.trans hb.2.2.1,
      ht.2.2.2.1.trans hb.2.2.2.1,
      fun hm => (ht.2.2.2.2 hm).trans (hb.2.2.2.2 hm)⟩

theorem refitLeafScan_shape (st : KD) (i m : ℕ) :
    ((refitLeafScan st i).node m).parax = (st.node m).parax ∧
    ((refitLeafScan st i).node m).left = (st.node m).left ∧
    ((refitLeafScan st i).node m).right = (st.node m).right ∧
    (refitLeafScan st i).nodePtr = st.nodePtr ∧
    (m ≠ i → (refitLeafScan st i).node m = st.node m) := by
  have h0 := setNode_shape st i m
    { st.node i with minSize := vec3const big, bmin := vec3const big, bmax := vec3const (-big) }
    rfl rfl rfl
  have hf := foldl_refitLeafBody_shape i (List.range (st.node i).right)
    (st.setNode i
      { st.node i with minSize := vec3const big, bmin := vec3const big, bmax := vec3const (-big) })
    m
  exact ⟨hf.1.trans h0.1, hf.2.1.trans h0.2.1, hf.2.2.1.trans h0.2.2.1,
    hf.2.2.2.1.trans h0.2.2.2.1,
    fun hm => (hf.2.2.2.2 hm).trans (h0.2.2.2.2 hm)⟩

theorem combineAt_node_self (s : KD) (k : ℕ) :
    (combineAt s k).node k =
      { s.node k with
        minSize := fminf (s.node (s.node k).left).minSize (s.node (s.node k).right).minSize,
        bmin := fminf (s.node (s.node k).left).bmin (s.node (s.node k).right).bmin,
        bmax := fmaxf (s.node (s.node k).left).bmax (s.node (s.node k).right).bmax } := by
  show Function.update s.node k _ k = _
  rw [Function.update_same]

theorem combineAt_node_noteq (s : KD) (k m : ℕ) (h : m ≠ k) :
    (combineAt s k).node m = s.node m := by
  show Function.update s.node k _ m = _
  rw [Function.update_noteq h]

theorem refitOne_shape (s : KD) (k m : ℕ) :
    ((refitOne s k).node m).parax = (s.node m).parax ∧
    ((refitOne s k).node m).left = (s.node m).left ∧
    ((refitOne s k).node m).right = (s.node m).right ∧
    (refitOne s k).nodePtr = s.nodePtr ∧
    (m ≠ k → (refitOne s k).node m = s.node m) := by
  unfold refitOne
  by_cases h : (s.node k).isLeaf = true
  · rw [if_pos h]
    exact refitLeafScan_shape s k m
  · rw [if_neg h]
    by_cases hm : m = k
    · subst hm
      rw [combineAt_node_self]
      exact ⟨rfl, rfl, rfl, rfl, fun hc => absurd rfl hc⟩
    · rw [combineAt_node_noteq s k m hm]
      exact ⟨rfl, rfl, rfl, rfl, fun h2 => rfl⟩

theorem minRefitLoop_frame :
    ∀ (k : ℕ) (s : KD) (j : ℕ), k ≤ j → (minRefitLoop k s).node j = s.node j := by
  intro k
  induction k with
  | zero => intro s j h; rfl
  | succ k ih =>
    intro s j hj
    have hstep : minRefitLoop (k + 1) s = minRefitLoop k (refitOne s k) := rfl
    rw [hstep, ih (refitOne s k) j (by omega),
      (refitOne_shape s k j).2.2.2.2 (by omega)]

theorem minRefitLoop_nodePtr :
    ∀ (k : ℕ) (s : KD), (minRefitLoop k s).nodePtr = s.nodePtr := by
  intro k
  induction k with
  | zero => intro s; rfl
  | succ k ih =>
    intro s
    have hstep : minRefitLoop (k + 1) s = minRefitLoop k (refitOne s k) := rfl
    rw [hstep, ih (refitOne s k), (refitOne_shape s k 0).2.2.2.1]

theorem minRefitLoop_combined :
    ∀ (k : ℕ) (s : KD), ChildOrder s k →
      ∀ i, i < k → ((minRefitLoop k s).node i).isLeaf = false →
        ((minRefitLoop k s).node i).minSize =
          fminf ((minRefitLoop k s).node ((minRefitLoop k s).node i).left).minSize
            ((minRefitLoop k s).node ((minRefitLoop k s).node i).right).minSize ∧
        ((minRefitLoop k s).node i).bmin =
          fminf ((minRefitLoop k s).node ((minRefitLoop k s).node i).left).bmin
            ((minRefitLoop k s).node ((minRefitLoop k s).node i).right).bmin ∧
        ((minRefitLoop k s).node i).bmax =
          fmaxf ((minRefitLoop k s).node ((minRefitLoop k s).node i).left).bmax
            ((minRefitLoop k s).node ((minRefitLoop k s).node i).right).bmax := by
  intro k
  induction k with
  | zero => intro s _ i hi; omega
  | succ k ih =>
    intro s hCO i hi hleaf
    have hstep : minRefitLoop (k + 1) s = minRefitLoop k (refitOne s k) := rfl
    have hCO2 : ChildOrder (refitOne s k) k := by
      intro m hm hml
      have hsh := refitOne_shape s k m
      have hml2 : (s.node m).isLeaf = false := by
        unfold KDNode.isLeaf at hml ⊢
        rw [hsh.1] at hml
        exact hml
      have hc := hCO m (by omega) hml2
      rw [hsh.2.1, hsh.2.2.1]
      exact hc
    by_cases hik : i < k
    · rw [hstep] at hleaf ⊢
      exact ih (refitOne s k) hCO2 i hik hleaf
    · have hik2 : i = k := by omega
      subst hik2
      have hnk : (minRefitLoop (i + 1) s).node i = (refitOne s i).node i := by
        rw [hstep]
        exact minRefitLoop_frame i (refitOne s i) i le_rfl
      have hsl : (s.node i).isLeaf = false := by
        rw [hnk] at hleaf
        unfold KDNode.isLeaf at hleaf ⊢
        rw [(refitOne_shape s i i).1] at hleaf
        exact hleaf
      have hone : refitOne s i = combineAt s i := by
        unfold refitOne
        rw [hsl]
        rfl
      obtain ⟨hcl, hcr⟩ := hCO i (by omega) hsl
      have hfl : (minRefitLoop (i + 1) s).node (s.node i).left = s.node (s.node i).left := by
        rw [hstep, minRefitLoop_frame i (refitOne s i) _ (by omega), hone,
          combineAt_node_noteq s i _ (by omega)]
      have hfr2 : (minRefitLoop (i + 1) s).node (s.node i).right = s.node (s.node i).right := by
        rw [hstep, minRefitLoop_frame i (refitOne s i) _ (by omega), hone,
          combineAt_node_noteq s i _ (by omega)]
      have hk1 : (minRefitLoop (i + 1) s).node i =
          { s.node i with
            minSize := fminf (s.node (s.node i).left).minSize (s.node (s.node i).right).minSize,
            bmin := fminf (s.node (s.node i).left).bmin (s.node (s.node i).right).bmin,
            bmax := fmaxf (s.node (s.node i).left).bmax (s.node (s.node i).right).bmax } := by
        rw [hnk, hone, combineAt_node_self]
      have hLidx : ((minRefitLoop (i + 1) s).node i).left = (s.node i).left := by rw [hk1]
      have hRidx : ((minRefitLoop (i + 1) s).node i).right = (s.node i).right := by rw [hk1]
      refine ⟨?_, ?_, ?_⟩
      · rw [hLidx, hRidx, hfl, hfr2, hk1]
      · rw [hLidx, hRidx, hfl, hfr2, hk1]
      · rw [hLidx, hRidx, hfl, hfr2, hk1]

theorem partition_parax (st : KD) (nidx : ℕ) (c : ℚ) (axis : ℕ)
    (h2 : 2 ≤ (st.node nidx).right) :
    ((partition st nidx c axis).node st.nodePtr).parax = nidx * 8 + 7 ∧
    ((partition st nidx c axis).node (st.nodePtr + 1)).parax = nidx * 8 + 7 := by
  by_cases h3 : 3 ≤ (st.node nidx).right
  · obtain ⟨e, r, -, -, -, -, hL, hR, -, -, -, -, -, -, -, -, -, -⟩ :=
      partition_spec3 st nidx c axis h3
    rw [hL, hR]
    exact ⟨rfl, rfl⟩
  · have h2e : (st.node nidx).right = 2 := by omega
    rw [partition_spec2 st nidx c axis h2e]
    constructor
    · rw [setNode_node, Function.update_noteq (by omega), setNode_node, Function.update_same]
    · rw [setNode_node, Function.update_same]

theorem subdivide_CO :
    ∀ (fl : ℕ) (st : KD) (nidx : ℕ), nidx < st.nodePtr →
      ChildOrder st st.nodePtr →
      ChildOrder (subdivide fl st nidx) (subdivide fl st nidx).nodePtr := by
  intro fl
  induction fl with
  | zero => intro st nidx _ h; exact h
  | succ fl ih =>
    intro st nidx hn hCO
    rw [subdivide_succ_eq]
    by_cases h1 : (st.node nidx).right < 2
    · rw [if_pos h1]
      intro m hm hml
      by_cases hmn : m = nidx
      · subst hmn
        rw [subdivSt1_node_self] at hml ⊢
        exact hCO m hm hml
      · rw [subdivSt1_node_noteq st nidx m hmn] at hml ⊢
        exact hCO m hm hml
    · rw [if_neg h1]
      by_cases h2 : SplitFailed st nidx
      · rw [if_pos h2]
        intro m hm hml
        have hm2 : m < st.nodePtr := by
          rw [subdivSt2_nodePtr] at hm
          exact hm
        rw [subdivSt2_node_low st nidx m (by omega) (by omega)] at hml ⊢
        by_cases hmn : m = nidx
        · subst hmn
          rw [subdivSt1_node_self] at hml ⊢
          exact hCO m hm2 hml
        · rw [subdivSt1_node_noteq st nidx m hmn] at hml ⊢
          exact hCO m hm2 hml
      · rw [if_neg h2]
        have hp2 : (subdivSt2 st nidx).nodePtr = st.nodePtr := subdivSt2_nodePtr st nidx
        have h2r : 2 ≤ ((subdivSt1 st nidx).node nidx).right := by
          rw [subdivSt1_node_self]
          show 2 ≤ (st.node nidx).right
          omega
        have hCO3 : ChildOrder (subdivSt3 st nidx) (subdivSt3 st nidx).nodePtr := by
          intro m hm hml
          rw [subdivSt3_nodePtr, hp2] at hm
          by_cases hmn : m = nidx
          · rw [hmn] at hml ⊢
            rw [subdivSt3_node_self] at hml ⊢
            refine ⟨?_, ?_⟩
            · show nidx < (subdivSt2 st nidx).nodePtr
              omega
            · show nidx < (subdivSt2 st nidx).nodePtr + 1
              omega
          · rw [subdivSt3_node_noteq st nidx m hmn] at hml ⊢
            by_cases hms : m < st.nodePtr
            · rw [subdivSt2_node_low st nidx m (by omega) (by omega)] at hml ⊢
              rw [subdivSt1_node_noteq st nidx m hmn] at hml ⊢
              exact hCO m hms hml
            · exfalso
              have hpar := partition_parax (subdivSt1 st nidx) nidx (subdivCenter st nidx)
                (subdivAxis st nidx) h2r
              obtain hc1 | hc2 : m = st.nodePtr ∨ m = st.nodePtr + 1 := by omega
              · rw [hc1] at hml
                have hml2 : ((subdivSt2 st nidx).node st.nodePtr).parax = nidx * 8 + 7 := hpar.1
                unfold KDNode.isLeaf at hml
                rw [hml2, decide_eq_false_iff_not] at hml
                exact hml (by omega)
              · rw [hc2] at hml
                have hml2 : ((subdivSt2 st nidx).node (st.nodePtr + 1)).parax =
                    nidx * 8 + 7 := hpar.2
                unfold KDNode.isLeaf at hml
                rw [hml2, decide_eq_false_iff_not] at hml
                exact hml (by omega)
        have hC1 := ih (subdivSt3 st nidx) (subdivSt2 st nidx).nodePtr
          (by rw [subdivSt3_nodePtr]; omega) hCO3
        have hm1 := (subdivide_frame fl (subdivSt3 st nidx) (subdivSt2 st nidx).nodePtr).1
        exact ih (subdivide fl (subdivSt3 st nidx) (subdivSt2 st nidx).nodePtr)
          ((subdivSt2 st nidx).nodePtr + 1)
          (by rw [subdivSt3_nodePtr] at hm1; omega) hC1

/-- C2 (amended): after `rebuild`, every interior node's `bmin`/`bmax` are
the componentwise min/max of its two children's, and its `minSize` is the
componentwise min of the children's `minSize`.  (`removeLeaf` defers
refitting, so the equality is stated for the freshly rebuilt tree.) -/
theorem rebuild_interior_combined (st0 : KD) (i : ℕ)
    (hi : i < (rebuildOp st0).nodePtr)
    (hint : ((rebuildOp st0).node i).isLeaf = false) :
    ((rebuildOp st0).node i).minSize =
      fminf ((rebuildOp st0).node ((rebuildOp st0).node i).left).minSize
        ((rebuildOp st0).node ((rebuildOp st0).node i).right).minSize ∧
    ((rebuildOp st0).node i).bmin =
      fminf ((rebuildOp st0).node ((rebuildOp st0).node i).left).bmin
        ((rebuildOp st0).node ((rebuildOp st0).node i).right).bmin ∧
    ((rebuildOp st0).node i).bmax =
      fmaxf ((rebuildOp st0).node ((rebuildOp st0).node i).left).bmax
        ((rebuildOp st0).node ((rebuildOp st0).node i).right).bmax := by
  have hCO1 : ChildOrder (rebuildSt2 st0) (rebuildSt2 st0).nodePtr := by
    intro m hm hml
    have hnp1 : (rebuildSt2 st0).nodePtr = 1 := rfl
    have hm0 : m = 0 := by omega
    exfalso
    rw [hm0] at hml
    have hp : ((rebuildSt2 st0).node 0).parax = 7 := rfl
    unfold KDNode.isLeaf at hml
    rw [hp, decide_eq_false_iff_not] at hml
    exact hml (by omega)
  have hCO2 := subdivide_CO ((rebuildSt2 st0).blasCount + 1) (rebuildSt2 st0) 0
    (by exact Nat.one_pos) hCO1
  have hre : rebuildOp st0 =
      minRefitLoop (subdivide ((rebuildSt2 st0).blasCount + 1) (rebuildSt2 st0) 0).nodePtr
        (subdivide ((rebuildSt2 st0).blasCount + 1) (rebuildSt2 st0) 0) := rfl
  rw [hre] at hi hint ⊢
  rw [minRefitLoop_nodePtr] at hi
  exact minRefitLoop_combined _ _ hCO2 i hi hint

/-- Witness for `rebuild_interior_combined`: the root of the rebuilt
three-instance tree is interior and combines its children's bounds. -/
theorem rebuild_interior_combined_witness :
    0 < (rebuildOp c2Init).nodePtr ∧ ((rebuildOp c2Init).node 0).isLeaf = false ∧
    (((rebuildOp c2Init).node 0).minSize =
      fminf ((rebuildOp c2Init).node ((rebuildOp c2Init).node 0).left).minSize
        ((rebuildOp c2Init).node ((rebuildOp c2Init).node 0).right).minSize ∧
    ((rebuildOp c2Init).node 0).bmin =
      fminf ((rebuildOp c2Init).node ((rebuildOp c2Init).node 0).left).bmin
        ((rebuildOp c2Init).node ((rebuildOp c2Init).node 0).right).bmin ∧
    ((rebuildOp c2Init).node 0).bmax =
      fmaxf ((rebuildOp c2Init).node ((rebuildOp c2Init).node 0).left).bmax
        ((rebuildOp c2Init).node ((rebuildOp c2Init).node 0).right).bmax) :=
  ⟨by decide, by decide, rebuild_interior_combined c2Init 0 (by decide) (by decide)⟩

/-! ### Structural facts about `Tree` -/

theorem Tree_root_mem {u : Bool} {st : KD} {p n : ℕ} {S P L : Finset ℕ}
    (h : Tree u st p n S P L) : n ∈ S := by
  cases h with
  | leaf q r h1 h2 h3 h4 => exact Finset.mem_singleton_self n
  | node q r S1 S2 P1 P2 L1 L2 h1 h2 t1 t2 d1 d2 d3 d4 d5 => exact Finset.mem_insert_self n _

theorem Tree_root_parent {u : Bool} {st : KD} {p n : ℕ} {S P L : Finset ℕ}
    (h : Tree u st p n S P L) : (st.node n).parax / 8 = p := by
  cases h with
  | leaf q r h1 h2 h3 h4 => omega
  | node q r S1 S2 P1 P2 L1 L2 h1 h2 t1 t2 d1 d2 d3 d4 d5 => exact h2

theorem Tree_parax_cases {u : Bool} {st : KD} {p n : ℕ} {S P L : Finset ℕ}
    (h : Tree u st p n S P L) :
    ∀ m ∈ S, (st.node m).parax % 8 = 7 ∨ (st.node m).parax % 8 ≤ 2 := by
  induction h with
  | leaf q r h1 h2 h3 h4 =>
    intro m hm
    rw [Finset.mem_singleton] at hm
    subst hm
    left
    omega
  | node q r S1 S2 P1 P2 L1 L2 h1 h2 t1 t2 d1 d2 d3 d4 d5 ih1 ih2 =>
    intro m hm
    rcases Finset.mem_insert.mp hm with hm1 | hm2
    · subst hm1
      right
      exact h1
    · rcases Finset.mem_union.mp hm2 with hh | hh
      · exact ih1 m hh
      · exact ih2 m hh

theorem Tree_parent_link {u : Bool} {st : KD} {p n : ℕ} {S P L : Finset ℕ}
    (h : Tree u st p n S P L) :
    ∀ m ∈ S, m ≠ n →
      (st.node ((st.node m).parax / 8)).left = m ∨
      (st.node ((st.node m).parax / 8)).right = m := by
  induction h with
  | leaf q r h1 h2 h3 h4 =>
    intro m hm hmn
    rw [Finset.mem_singleton] at hm
    exact absurd hm hmn
  | node q r S1 S2 P1 P2 L1 L2 h1 h2 t1 t2 d1 d2 d3 d4 d5 ih1 ih2 =>
    intro m hm hmn
    rcases Finset.mem_insert.mp hm with hm1 | hm2
    · exact absurd hm1 hmn
    · rcases Finset.mem_union.mp hm2 with hh | hh
      · by_cases hroot : m = (st.node r).left
        · left
          rw [hroot, Tree_root_parent t1]
        · exact ih1 m hh hroot
      · by_cases hroot : m = (st.node r).right
        · right
          rw [hroot, Tree_root_parent t2]
        · exact ih2 m hh hroot

theorem Tree_children_mem {u : Bool} {st : KD} {p n : ℕ} {S P L : Finset ℕ}
    (h : Tree u st p n S P L) :
    ∀ m ∈ S, (st.node m).parax % 8 ≤ 2 →
      (st.node m).left ∈ S ∧ (st.node m).right ∈ S ∧
      (st.node m).left ≠ (st.node m).right := by
  induction h with
  | leaf q r h1 h2 h3 h4 =>
    intro m hm hint
    rw [Finset.mem_singleton] at hm
    subst hm
    omega
  | node q r S1 S2 P1 P2 L1 L2 h1 h2 t1 t2 d1 d2 d3 d4 d5 ih1 ih2 =>
    intro m hm hint
    rcases Finset.mem_insert.mp hm with hm1 | hm2
    · subst hm1
      refine ⟨Finset.mem_insert_of_mem (Finset.mem_union_left _ (Tree_root_mem t1)),
        Finset.mem_insert_of_mem (Finset.mem_union_right _ (Tree_root_mem t2)), ?_⟩
      intro he
      exact (Finset.disjoint_left.mp d1 (Tree_root_mem t1)) (he ▸ Tree_root_mem t2)
    · rcases Finset.mem_union.mp hm2 with hh | hh
      · obtain ⟨a, b, c⟩ := ih1 m hh hint
        exact ⟨Finset.mem_insert_of_mem (Finset.mem_union_left _ a),
          Finset.mem_insert_of_mem (Finset.mem_union_left _ b), c⟩
      · obtain ⟨a, b, c⟩ := ih2 m hh hint
        exact ⟨Finset.mem_insert_of_mem (Finset.mem_union_right _ a),
          Finset.mem_insert_of_mem (Finset.mem_union_right _ b), c⟩

theorem Tree_leaf_range_subP {u : Bool} {st : KD} {p n : ℕ} {S P L : Finset ℕ}
    (h : Tree u st p n S P L) :
    ∀ m ∈ S, (st.node m).parax % 8 = 7 →
      ∀ j, (st.node m).left ≤ j → j < (st.node m).left + (st.node m).right → j ∈ P := by
  induction h with
  | leaf q r h1 h2 h3 h4 =>
    intro m hm hlf j hj1 hj2
    rw [Finset.mem_singleton] at hm
    subst hm
    exact Finset.mem_Ico.mpr ⟨hj1, hj2⟩
  | node q r S1 S2 P1 P2 L1 L2 h1 h2 t1 t2 d1 d2 d3 d4 d5 ih1 ih2 =>
    intro m hm hlf j hj1 hj2
    rcases Finset.mem_insert.mp hm with hm1 | hm2
    · subst hm1
      omega
    · rcases Finset.mem_union.mp hm2 with hh | hh
      · exact Finset.mem_union_left _ (ih1 m hh hlf j hj1 hj2)
      · exact Finset.mem_union_right _ (ih2 m hh hlf j hj1 hj2)

theorem Tree_leaf_val_mem {u : Bool} {st : KD} {p n : ℕ} {S P L : Finset ℕ}
    (h : Tree u st p n S P L) :
    ∀ m ∈ S, (st.node m).parax % 8 = 7 →
      ∀ j, (st.node m).left ≤ j → j < (st.node m).left + (st.node m).right →
        st.tlasIdx j ∈ L := by
  induction h with
  | leaf q r h1 h2 h3 h4 =>
    intro m hm hlf j hj1 hj2
    rw [Finset.mem_singleton] at hm
    subst hm
    exact Finset.mem_image_of_mem _ (Finset.mem_Ico.mpr ⟨hj1, hj2⟩)
  | node q r S1 S2 P1 P2 L1 L2 h1 h2 t1 t2 d1 d2 d3 d4 d5 ih1 ih2 =>
    intro m hm hlf j hj1 hj2
    rcases Finset.mem_insert.mp hm with hm1 | hm2
    · subst hm1
      omega
    · rcases Finset.mem_union.mp hm2 with hh | hh
      · exact Finset.mem_union_left _ (ih1 m hh hlf j hj1 hj2)
      · exact Finset.mem_union_right _ (ih2 m hh hlf j hj1 hj2)

theorem Tree_leaf_sep {u : Bool} {st : KD} {p n : ℕ} {S P L : Finset ℕ}
    (h : Tree u st p n S P L) :
    ∀ m1 ∈ S, (st.node m1).parax % 8 = 7 →
    ∀ m2 ∈ S, (st.node m2).parax % 8 = 7 → m1 ≠ m2 →
    ∀ j1 j2, (st.node m1).left ≤ j1 → j1 < (st.node m1).left + (st.node m1).right →
      (st.node m2).left ≤ j2 → j2 < (st.node m2).left + (st.node m2).right →
      st.tlasIdx j1 ≠ st.tlasIdx j2 := by
  induction h with
  | leaf q r h1 h2 h3 h4 =>
    intro m1 hm1 hl1 m2 hm2 hl2 hne
    rw [Finset.mem_singleton] at hm1 hm2
    rw [hm1, hm2] at hne
    exact absurd rfl hne
  | node q r S1 S2 P1 P2 L1 L2 h1 h2 t1 t2 d1 d2 d3 d4 d5 ih1 ih2 =>
    intro m1 hm1 hl1 m2 hm2 hl2 hne j1 j2 ha1 ha2 hb1 hb2
    have hm1s : m1 ∈ S1 ∪ S2 := by
      rcases Finset.mem_insert.mp hm1 with he | hh
      · subst he; omega
      · exact hh
    have hm2s : m2 ∈ S1 ∪ S2 := by
      rcases Finset.mem_insert.mp hm2 with he | hh
      · subst he; omega
      · exact hh
    rcases Finset.mem_union.mp hm1s with hu1 | hu1 <;>
      rcases Finset.mem_union.mp hm2s with hu2 | hu2
    · exact ih1 m1 hu1 hl1 m2 hu2 hl2 hne j1 j2 ha1 ha2 hb1 hb2
    · intro he
      have v1 := Tree_leaf_val_mem t1 m1 hu1 hl1 j1 ha1 ha2
      have v2 := Tree_leaf_val_mem t2 m2 hu2 hl2 j2 hb1 hb2
      rw [he] at v1
      exact (Finset.disjoint_left.mp d5 v1) v2
    · intro he
      have v1 := Tree_leaf_val_mem t2 m1 hu1 hl1 j1 ha1 ha2
      have v2 := Tree_leaf_val_mem t1 m2 hu2 hl2 j2 hb1 hb2
      rw [he] at v1
      exact (Finset.disjoint_left.mp d5 v2) v1
    · exact ih2 m1 hu1 hl1 m2 hu2 hl2 hne j1 j2 ha1 ha2 hb1 hb2

theorem Tree_lookup {st : KD} {p n : ℕ} {S P L : Finset ℕ}
    (h : Tree true st p n S P L) :
    ∀ i ∈ L, st.leaf i ∈ S ∧ (st.node (st.leaf i)).parax % 8 = 7 ∧
      ∃ j, (st.node (st.leaf i)).left ≤ j ∧
        j < (st.node (st.leaf i)).left + (st.node (st.leaf i)).right ∧
        st.tlasIdx j = i := by
  induction h with
  | leaf q r h1 h2 h3 h4 =>
    intro i hi
    obtain ⟨j, hj, hji⟩ := Finset.mem_image.mp hi
    rw [Finset.mem_Ico] at hj
    have hl : st.leaf i = r := by
      rw [← hji]
      exact h4 rfl j hj.1 hj.2
    rw [hl]
    exact ⟨Finset.mem_singleton_self r, by omega, j, hj.1, hj.2, hji⟩
  | node q r S1 S2 P1 P2 L1 L2 h1 h2 t1 t2 d1 d2 d3 d4 d5 ih1 ih2 =>
    intro i hi
    rcases Finset.mem_union.mp hi with hh | hh
    · obtain ⟨a, b, c⟩ := ih1 i hh
      exact ⟨Finset.mem_insert_of_mem (Finset.mem_union_left _ a), b, c⟩
    · obtain ⟨a, b, c⟩ := ih2 i hh
      exact ⟨Finset.mem_insert_of_mem (Finset.mem_union_right _ a), b, c⟩

theorem Tree_congr {u : Bool} {st st' : KD} {p n : ℕ} {S P L : Finset ℕ}
    (h : Tree u st p n S P L) :
    (∀ m ∈ S, (st'.node m).parax = (st.node m).parax ∧
      (st'.node m).left = (st.node m).left ∧ (st'.node m).right = (st.node m).right) →
    (∀ j ∈ P, st'.tlasIdx j = st.tlasIdx j) →
    (∀ j ∈ P, st'.leaf (st.tlasIdx j) = st.leaf (st.tlasIdx j)) →
    Tree u st' p n S P L := by
  induction h with
  | leaf q r h1 h2 h3 h4 =>
    intro hnode hidx hleaf
    obtain ⟨hp, hl, hr⟩ := hnode r (Finset.mem_singleton_self r)
    have hidx2 : ∀ j, (st.node r).left ≤ j → j < (st.node r).left + (st.node r).right →
        st'.tlasIdx j = st.tlasIdx j := fun j hj1 hj2 =>
      hidx j (Finset.mem_Ico.mpr ⟨hj1, hj2⟩)
    have hT : Tree u st' q r {r}
        (Finset.Ico (st'.node r).left ((st'.node r).left + (st'.node r).right))
        ((Finset.Ico (st'.node r).left ((st'.node r).left + (st'.node r).right)).image
          st'.tlasIdx) := by
      refine Tree.leaf q r ?_ ?_ ?_ ?_
      · rw [hp]; exact h1
      · rw [hr]; exact h2
      · rw [hl, hr]
        intro a ha b hb hab
        rw [hidx2 a ha.1 ha.2, hidx2 b hb.1 hb.2] at hab
        exact h3 ha hb hab
      · intro hu j hj1 hj2
        rw [hl] at hj1
        rw [hl, hr] at hj2
        rw [hidx2 j hj1 hj2, hleaf j (Finset.mem_Ico.mpr ⟨hj1, hj2⟩)]
        exact h4 hu j hj1 hj2
    rw [hl, hr] at hT
    have himg : (Finset.Ico (st.node r).left ((st.node r).left + (st.node r).right)).image
        st'.tlasIdx =
        (Finset.Ico (st.node r).left ((st.node r).left + (st.node r).right)).image
        st.tlasIdx := by
      apply Finset.image_congr
      intro j hj
      have hj2 := Finset.mem_Ico.mp hj
      exact hidx2 j hj2.1 hj2.2
    rw [himg] at hT
    exact hT
  | node q r S1 S2 P1 P2 L1 L2 h1 h2 t1 t2 d1 d2 d3 d4 d5 ih1 ih2 =>
    intro hnode hidx hleaf
    obtain ⟨hp, hl, hr⟩ := hnode r (Finset.mem_insert_self r _)
    have c1 := ih1
      (fun m hm => hnode m (Finset.mem_insert_of_mem (Finset.mem_union_left _ hm)))
      (fun j hj => hidx j (Finset.mem_union_left _ hj))
      (fun j hj => hleaf j (Finset.mem_union_left _ hj))
    have c2 := ih2
      (fun m hm => hnode m (Finset.mem_insert_of_mem (Finset.mem_union_right _ hm)))
      (fun j hj => hidx j (Finset.mem_union_right _ hj))
      (fun j hj => hleaf j (Finset.mem_union_right _ hj))
    refine Tree.node q r S1 S2 P1 P2 L1 L2 ?_ ?_ ?_ ?_ d1 d2 d3 d4 d5
    · rw [hp]; exact h1
    · rw [hp]; exact h2
    · rw [hl]; exact c1
    · rw [hr]; exact c2

theorem Tree_reparent {u : Bool} {st st' : KD} {p p2 n : ℕ} {S P L : Finset ℕ}
    (h : Tree u st p n S P L)
    (hroot : (st'.node n).parax = p2 * 8 + (st.node n).parax % 8 ∧
      (st'.node n).left = (st.node n).left ∧ (st'.node n).right = (st.node n).right)
    (hnode : ∀ m ∈ S, m ≠ n → (st'.node m).parax = (st.node m).parax ∧
      (st'.node m).left = (st.node m).left ∧ (st'.node m).right = (st.node m).right)
    (hidx : ∀ j ∈ P, st'.tlasIdx j = st.tlasIdx j)
    (hleaf : ∀ j ∈ P, st'.leaf (st.tlasIdx j) = st.leaf (st.tlasIdx j)) :
    Tree u st' p2 n S P L := by
  cases h with
  | leaf q r h1 h2 h3 h4 =>
    obtain ⟨hp, hl, hr⟩ := hroot
    have hidx2 : ∀ j, (st.node n).left ≤ j → j < (st.node n).left + (st.node n).right →
        st'.tlasIdx j = st.tlasIdx j := fun j hj1 hj2 =>
      hidx j (Finset.mem_Ico.mpr ⟨hj1, hj2⟩)
    have hT : Tree u st' p2 n {n}
        (Finset.Ico (st'.node n).left ((st'.node n).left + (st'.node n).right))
        ((Finset.Ico (st'.node n).left ((st'.node n).left + (st'.node n).right)).image
          st'.tlasIdx) := by
      refine Tree.leaf p2 n ?_ ?_ ?_ ?_
      · rw [hp, h1]; omega
      · rw [hr]; exact h2
      · rw [hl, hr]
        intro a ha b hb hab
        rw [hidx2 a ha.1 ha.2, hidx2 b hb.1 hb.2] at hab
        exact h3 ha hb hab
      · intro hu j hj1 hj2
        rw [hl] at hj1
        rw [hl, hr] at hj2
        rw [hidx2 j hj1 hj2, hleaf j (Finset.mem_Ico.mpr ⟨hj1, hj2⟩)]
        exact h4 hu j hj1 hj2
    rw [hl, hr] at hT
    have himg : (Finset.Ico (st.node n).left ((st.node n).left + (st.node n).right)).image
        st'.tlasIdx =
        (Finset.Ico (st.node n).left ((st.node n).left + (st.node n).right)).image
        st.tlasIdx := by
      apply Finset.image_congr
      intro j hj
      have hj2 := Finset.mem_Ico.mp hj
      exact hidx2 j hj2.1 hj2.2
    rw [himg] at hT
    exact hT
  | node q r S1 S2 P1 P2 L1 L2 h1 h2 t1 t2 d1 d2 d3 d4 d5 =>
    obtain ⟨hp, hl, hr⟩ := hroot
    have c1 := Tree_congr t1
      (fun m hm => hnode m (Finset.mem_insert_of_mem (Finset.mem_union_left _ hm))
        (fun he => d2 (he ▸ hm)))
      (fun j hj => hidx j (Finset.mem_union_left _ hj))
      (fun j hj => hleaf j (Finset.mem_union_left _ hj))
    have c2 := Tree_congr t2
      (fun m hm => hnode m (Finset.mem_insert_of_mem (Finset.mem_union_right _ hm))
        (fun he => d3 (he ▸ hm)))
      (fun j hj => hidx j (Finset.mem_union_right _ hj))
      (fun j hj => hleaf j (Finset.mem_union_right _ hj))
    refine Tree.node p2 n S1 S2 P1 P2 L1 L2 ?_ ?_ ?_ ?_ d1 d2 d3 d4 d5
    · omega
    · omega
    · rw [hl]; exact c1
    · rw [hr]; exact c2

/-! ### Permutation helpers and the `partition` child summary -/

theorem subdivSt1_tlasIdx (st : KD) (nidx : ℕ) :
    (subdivSt1 st nidx).tlasIdx = st.tlasIdx := rfl

theorem subdivSt1_nodePtr (st : KD) (nidx : ℕ) :
    (subdivSt1 st nidx).nodePtr = st.nodePtr := rfl

theorem subdivSt3_tlasIdx (st : KD) (nidx : ℕ) :
    (subdivSt3 st nidx).tlasIdx = (subdivSt2 st nidx).tlasIdx := rfl

theorem perm_fix_symm (e : Equiv.Perm ℕ) (lo hi : ℕ)
    (hfix : ∀ j, j < lo ∨ hi ≤ j → e j = j) :
    ∀ j, j < lo ∨ hi ≤ j → e.symm j = j := by
  intro j hj
  have h1 := hfix j hj
  have h2 : e.symm (e j) = e.symm j := by rw [h1]
  rw [Equiv.symm_apply_apply] at h2
  exact h2.symm

theorem perm_maps_Ico (e : Equiv.Perm ℕ) (lo hi : ℕ)
    (hfix : ∀ j, j < lo ∨ hi ≤ j → e j = j) :
    ∀ j, lo ≤ j → j < hi → lo ≤ e j ∧ e j < hi := by
  intro j hj1 hj2
  by_cases hc : lo ≤ e j ∧ e j < hi
  · exact hc
  · have hout : e j < lo ∨ hi ≤ e j := by omega
    have h2 := hfix (e j) hout
    have h3 := e.injective h2
    omega

theorem perm_injOn (g : ℕ → ℕ) (e : Equiv.Perm ℕ) (lo hi : ℕ)
    (hfix : ∀ j, j < lo ∨ hi ≤ j → e j = j)
    (hg : Set.InjOn g (Set.Ico lo hi)) :
    Set.InjOn (fun j => g (e j)) (Set.Ico lo hi) := by
  intro a ha b hb hab
  have hma := perm_maps_Ico e lo hi hfix a ha.1 ha.2
  have hmb := perm_maps_Ico e lo hi hfix b hb.1 hb.2
  have := hg ⟨hma.1, hma.2⟩ ⟨hmb.1, hmb.2⟩ hab
  exact e.injective this

theorem perm_image_Ico (g : ℕ → ℕ) (e : Equiv.Perm ℕ) (lo hi : ℕ)
    (hfix : ∀ j, j < lo ∨ hi ≤ j → e j = j) :
    (Finset.Ico lo hi).image (fun j => g (e j)) = (Finset.Ico lo hi).image g := by
  apply Finset.ext
  intro i
  simp only [Finset.mem_image, Finset.mem_Ico]
  constructor
  · rintro ⟨j, hj, hji⟩
    have hm := perm_maps_Ico e lo hi hfix j hj.1 hj.2
    exact ⟨e j, ⟨hm.1, hm.2⟩, hji⟩
  · rintro ⟨j, hj, hji⟩
    refine ⟨e.symm j, ?_, ?_⟩
    · have hs := perm_fix_symm e lo hi hfix
      by_cases hc : lo ≤ e.symm j ∧ e.symm j < hi
      · exact ⟨hc.1, hc.2⟩
      · have hout : e.symm j < lo ∨ hi ≤ e.symm j := by omega
        have h2 := hs (e.symm j) hout
        have h3 := e.symm.injective h2
        omega
    · rw [Equiv.apply_symm_apply]
      exact hji

theorem partition_children (st : KD) (nidx : ℕ) (c : ℚ) (axis : ℕ)
    (h2 : 2 ≤ (st.node nidx).right) :
    ∃ (e : Equiv.Perm ℕ) (r : ℕ),
      (st.node nidx).left ≤ r ∧ r ≤ (st.node nidx).left + (st.node nidx).right ∧
      (∀ j, j < (st.node nidx).left ∨ (st.node nidx).left + (st.node nidx).right ≤ j →
        e j = j) ∧
      (partition st nidx c axis).tlasIdx = (fun j => st.tlasIdx (e j)) ∧
      (partition st nidx c axis).node st.nodePtr =
        { st.node st.nodePtr with
          left := (st.node nidx).left,
          right := r - (st.node nidx).left, parax := nidx * 8 + 7 } ∧
      (partition st nidx c axis).node (st.nodePtr + 1) =
        { st.node (st.nodePtr + 1) with
          left := r,
          right := (st.node nidx).right - (r - (st.node nidx).left),
          parax := nidx * 8 + 7 } := by
  by_cases h3 : 3 ≤ (st.node nidx).right
  · obtain ⟨e, r, hr1, hr2, hfix, htl, hL, hR, -, -, -, -, -, -, -, -, -, -⟩ :=
      partition_spec3 st nidx c axis h3
    exact ⟨e, r, hr1, hr2, hfix, htl, hL, hR⟩
  · have h2e : (st.node nidx).right = 2 := by omega
    refine ⟨Equiv.refl ℕ, (st.node nidx).left + 1, by omega, by omega,
      fun j hj => rfl, ?_, ?_, ?_⟩
    · rw [partition_spec2 st nidx c axis h2e]
      rfl
    · rw [show (st.node nidx).left + 1 - (st.node nidx).left = 1 from by omega]
      rw [partition_spec2 st nidx c axis h2e]
      rw [setNode_node, Function.update_noteq (by omega), setNode_node,
        Function.update_same]
    · rw [show (st.node nidx).left + 1 - (st.node nidx).left = 1 from by omega, h2e]
      rw [partition_spec2 st nidx c axis h2e]
      rw [setNode_node, Function.update_same]

/-! ### `subdivide` builds a tree (without the leaf map) -/

theorem subdivSt1_node_parax (st : KD) (nidx : ℕ) :
    ((subdivSt1 st nidx).node nidx).parax = (st.node nidx).parax := by
  rw [subdivSt1_node_self]

theorem subdivSt1_node_left (st : KD) (nidx : ℕ) :
    ((subdivSt1 st nidx).node nidx).left = (st.node nidx).left := by
  rw [subdivSt1_node_self]

theorem subdivSt1_node_right (st : KD) (nidx : ℕ) :
    ((subdivSt1 st nidx).node nidx).right = (st.node nidx).right := by
  rw [subdivSt1_node_self]

theorem subdivide_tree :
    ∀ (fl : ℕ) (st : KD) (nidx p : ℕ),
      (st.node nidx).parax = p * 8 + 7 →
      1 ≤ (st.node nidx).right →
      (st.node nidx).right ≤ fl →
      nidx < st.nodePtr →
      Set.InjOn st.tlasIdx
        (Set.Ico (st.node nidx).left ((st.node nidx).left + (st.node nidx).right)) →
      ∃ e : Equiv.Perm ℕ,
        (∀ j, j < (st.node nidx).left ∨ (st.node nidx).left + (st.node nidx).right ≤ j →
          e j = j) ∧
        (subdivide fl st nidx).tlasIdx = (fun j => st.tlasIdx (e j)) ∧
        Tree false (subdivide fl st nidx) p nidx
          (insert nidx (Finset.Ico st.nodePtr (subdivide fl st nidx).nodePtr))
          (Finset.Ico (st.node nidx).left ((st.node nidx).left + (st.node nidx).right))
          ((Finset.Ico (st.node nidx).left
            ((st.node nidx).left + (st.node nidx).right)).image
            (subdivide fl st nidx).tlasIdx) := by
  intro fl
  induction fl with
  | zero =>
    intro st nidx p hpx hcnt hfuel hlt hInj
    omega
  | succ fl ih =>
    intro st nidx p hpx hcnt hfuel hlt hInj
    obtain ⟨f, hf⟩ : ∃ y, (st.node nidx).left = y := ⟨_, rfl⟩
    obtain ⟨c, hc⟩ : ∃ y, (st.node nidx).right = y := ⟨_, rfl⟩
    rw [hc] at hcnt hfuel
    rw [hf, hc] at hInj ⊢
    rw [subdivide_succ_eq]
    by_cases h1 : (st.node nidx).right < 2
    · rw [if_pos h1]
      refine ⟨Equiv.refl ℕ, fun j hj => rfl, rfl, ?_⟩
      have hT : Tree false (subdivSt1 st nidx) p nidx {nidx}
          (Finset.Ico ((subdivSt1 st nidx).node nidx).left
            (((subdivSt1 st nidx).node nidx).left + ((subdivSt1 st nidx).node nidx).right))
          ((Finset.Ico ((subdivSt1 st nidx).node nidx).left
            (((subdivSt1 st nidx).node nidx).left +
              ((subdivSt1 st nidx).node nidx).right)).image
            (subdivSt1 st nidx).tlasIdx) := by
        refine Tree.leaf p nidx ?_ ?_ ?_ ?_
        · rw [subdivSt1_node_parax]; exact hpx
        · rw [subdivSt1_node_right, hc]; exact hcnt
        · rw [subdivSt1_node_left, subdivSt1_node_right, subdivSt1_tlasIdx, hf, hc]
          exact hInj
        · intro hu
          exact Bool.noConfusion hu
      rw [subdivSt1_node_left, subdivSt1_node_right, hf, hc] at hT
      rw [subdivSt1_nodePtr, Finset.Ico_self, insert_emptyc_eq]
      exact hT
    · rw [if_neg h1]
      have h2c : 2 ≤ c := by omega
      have h2r : 2 ≤ ((subdivSt1 st nidx).node nidx).right := by
        rw [subdivSt1_node_right, hc]; omega
      obtain ⟨e0, r, hr1, hr2, hfix0, htl0, hNL, hNR⟩ :=
        partition_children (subdivSt1 st nidx) nidx (subdivCenter st nidx)
          (subdivAxis st nidx) h2r
      rw [subdivSt1_node_left] at hfix0 hr1 hr2 hNL hNR
      rw [subdivSt1_node_right] at hfix0 hr2 hNR
      rw [hf] at hfix0 hr1 hr2 hNL hNR
      rw [hc] at hfix0 hr2 hNR
      rw [subdivSt1_tlasIdx] at htl0
      rw [subdivSt1_nodePtr] at hNL hNR
      rw [subdivSt1_node_noteq st nidx st.nodePtr (by omega)] at hNL
      rw [subdivSt1_node_noteq st nidx (st.nodePtr + 1) (by omega)] at hNR
      rw [← subdivSt2_eq] at htl0 hNL hNR
      have hp2 := subdivSt2_nodePtr st nidx
      by_cases h2 : SplitFailed st nidx
      · rw [if_pos h2]
        refine ⟨e0, hfix0, htl0, ?_⟩
        have hnd : (subdivSt2 st nidx).node nidx = (subdivSt1 st nidx).node nidx :=
          subdivSt2_node_low st nidx nidx (by omega) (by omega)
        have hT : Tree false (subdivSt2 st nidx) p nidx {nidx}
            (Finset.Ico ((subdivSt2 st nidx).node nidx).left
              (((subdivSt2 st nidx).node nidx).left + ((subdivSt2 st nidx).node nidx).right))
            ((Finset.Ico ((subdivSt2 st nidx).node nidx).left
              (((subdivSt2 st nidx).node nidx).left +
                ((subdivSt2 st nidx).node nidx).right)).image
              (subdivSt2 st nidx).tlasIdx) := by
          refine Tree.leaf p nidx ?_ ?_ ?_ ?_
          · rw [hnd, subdivSt1_node_parax]; exact hpx
          · rw [hnd, subdivSt1_node_right, hc]; omega
          · rw [hnd, subdivSt1_node_left, subdivSt1_node_right, hf, hc, htl0]
            exact perm_injOn st.tlasIdx e0 f (f + c) hfix0 hInj
          · intro hu
            exact Bool.noConfusion hu
        rw [hnd, subdivSt1_node_left, subdivSt1_node_right, hf, hc] at hT
        rw [hp2, Finset.Ico_self, insert_emptyc_eq]
        exact hT
      · rw [if_neg h2]
        rw [hp2]
        have hc1pos : 1 ≤ r - f := by
          by_contra hcon
          apply h2
          unfold SplitFailed
          left
          rw [hp2, hNL]
          show r - f = 0
          omega
        have hc2pos : 1 ≤ c - (r - f) := by
          by_contra hcon
          apply h2
          unfold SplitFailed
          right
          rw [hp2, hNR]
          show c - (r - f) = 0
          omega
        have hst3np : (subdivSt3 st nidx).nodePtr = st.nodePtr + 2 := by
          rw [subdivSt3_nodePtr, hp2]
        have hst3L : (subdivSt3 st nidx).node st.nodePtr =
            (subdivSt2 st nidx).node st.nodePtr :=
          subdivSt3_node_noteq st nidx st.nodePtr (by omega)
        have hst3R : (subdivSt3 st nidx).node (st.nodePtr + 1) =
            (subdivSt2 st nidx).node (st.nodePtr + 1) :=
          subdivSt3_node_noteq st nidx (st.nodePtr + 1) (by omega)
        have hst3tl : (subdivSt3 st nidx).tlasIdx = fun j => st.tlasIdx (e0 j) := by
          rw [subdivSt3_tlasIdx]
          exact htl0
        have hax : subdivAxis st nidx ≤ 2 := dominantAxis_le_two _
        have hA : (subdivSt2 st nidx).node nidx = (subdivSt1 st nidx).node nidx :=
          subdivSt2_node_low st nidx nidx (by omega) (by omega)
        have hrootL : ((subdivSt3 st nidx).node nidx).left = st.nodePtr := by
          rw [subdivSt3_node_self]
          show (subdivSt2 st nidx).nodePtr = st.nodePtr
          exact hp2
        have hrootR : ((subdivSt3 st nidx).node nidx).right = st.nodePtr + 1 := by
          rw [subdivSt3_node_self]
          show (subdivSt2 st nidx).nodePtr + 1 = st.nodePtr + 1
          rw [hp2]
        have hrootPx : ((subdivSt3 st nidx).node nidx).parax =
            p * 8 + subdivAxis st nidx := by
          rw [subdivSt3_node_self]
          show ((subdivSt2 st nidx).node nidx).parax / 8 * 8 + subdivAxis st nidx = _
          rw [hA, subdivSt1_node_parax, hpx]
          omega
        have hLnode : (subdivSt3 st nidx).node st.nodePtr =
            { st.node st.nodePtr with
              left := f, right := r - f, parax := nidx * 8 + 7 } := by
          rw [hst3L, hNL]
        have hLl : ((subdivSt3 st nidx).node st.nodePtr).left = f := by rw [hLnode]
        have hLr : ((subdivSt3 st nidx).node st.nodePtr).right = r - f := by rw [hLnode]
        have hLp : ((subdivSt3 st nidx).node st.nodePtr).parax = nidx * 8 + 7 := by
          rw [hLnode]
        obtain ⟨e1, hfix1, htl1, T1⟩ := ih (subdivSt3 st nidx) st.nodePtr nidx hLp
          (by rw [hLr]; omega)
          (by rw [hLr]; omega)
          (by rw [hst3np]; omega)
          (by rw [hLl, hLr, hst3tl, show f + (r - f) = r from by omega]
              exact (perm_injOn st.tlasIdx e0 f (f + c) hfix0 hInj).mono
                (Set.Ico_subset_Ico_right (by omega)))
        rw [hLl, hLr, show f + (r - f) = r from by omega] at hfix1 T1
        rw [hst3np] at T1
        have hm1 := (subdivide_frame fl (subdivSt3 st nidx) st.nodePtr).1
        rw [hst3np] at hm1
        obtain ⟨-, n1f, -, -, -, -, -, -, -⟩ :=
          subdivide_frame fl (subdivSt3 st nidx) st.nodePtr
        have hR1tl : (subdivide fl (subdivSt3 st nidx) st.nodePtr).tlasIdx =
            fun j => st.tlasIdx (e0 (e1 j)) := by
          funext j
          rw [htl1]
          show (subdivSt3 st nidx).tlasIdx (e1 j) = _
          rw [hst3tl]
        have hRnode : (subdivide fl (subdivSt3 st nidx) st.nodePtr).node (st.nodePtr + 1) =
            { st.node (st.nodePtr + 1) with
              left := r, right := c - (r - f), parax := nidx * 8 + 7 } := by
          rw [n1f (st.nodePtr + 1) (by rw [hst3np]; omega) (by omega), hst3R, hNR]
        have hRl : ((subdivide fl (subdivSt3 st nidx) st.nodePtr).node
            (st.nodePtr + 1)).left = r := by rw [hRnode]
        have hRr : ((subdivide fl (subdivSt3 st nidx) st.nodePtr).node
            (st.nodePtr + 1)).right = c - (r - f) := by rw [hRnode]
        have hRp : ((subdivide fl (subdivSt3 st nidx) st.nodePtr).node
            (st.nodePtr + 1)).parax = nidx * 8 + 7 := by rw [hRnode]
        have hfix01 : ∀ j, j < f ∨ f + c ≤ j → (e1.trans e0) j = j := by
          intro j hj
          have he1 : e1 j = j := hfix1 j (by omega)
          show e0 (e1 j) = j
          rw [he1]
          exact hfix0 j hj
        have hInjR1 : Set.InjOn
            (subdivide fl (subdivSt3 st nidx) st.nodePtr).tlasIdx
            (Set.Ico f (f + c)) := by
          rw [hR1tl]
          exact perm_injOn st.tlasIdx (e1.trans e0) f (f + c) hfix01 hInj
        obtain ⟨e2, hfix2, htl2, T2⟩ := ih
          (subdivide fl (subdivSt3 st nidx) st.nodePtr) (st.nodePtr + 1) nidx hRp
          (by rw [hRr]; omega)
          (by rw [hRr]; omega)
          (by omega)
          (by rw [hRl, hRr, show r + (c - (r - f)) = f + c from by omega]
              exact hInjR1.mono (Set.Ico_subset_Ico_left (by omega)))
        rw [hRl, hRr, show r + (c - (r - f)) = f + c from by omega] at hfix2 T2
        have hm2 := (subdivide_frame fl
          (subdivide fl (subdivSt3 st nidx) st.nodePtr) (st.nodePtr + 1)).1
        obtain ⟨-, n2f, -, hlf2, -, -, -, -, -⟩ :=
          subdivide_frame fl (subdivide fl (subdivSt3 st nidx) st.nodePtr)
            (st.nodePtr + 1)
        have T1L : Tree false
            (subdivide fl (subdivide fl (subdivSt3 st nidx) st.nodePtr) (st.nodePtr + 1))
            nidx st.nodePtr
            (insert st.nodePtr (Finset.Ico (st.nodePtr + 2)
              (subdivide fl (subdivSt3 st nidx) st.nodePtr).nodePtr))
            (Finset.Ico f r)
            ((Finset.Ico f r).image
              (subdivide fl (subdivSt3 st nidx) st.nodePtr).tlasIdx) := by
          refine Tree_congr T1 ?_ ?_ ?_
          · intro m hm
            have hml : m < (subdivide fl (subdivSt3 st nidx) st.nodePtr).nodePtr ∧
                m ≠ st.nodePtr + 1 := by
              rcases Finset.mem_insert.mp hm with he | hio
              · constructor <;> omega
              · rw [Finset.mem_Ico] at hio
                constructor <;> omega
            rw [n2f m hml.1 hml.2]
            exact ⟨rfl, rfl, rfl⟩
          · intro j hj
            rw [Finset.mem_Ico] at hj
            rw [htl2]
            show (subdivide fl (subdivSt3 st nidx) st.nodePtr).tlasIdx (e2 j) = _
            rw [hfix2 j (by omega)]
          · intro j hj
            rw [hlf2]
        have hcore : Tree false
            (subdivide fl (subdivide fl (subdivSt3 st nidx) st.nodePtr) (st.nodePtr + 1))
            p nidx
            (insert nidx
              ((insert st.nodePtr (Finset.Ico (st.nodePtr + 2)
                (subdivide fl (subdivSt3 st nidx) st.nodePtr).nodePtr)) ∪
               (insert (st.nodePtr + 1)
                 (Finset.Ico (subdivide fl (subdivSt3 st nidx) st.nodePtr).nodePtr
                   (subdivide fl (subdivide fl (subdivSt3 st nidx) st.nodePtr)
                     (st.nodePtr + 1)).nodePtr))))
            (Finset.Ico f r ∪ Finset.Ico r (f + c))
            (((Finset.Ico f r).image
                (subdivide fl (subdivSt3 st nidx) st.nodePtr).tlasIdx) ∪
             ((Finset.Ico r (f + c)).image
                (subdivide fl (subdivide fl (subdivSt3 st nidx) st.nodePtr)
                  (st.nodePtr + 1)).tlasIdx)) := by
          have hroot2 : (subdivide fl (subdivide fl (subdivSt3 st nidx) st.nodePtr)
              (st.nodePtr + 1)).node nidx = (subdivSt3 st nidx).node nidx := by
            rw [n2f nidx (by omega) (by omega), n1f nidx (by rw [hst3np]; omega) (by omega)]
          refine Tree.node p nidx _ _ _ _ _ _ ?_ ?_ ?_ ?_ ?_ ?_ ?_ ?_ ?_
          · rw [hroot2, hrootPx]
            omega
          · rw [hroot2, hrootPx]
            omega
          · rw [hroot2, hrootL]
            exact T1L
          · rw [hroot2, hrootR]
            exact T2
          · rw [Finset.disjoint_left]
            intro a ha hb
            simp only [Finset.mem_insert, Finset.mem_Ico] at ha hb
            omega
          · simp only [Finset.mem_insert, Finset.mem_Ico]
            omega
          · simp only [Finset.mem_insert, Finset.mem_Ico]
            omega
          · exact Finset.Ico_disjoint_Ico_consecutive f r (f + c)
          · rw [Finset.disjoint_left]
            intro i hi1 hi2
            obtain ⟨j1, hj1, hv1⟩ := Finset.mem_image.mp hi1
            obtain ⟨j2, hj2, hv2⟩ := Finset.mem_image.mp hi2
            rw [Finset.mem_Ico] at hj1 hj2
            have hj2v : (subdivide fl (subdivide fl (subdivSt3 st nidx) st.nodePtr)
                (st.nodePtr + 1)).tlasIdx j2 =
                (subdivide fl (subdivSt3 st nidx) st.nodePtr).tlasIdx (e2 j2) := by
              rw [htl2]
            have hmap2 := perm_maps_Ico e2 r (f + c) hfix2 j2 hj2.1 hj2.2
            have heq : j1 = e2 j2 := by
              apply hInjR1
              · exact Set.mem_Ico.mpr ⟨by omega, by omega⟩
              · exact Set.mem_Ico.mpr ⟨by omega, by omega⟩
              · rw [hv1, ← hv2, hj2v]
            omega
        have hseq : insert nidx
            ((insert st.nodePtr (Finset.Ico (st.nodePtr + 2)
              (subdivide fl (subdivSt3 st nidx) st.nodePtr).nodePtr)) ∪
             (insert (st.nodePtr + 1)
               (Finset.Ico (subdivide fl (subdivSt3 st nidx) st.nodePtr).nodePtr
                 (subdivide fl (subdivide fl (subdivSt3 st nidx) st.nodePtr)
                   (st.nodePtr + 1)).nodePtr))) =
            insert nidx (Finset.Ico st.nodePtr
              (subdivide fl (subdivide fl (subdivSt3 st nidx) st.nodePtr)
                (st.nodePtr + 1)).nodePtr) := by
          ext a
          simp only [Finset.mem_insert, Finset.mem_union, Finset.mem_Ico]
          omega
        have hpeq : Finset.Ico f r ∪ Finset.Ico r (f + c) = Finset.Ico f (f + c) :=
          Finset.Ico_union_Ico_eq_Ico (by omega) (by omega)
        have hleq : (Finset.Ico f r).image
            (subdivide fl (subdivSt3 st nidx) st.nodePtr).tlasIdx =
            (Finset.Ico f r).image
              (subdivide fl (subdivide fl (subdivSt3 st nidx) st.nodePtr)
                (st.nodePtr + 1)).tlasIdx := by
          apply Finset.image_congr
          intro j hj
          have hj2 : j ∈ Finset.Ico f r := hj
          rw [Finset.mem_Ico] at hj2
          rw [htl2]
          show _ = (subdivide fl (subdivSt3 st nidx) st.nodePtr).tlasIdx (e2 j)
          rw [hfix2 j (by omega)]
        rw [hseq, hpeq, hleq, ← Finset.image_union, hpeq] at hcore
        refine ⟨e2.trans (e1.trans e0), ?_, ?_, ?_⟩
        · intro j hj
          show e0 (e1 (e2 j)) = j
          have h2j : e2 j = j := hfix2 j (by omega)
          rw [h2j]
          exact hfix01 j hj
        · funext j
          rw [htl2]
          show (subdivide fl (subdivSt3 st nidx) st.nodePtr).tlasIdx (e2 j) = _
          rw [hR1tl]
          rfl
        · exact hcore

/-! ### `minRefit` establishes the `leaf[]` back-map -/

theorem refitLeafBody_tlasIdx (i : ℕ) (s : KD) (j : ℕ) :
    (refitLeafBody i s j).tlasIdx = s.tlasIdx := rfl

theorem refitLeafBody_leaf (i : ℕ) (s : KD) (j : ℕ) :
    (refitLeafBody i s j).leaf =
      Function.update s.leaf (s.tlasIdx ((s.node i).left + j)) i := rfl

theorem foldl_refitLeafBody_tlasIdx (i : ℕ) :
    ∀ (l : List ℕ) (s : KD), (l.foldl (refitLeafBody i) s).tlasIdx = s.tlasIdx := by
  intro l
  induction l with
  | nil => intro s; rfl
  | cons a t ih =>
    intro s
    rw [List.foldl_cons, ih, refitLeafBody_tlasIdx]

theorem foldl_refitLeafBody_leaf_frame (i : ℕ) :
    ∀ (l : List ℕ) (s : KD) (x : ℕ),
      (∀ j ∈ l, s.tlasIdx ((s.node i).left + j) ≠ x) →
      (l.foldl (refitLeafBody i) s).leaf x = s.leaf x := by
  intro l
  induction l with
  | nil => intro s x _; rfl
  | cons a t ih =>
    intro s x hx
    rw [List.foldl_cons]
    have hs1 : ∀ j ∈ t, (refitLeafBody i s a).tlasIdx
        (((refitLeafBody i s a).node i).left + j) ≠ x := by
      intro j hj
      rw [refitLeafBody_tlasIdx, (refitLeafBody_shape i s a i).2.1]
      exact hx j (List.mem_cons_of_mem a hj)
    rw [ih (refitLeafBody i s a) x hs1, refitLeafBody_leaf,
      Function.update_noteq (fun he => hx a (List.mem_cons_self a t) he.symm)]

theorem foldl_refitLeafBody_leaf_or (i : ℕ) :
    ∀ (l : List ℕ) (s : KD) (x : ℕ),
      (l.foldl (refitLeafBody i) s).leaf x = i ∨
      (l.foldl (refitLeafBody i) s).leaf x = s.leaf x := by
  intro l
  induction l with
  | nil => intro s x; right; rfl
  | cons a t ih =>
    intro s x
    rw [List.foldl_cons]
    rcases ih (refitLeafBody i s a) x with hh | hh
    · left; exact hh
    · rw [refitLeafBody_leaf] at hh
      by_cases hax : s.tlasIdx ((s.node i).left + a) = x
      · left
        rw [hh, ← hax, Function.update_same]
      · right
        rw [hh, Function.update_noteq (fun he => hax he.symm)]

theorem foldl_refitLeafBody_leaf_mem (i : ℕ) :
    ∀ (l : List ℕ) (s : KD) (j0 : ℕ), j0 ∈ l →
      (l.foldl (refitLeafBody i) s).leaf (s.tlasIdx ((s.node i).left + j0)) = i := by
  intro l
  induction l with
  | nil => intro s j0 h; exact absurd h (List.not_mem_nil j0)
  | cons a t ih =>
    intro s j0 hj0
    rw [List.foldl_cons]
    rcases List.mem_cons.mp hj0 with he | ht
    · subst he
      rcases foldl_refitLeafBody_leaf_or i t (refitLeafBody i s j0)
        (s.tlasIdx ((s.node i).left + j0)) with hh | hh
      · exact hh
      · rw [hh, refitLeafBody_leaf, Function.update_same]
    · have := ih (refitLeafBody i s a) j0 ht
      rw [refitLeafBody_tlasIdx, (refitLeafBody_shape i s a i).2.1] at this
      exact this

theorem refitLeafScan_tlasIdx (st : KD) (i : ℕ) :
    (refitLeafScan st i).tlasIdx = st.tlasIdx := by
  show ((List.range (st.node i).right).foldl (refitLeafBody i) _).tlasIdx = st.tlasIdx
  rw [foldl_refitLeafBody_tlasIdx]
  rfl

theorem refitLeafScan_leaf_mem (st : KD) (i j0 : ℕ) (h : j0 < (st.node i).right) :
    (refitLeafScan st i).leaf (st.tlasIdx ((st.node i).left + j0)) = i := by
  have hini := setNode_shape st i i
    { st.node i with minSize := vec3const big, bmin := vec3const big, bmax := vec3const (-big) }
    rfl rfl rfl
  have := foldl_refitLeafBody_leaf_mem i (List.range (st.node i).right)
    (st.setNode i
      { st.node i with minSize := vec3const big, bmin := vec3const big, bmax := vec3const (-big) })
    j0 (List.mem_range.mpr h)
  rw [hini.2.1] at this
  exact this

theorem refitLeafScan_leaf_frame (st : KD) (i x : ℕ)
    (h : ∀ j, j < (st.node i).right → st.tlasIdx ((st.node i).left + j) ≠ x) :
    (refitLeafScan st i).leaf x = st.leaf x := by
  have hini := setNode_shape st i i
    { st.node i with minSize := vec3const big, bmin := vec3const big, bmax := vec3const (-big) }
    rfl rfl rfl
  have := foldl_refitLeafBody_leaf_frame i (List.range (st.node i).right)
    (st.setNode i
      { st.node i with minSize := vec3const big, bmin := vec3const big, bmax := vec3const (-big) })
    x ?_
  · exact this
  · intro j hj
    rw [hini.2.1]
    exact h j (List.mem_range.mp hj)

theorem combineAt_tlasIdx (s : KD) (k : ℕ) : (combineAt s k).tlasIdx = s.tlasIdx := rfl

theorem combineAt_leaf (s : KD) (k : ℕ) : (combineAt s k).leaf = s.leaf := rfl

theorem refitOne_tlasIdx (s : KD) (k : ℕ) : (refitOne s k).tlasIdx = s.tlasIdx := by
  unfold refitOne
  by_cases h : (s.node k).isLeaf = true
  · rw [if_pos h, refitLeafScan_tlasIdx]
  · rw [if_neg h, combineAt_tlasIdx]

theorem refitOne_isLeaf (s : KD) (k m : ℕ) :
    ((refitOne s k).node m).isLeaf = (s.node m).isLeaf := by
  unfold KDNode.isLeaf
  rw [(refitOne_shape s k m).1]

theorem refitOne_tlasCount (s : KD) (k : ℕ) : (refitOne s k).tlasCount = s.tlasCount := by
  unfold refitOne
  by_cases h : (s.node k).isLeaf = true
  · rw [if_pos h]
    show ((List.range (s.node k).right).foldl (refitLeafBody k) _).tlasCount = s.tlasCount
    have : ∀ (l : List ℕ) (s2 : KD),
        (l.foldl (refitLeafBody k) s2).tlasCount = s2.tlasCount := by
      intro l
      induction l with
      | nil => intro s2; rfl
      | cons a t ih =>
        intro s2
        rw [List.foldl_cons, ih]
        rfl
    rw [this]
    rfl
  · rw [if_neg h]
    rfl

theorem minRefitLoop_tlasIdx : ∀ (k : ℕ) (s : KD),
    (minRefitLoop k s).tlasIdx = s.tlasIdx := by
  intro k
  induction k with
  | zero => intro s; rfl
  | succ k ih =>
    intro s
    have hstep : minRefitLoop (k + 1) s = minRefitLoop k (refitOne s k) := rfl
    rw [hstep, ih, refitOne_tlasIdx]

theorem minRefitLoop_tlasCount : ∀ (k : ℕ) (s : KD),
    (minRefitLoop k s).tlasCount = s.tlasCount := by
  intro k
  induction k with
  | zero => intro s; rfl
  | succ k ih =>
    intro s
    have hstep : minRefitLoop (k + 1) s = minRefitLoop k (refitOne s k) := rfl
    rw [hstep, ih, refitOne_tlasCount]

theorem minRefitLoop_shape : ∀ (k : ℕ) (s : KD) (m : ℕ),
    ((minRefitLoop k s).node m).parax = (s.node m).parax ∧
    ((minRefitLoop k s).node m).left = (s.node m).left ∧
    ((minRefitLoop k s).node m).right = (s.node m).right := by
  intro k
  induction k with
  | zero => intro s m; exact ⟨rfl, rfl, rfl⟩
  | succ k ih =>
    intro s m
    have hstep : minRefitLoop (k + 1) s = minRefitLoop k (refitOne s k) := rfl
    have ha := ih (refitOne s k) m
    have hb := refitOne_shape s k m
    rw [hstep]
    exact ⟨ha.1.trans hb.1, ha.2.1.trans hb.2.1, ha.2.2.trans hb.2.2.1⟩

theorem minRefitLoop_leaf_frame : ∀ (k : ℕ) (s : KD) (x : ℕ),
    (∀ m, m < k → (s.node m).isLeaf = true →
      ∀ j, j < (s.node m).right → s.tlasIdx ((s.node m).left + j) ≠ x) →
    (minRefitLoop k s).leaf x = s.leaf x := by
  intro k
  induction k with
  | zero => intro s x _; rfl
  | succ k ih =>
    intro s x hx
    have hstep : minRefitLoop (k + 1) s = minRefitLoop k (refitOne s k) := rfl
    have hone : (refitOne s k).leaf x = s.leaf x := by
      unfold refitOne
      by_cases h : (s.node k).isLeaf = true
      · rw [if_pos h]
        exact refitLeafScan_leaf_frame s k x (fun j hj => hx k (by omega) h j hj)
      · rw [if_neg h, combineAt_leaf]
    rw [hstep, ih (refitOne s k) x ?_, hone]
    intro m hm hml j hj
    rw [refitOne_isLeaf] at hml
    rw [(refitOne_shape s k m).2.2.1] at hj
    rw [refitOne_tlasIdx, (refitOne_shape s k m).2.1]
    exact hx m (by omega) hml j hj

theorem minRefitLoop_leaf_eq : ∀ (k : ℕ) (s : KD) (x n : ℕ), n < k →
    (s.node n).isLeaf = true →
    (∃ j, j < (s.node n).right ∧ s.tlasIdx ((s.node n).left + j) = x) →
    (∀ m, m < k → m ≠ n → (s.node m).isLeaf = true →
      ∀ j, j < (s.node m).right → s.tlasIdx ((s.node m).left + j) ≠ x) →
    (minRefitLoop k s).leaf x = n := by
  intro k
  induction k with
  | zero => intro s x n h; omega
  | succ k ih =>
    intro s x n hn hleaf hex hsep
    have hstep : minRefitLoop (k + 1) s = minRefitLoop k (refitOne s k) := rfl
    by_cases hnk : n = k
    · subst hnk
      obtain ⟨j0, hj0, hx⟩ := hex
      have hone : (refitOne s n).leaf x = n := by
        unfold refitOne
        rw [if_pos hleaf, ← hx]
        exact refitLeafScan_leaf_mem s n j0 hj0
      rw [hstep, minRefitLoop_leaf_frame n (refitOne s n) x ?_, hone]
      intro m hm hml j hj
      rw [refitOne_tlasIdx, (refitOne_shape s n m).2.1]
      rw [refitOne_isLeaf] at hml
      rw [(refitOne_shape s n m).2.2.1] at hj
      exact hsep m (by omega) (by omega) hml j hj
    · rw [hstep]
      refine ih (refitOne s k) x n (by omega) ?_ ?_ ?_
      · rw [refitOne_isLeaf]
        exact hleaf
      · obtain ⟨j0, hj0, hx⟩ := hex
        refine ⟨j0, ?_, ?_⟩
        · rw [(refitOne_shape s k n).2.2.1]
          exact hj0
        · rw [refitOne_tlasIdx, (refitOne_shape s k n).2.1]
          exact hx
      · intro m hm hmn hml j hj
        rw [refitOne_tlasIdx, (refitOne_shape s k m).2.1]
        rw [refitOne_isLeaf] at hml
        rw [(refitOne_shape s k m).2.2.1] at hj
        exact hsep m (by omega) hmn hml j hj

theorem Tree_establishMap {st st' : KD} {p n : ℕ} {S P L : Finset ℕ}
    (h : Tree false st p n S P L) :
    (∀ m ∈ S, (st'.node m).parax = (st.node m).parax ∧
      (st'.node m).left = (st.node m).left ∧ (st'.node m).right = (st.node m).right) →
    (∀ j ∈ P, st'.tlasIdx j = st.tlasIdx j) →
    (∀ m ∈ S, (st.node m).parax % 8 = 7 →
      ∀ j, (st.node m).left ≤ j → j < (st.node m).left + (st.node m).right →
        st'.leaf (st.tlasIdx j) = m) →
    Tree true st' p n S P L := by
  induction h with
  | leaf q r h1 h2 h3 h4 =>
    intro hnode hidx hmap
    obtain ⟨hp, hl, hr⟩ := hnode r (Finset.mem_singleton_self r)
    have hidx2 : ∀ j, (st.node r).left ≤ j → j < (st.node r).left + (st.node r).right →
        st'.tlasIdx j = st.tlasIdx j := fun j hj1 hj2 =>
      hidx j (Finset.mem_Ico.mpr ⟨hj1, hj2⟩)
    have hT : Tree true st' q r {r}
        (Finset.Ico (st'.node r).left ((st'.node r).left + (st'.node r).right))
        ((Finset.Ico (st'.node r).left ((st'.node r).left + (st'.node r).right)).image
          st'.tlasIdx) := by
      refine Tree.leaf q r ?_ ?_ ?_ ?_
      · rw [hp]; exact h1
      · rw [hr]; exact h2
      · rw [hl, hr]
        intro a ha b hb hab
        rw [hidx2 a ha.1 ha.2, hidx2 b hb.1 hb.2] at hab
        exact h3 ha hb hab
      · intro _ j hj1 hj2
        rw [hl] at hj1
        rw [hl, hr] at hj2
        rw [hidx2 j hj1 hj2]
        exact hmap r (Finset.mem_singleton_self r) (by omega) j hj1 hj2
    rw [hl, hr] at hT
    have himg : (Finset.Ico (st.node r).left ((st.node r).left + (st.node r).right)).image
        st'.tlasIdx =
        (Finset.Ico (st.node r).left ((st.node r).left + (st.node r).right)).image
        st.tlasIdx := by
      apply Finset.image_congr
      intro j hj
      have hj2 := Finset.mem_Ico.mp hj
      exact hidx2 j hj2.1 hj2.2
    rw [himg] at hT
    exact hT
  | node q r S1 S2 P1 P2 L1 L2 h1 h2 t1 t2 d1 d2 d3 d4 d5 ih1 ih2 =>
    intro hnode hidx hmap
    obtain ⟨hp, hl, hr⟩ := hnode r (Finset.mem_insert_self r _)
    have c1 := ih1
      (fun m hm => hnode m (Finset.mem_insert_of_mem (Finset.mem_union_left _ hm)))
      (fun j hj => hidx j (Finset.mem_union_left _ hj))
      (fun m hm => hmap m (Finset.mem_insert_of_mem (Finset.mem_union_left _ hm)))
    have c2 := ih2
      (fun m hm => hnode m (Finset.mem_insert_of_mem (Finset.mem_union_right _ hm)))
      (fun j hj => hidx j (Finset.mem_union_right _ hj))
      (fun m hm => hmap m (Finset.mem_insert_of_mem (Finset.mem_union_right _ hm)))
    refine Tree.node q r S1 S2 P1 P2 L1 L2 ?_ ?_ ?_ ?_ d1 d2 d3 d4 d5
    · rw [hp]; exact h1
    · rw [hp]; exact h2
    · rw [hl]; exact c1
    · rw [hr]; exact c2

/-! ### `rebuild` establishes the invariant -/

theorem rebuildInit_fold :
    ∀ (l : List ℕ) (s : KD),
      (∀ j ∈ l,
        ((l.foldl (fun s k =>
          let i := k + 1
          (s.setTlasIdx (i - 1) i).setBounds i ⟨(s.tlas i).bmin, (s.tlas i).bmax⟩) s).tlasIdx j
          = j + 1)) ∧
      (∀ j, j ∉ l →
        ((l.foldl (fun s k =>
          let i := k + 1
          (s.setTlasIdx (i - 1) i).setBounds i ⟨(s.tlas i).bmin, (s.tlas i).bmax⟩) s).tlasIdx j
          = s.tlasIdx j)) ∧
      ((l.foldl (fun s k =>
        let i := k + 1
        (s.setTlasIdx (i - 1) i).setBounds i ⟨(s.tlas i).bmin, (s.tlas i).bmax⟩) s).node
        = s.node) ∧
      ((l.foldl (fun s k =>
        let i := k + 1
        (s.setTlasIdx (i - 1) i).setBounds i ⟨(s.tlas i).bmin, (s.tlas i).bmax⟩) s).leaf
        = s.leaf) ∧
      ((l.foldl (fun s k =>
        let i := k + 1
        (s.setTlasIdx (i - 1) i).setBounds i ⟨(s.tlas i).bmin, (s.tlas i).bmax⟩) s).nodePtr
        = s.nodePtr) ∧
      ((l.foldl (fun s k =>
        let i := k + 1
        (s.setTlasIdx (i - 1) i).setBounds i ⟨(s.tlas i).bmin, (s.tlas i).bmax⟩) s).tlasCount
        = s.tlasCount) ∧
      ((l.foldl (fun s k =>
        let i := k + 1
        (s.setTlasIdx (i - 1) i).setBounds i ⟨(s.tlas i).bmin, (s.tlas i).bmax⟩) s).blasCount
        = s.blasCount) := by
  intro l
  induction l with
  | nil =>
    intro s
    exact ⟨fun j hj => absurd hj (List.not_mem_nil j), fun j hj => rfl, rfl, rfl, rfl,
      rfl, rfl⟩
  | cons a t ih =>
    intro s
    rw [List.foldl_cons]
    obtain ⟨ht1, ht2, ht3, ht4, ht5, ht6, ht7⟩ := ih
      ((s.setTlasIdx (a + 1 - 1) (a + 1)).setBounds (a + 1)
        ⟨(s.tlas (a + 1)).bmin, (s.tlas (a + 1)).bmax⟩)
    have hone : ((s.setTlasIdx (a + 1 - 1) (a + 1)).setBounds (a + 1)
        ⟨(s.tlas (a + 1)).bmin, (s.tlas (a + 1)).bmax⟩).tlasIdx =
        Function.update s.tlasIdx a (a + 1) := by
      rw [setBounds_tlasIdx, setTlasIdx_tlasIdx, Nat.add_sub_cancel]
    refine ⟨?_, ?_, ht3, ht4, ht5, ht6, ht7⟩
    · intro j hj
      rcases List.mem_cons.mp hj with he | hjt
      · subst he
        by_cases hat : j ∈ t
        · exact ht1 j hat
        · rw [ht2 j hat, hone, Function.update_same]
      · exact ht1 j hjt
    · intro j hj
      have hja : j ≠ a := fun he => hj (he ▸ List.mem_cons_self a t)
      have hjt : j ∉ t := fun hh => hj (List.mem_cons_of_mem a hh)
      rw [ht2 j hjt, hone, Function.update_noteq hja]

theorem rebuildInit_facts (st : KD) :
    (∀ j, j < st.blasCount → (rebuildInit st).tlasIdx j = j + 1) ∧
    (rebuildInit st).node = st.node ∧ (rebuildInit st).leaf = st.leaf ∧
    (rebuildInit st).nodePtr = st.nodePtr ∧ (rebuildInit st).tlasCount = st.tlasCount ∧
    (rebuildInit st).blasCount = st.blasCount := by
  obtain ⟨h1, h2, h3, h4, h5, h6, h7⟩ := rebuildInit_fold (List.range st.blasCount) st
  exact ⟨fun j hj => h1 j (List.mem_range.mpr hj), h3, h4, h5, h6, h7⟩

theorem rebuildSt2_facts (st0 : KD) :
    (rebuildSt2 st0).nodePtr = 1 ∧
    (rebuildSt2 st0).tlasCount = st0.blasCount ∧
    (rebuildSt2 st0).blasCount = st0.blasCount ∧
    ((rebuildSt2 st0).node 0).parax = 7 ∧
    ((rebuildSt2 st0).node 0).left = 0 ∧
    ((rebuildSt2 st0).node 0).right = st0.blasCount ∧
    (∀ j, j < st0.blasCount → (rebuildSt2 st0).tlasIdx j = j + 1) := by
  obtain ⟨h1, h2, h3, h4, h5, h6⟩ :=
    rebuildInit_facts { st0 with tlasCount := st0.blasCount }
  refine ⟨rfl, ?_, ?_, rfl, rfl, ?_, ?_⟩
  · show (rebuildInit { st0 with tlasCount := st0.blasCount }).tlasCount = st0.blasCount
    rw [h5]
  · show (rebuildInit { st0 with tlasCount := st0.blasCount }).blasCount = st0.blasCount
    rw [h6]
  · show (rebuildInit { st0 with tlasCount := st0.blasCount }).blasCount = st0.blasCount
    rw [h6]
  · intro j hj
    show (rebuildInit { st0 with tlasCount := st0.blasCount }).tlasIdx j = j + 1
    exact h1 j hj

theorem rebuild_inv (st0 : KD) (hbl : 1 ≤ st0.blasCount) :
    Inv (rebuildOp st0) (liveInit st0.blasCount) false := by
  obtain ⟨hnp, htc, hbc, hpx0, hl0, hr0, hidx0⟩ := rebuildSt2_facts st0
  have hInj : Set.InjOn (rebuildSt2 st0).tlasIdx
      (Set.Ico ((rebuildSt2 st0).node 0).left
        (((rebuildSt2 st0).node 0).left + ((rebuildSt2 st0).node 0).right)) := by
    rw [hl0, hr0]
    intro a ha b hb hab
    rw [Set.mem_Ico] at ha hb
    rw [hidx0 a (by omega), hidx0 b (by omega)] at hab
    omega
  obtain ⟨e, hfix, htl, Tpre⟩ := subdivide_tree ((rebuildSt2 st0).blasCount + 1)
    (rebuildSt2 st0) 0 0
    (by rw [hpx0])
    (by rw [hr0]; omega)
    (by rw [hr0, hbc]; omega)
    (by rw [hnp]; omega)
    hInj
  rw [hl0, hr0, Nat.zero_add, hnp] at Tpre
  rw [hl0, hr0, Nat.zero_add] at hfix
  have hmono := (subdivide_frame ((rebuildSt2 st0).blasCount + 1) (rebuildSt2 st0) 0).1
  rw [hnp] at hmono
  obtain ⟨-, -, -, -, -, htc3, -, -, -⟩ :=
    subdivide_frame ((rebuildSt2 st0).blasCount + 1) (rebuildSt2 st0) 0
  have hrangeS : insert 0 (Finset.Ico 1
      (subdivide ((rebuildSt2 st0).blasCount + 1) (rebuildSt2 st0) 0).nodePtr) =
      Finset.range (subdivide ((rebuildSt2 st0).blasCount + 1) (rebuildSt2 st0) 0).nodePtr := by
    ext a
    simp only [Finset.mem_insert, Finset.mem_Ico, Finset.mem_range]
    omega
  rw [hrangeS] at Tpre
  have hTtrue : Tree true
      (minRefitLoop (subdivide ((rebuildSt2 st0).blasCount + 1) (rebuildSt2 st0) 0).nodePtr
        (subdivide ((rebuildSt2 st0).blasCount + 1) (rebuildSt2 st0) 0)) 0 0
      (Finset.range (subdivide ((rebuildSt2 st0).blasCount + 1) (rebuildSt2 st0) 0).nodePtr)
      (Finset.Ico 0 st0.blasCount)
      ((Finset.Ico 0 st0.blasCount).image
        (subdivide ((rebuildSt2 st0).blasCount + 1) (rebuildSt2 st0) 0).tlasIdx) := by
    refine Tree_establishMap Tpre ?_ ?_ ?_
    · intro m hm
      exact minRefitLoop_shape _ _ m
    · intro j hj
      rw [minRefitLoop_tlasIdx]
    · intro m hm hlf j hj1 hj2
      refine minRefitLoop_leaf_eq _ _ _ m (Finset.mem_range.mp hm) ?_ ?_ ?_
      · unfold KDNode.isLeaf
        rw [hlf]
        rfl
      · exact ⟨j - ((subdivide ((rebuildSt2 st0).blasCount + 1) (rebuildSt2 st0) 0).node
          m).left, by omega, by
            rw [show ((subdivide ((rebuildSt2 st0).blasCount + 1) (rebuildSt2 st0) 0).node
              m).left + (j - ((subdivide ((rebuildSt2 st0).blasCount + 1)
                (rebuildSt2 st0) 0).node m).left) = j from by omega]⟩
      · intro m2 hm2 hm2n hleaf2 j2 hj2b
        have hm2S : m2 ∈ Finset.range
            (subdivide ((rebuildSt2 st0).blasCount + 1) (rebuildSt2 st0) 0).nodePtr :=
          Finset.mem_range.mpr hm2
        have hm2px : ((subdivide ((rebuildSt2 st0).blasCount + 1)
            (rebuildSt2 st0) 0).node m2).parax % 8 = 7 := by
          rcases Tree_parax_cases Tpre m2 hm2S with hh | hh
          · exact hh
          · exfalso
            unfold KDNode.isLeaf at hleaf2
            rw [decide_eq_true_eq] at hleaf2
            omega
        exact Tree_leaf_sep Tpre m2 hm2S hm2px m hm hlf hm2n
          (((subdivide ((rebuildSt2 st0).blasCount + 1) (rebuildSt2 st0) 0).node m2).left + j2)
          j (by omega) (by omega) hj1 hj2
  have hre : rebuildOp st0 =
      minRefitLoop (subdivide ((rebuildSt2 st0).blasCount + 1) (rebuildSt2 st0) 0).nodePtr
        (subdivide ((rebuildSt2 st0).blasCount + 1) (rebuildSt2 st0) 0) := rfl
  have hLeq : (Finset.Ico 0 st0.blasCount).image
      (subdivide ((rebuildSt2 st0).blasCount + 1) (rebuildSt2 st0) 0).tlasIdx =
      liveInit st0.blasCount := by
    rw [htl, perm_image_Ico ((rebuildSt2 st0).tlasIdx) e 0 st0.blasCount hfix]
    unfold liveInit
    rw [Finset.range_eq_Ico]
    apply Finset.image_congr
    intro j hj
    have hj2 : j ∈ Finset.Ico 0 st0.blasCount := hj
    rw [Finset.mem_Ico] at hj2
    exact hidx0 j hj2.2
  rw [hLeq] at hTtrue
  refine ⟨Finset.range
      (subdivide ((rebuildSt2 st0).blasCount + 1) (rebuildSt2 st0) 0).nodePtr,
    Finset.Ico 0 st0.blasCount, ?_, ?_, ?_, ?_⟩
  · rw [hre]
    exact hTtrue
  · intro m hm
    have hh : (rebuildOp st0).nodePtr =
        (subdivide ((rebuildSt2 st0).blasCount + 1) (rebuildSt2 st0) 0).nodePtr := by
      rw [hre]
      exact minRefitLoop_nodePtr _ _
    rw [hh]
    exact Finset.mem_range.mp hm
  · intro j hj
    rw [Finset.mem_Ico] at hj
    have hh : (rebuildOp st0).tlasCount = st0.blasCount := by
      rw [hre, minRefitLoop_tlasCount, htc3, htc]
    omega
  · intro hcontra
    exact Bool.noConfusion hcontra

/-! ### `removeLeaf`: the swap-remove branch -/

theorem Tree_leaf_injOn {u : Bool} {st : KD} {p n : ℕ} {S P L : Finset ℕ}
    (h : Tree u st p n S P L) :
    ∀ m ∈ S, (st.node m).parax % 8 = 7 →
      Set.InjOn st.tlasIdx
        (Set.Ico (st.node m).left ((st.node m).left + (st.node m).right)) ∧
      1 ≤ (st.node m).right := by
  induction h with
  | leaf q r h1 h2 h3 h4 =>
    intro m hm hlf
    rw [Finset.mem_singleton] at hm
    subst hm
    exact ⟨h3, h2⟩
  | node q r S1 S2 P1 P2 L1 L2 h1 h2 t1 t2 d1 d2 d3 d4 d5 ih1 ih2 =>
    intro m hm hlf
    rcases Finset.mem_insert.mp hm with hm1 | hm2
    · subst hm1
      omega
    · rcases Finset.mem_union.mp hm2 with hh | hh
      · exact ih1 m hh hlf
      · exact ih2 m hh hlf

theorem removeScan_succ (fuel : ℕ) (st : KD) (tgt f j cnt : ℕ) :
    removeScan (fuel + 1) st tgt f j cnt =
      if cnt ≤ j then (st, cnt)
      else if st.tlasIdx (f + j) = tgt then
        removeScan fuel (st.setTlasIdx (f + j) (st.tlasIdx (f + cnt - 1))) tgt f (j + 1)
          (cnt - 1)
      else removeScan fuel st tgt f (j + 1) cnt := rfl

theorem removeScan_notfound : ∀ (fuel : ℕ) (st : KD) (tgt f j cnt : ℕ),
    cnt ≤ fuel + j →
    (∀ u, f + j ≤ u → u < f + cnt → st.tlasIdx u ≠ tgt) →
    removeScan fuel st tgt f j cnt = (st, cnt) := by
  intro fuel
  induction fuel with
  | zero => intro st tgt f j cnt hf hno; rfl
  | succ fuel ih =>
    intro st tgt f j cnt hf hno
    rw [removeScan_succ]
    by_cases hcj : cnt ≤ j
    · rw [if_pos hcj]
    · rw [if_neg hcj, if_neg (hno (f + j) (by omega) (by omega))]
      exact ih st tgt f (j + 1) cnt (by omega) (fun u hu1 hu2 => hno u (by omega) hu2)

theorem removeScan_found : ∀ (fuel : ℕ) (st : KD) (tgt f j cnt t : ℕ),
    cnt ≤ fuel + j →
    f + j ≤ t → t < f + cnt → st.tlasIdx t = tgt →
    (∀ u, f + j ≤ u → u < f + cnt → st.tlasIdx u = tgt → u = t) →
    removeScan fuel st tgt f j cnt =
      (st.setTlasIdx t (st.tlasIdx (f + cnt - 1)), cnt - 1) := by
  intro fuel
  induction fuel with
  | zero =>
    intro st tgt f j cnt t hf ht1 ht2 htv huniq
    omega
  | succ fuel ih =>
    intro st tgt f j cnt t hf ht1 ht2 htv huniq
    rw [removeScan_succ, if_neg (by omega : ¬cnt ≤ j)]
    by_cases hjt : st.tlasIdx (f + j) = tgt
    · rw [if_pos hjt]
      have htj : f + j = t := huniq (f + j) (by omega) (by omega) hjt
      rw [removeScan_notfound fuel _ tgt f (j + 1) (cnt - 1) (by omega) ?_]
      · rw [htj]
      · intro u hu1 hu2
        rw [setTlasIdx_tlasIdx, Function.update_noteq (by omega)]
        intro hu3
        have := huniq u (by omega) (by omega) hu3
        omega
    · rw [if_neg hjt]
      have htj : t ≠ f + j := fun he => hjt (he ▸ htv)
      exact ih st tgt f (j + 1) cnt t (by omega) (by omega) ht2 htv
        (fun u hu1 hu2 hu3 => huniq u (by omega) hu2 hu3)

theorem removeLeafOpA_spec (st : KD) (idx t : ℕ)
    (h1 : 1 < (st.node (st.leaf idx)).right)
    (ht1 : (st.node (st.leaf idx)).left ≤ t)
    (ht2 : t < (st.node (st.leaf idx)).left + (st.node (st.leaf idx)).right)
    (htv : st.tlasIdx t = idx)
    (huniq : ∀ u, (st.node (st.leaf idx)).left ≤ u →
      u < (st.node (st.leaf idx)).left + (st.node (st.leaf idx)).right →
      st.tlasIdx u = idx → u = t) :
    (removeLeafOp st idx).tlasIdx =
      Function.update st.tlasIdx t
        (st.tlasIdx ((st.node (st.leaf idx)).left + (st.node (st.leaf idx)).right - 1)) ∧
    (removeLeafOp st idx).node (st.leaf idx) =
      { st.node (st.leaf idx) with right := (st.node (st.leaf idx)).right - 1 } ∧
    (∀ m, m ≠ st.leaf idx → (removeLeafOp st idx).node m = st.node m) ∧
    (removeLeafOp st idx).leaf = st.leaf ∧
    (removeLeafOp st idx).nodePtr = st.nodePtr + 2 ∧
    (removeLeafOp st idx).tlasCount = st.tlasCount ∧
    (removeLeafOp st idx).freed0 = st.nodePtr ∧
    (removeLeafOp st idx).freed1 = st.nodePtr + 1 := by
  have hsc := removeScan_found (st.node (st.leaf idx)).right st idx
    (st.node (st.leaf idx)).left 0 (st.node (st.leaf idx)).right t (by omega) (by omega)
    (by omega) htv (fun u hu1 hu2 hu3 => huniq u (by omega) hu2 hu3)
  have hre : removeLeafOp st idx =
      (let res := (st.setTlasIdx t (st.tlasIdx ((st.node (st.leaf idx)).left +
          (st.node (st.leaf idx)).right - 1)), (st.node (st.leaf idx)).right - 1)
       let st1 := res.1.setNode (st.leaf idx)
         { (res.1.node (st.leaf idx)) with right := res.2 }
       { st1 with
         freed0 := st1.nodePtr,
         freed1 := st1.nodePtr + 1,
         nodePtr := st1.nodePtr + 2 }) := by
    unfold removeLeafOp
    simp only [if_pos h1]
    rw [hsc]
  refine ⟨?_, ?_, ?_, ?_, ?_, ?_, ?_, ?_⟩
  · rw [hre]
    rfl
  · rw [hre]
    show ((st.setTlasIdx t _).setNode (st.leaf idx) _).node (st.leaf idx) = _
    rw [setNode_node, Function.update_same]
    rfl
  · intro m hm
    rw [hre]
    show ((st.setTlasIdx t _).setNode (st.leaf idx) _).node m = _
    rw [setNode_node, Function.update_noteq hm]
    rfl
  · rw [hre]
    rfl
  · rw [hre]
    rfl
  · rw [hre]
    rfl
  · rw [hre]
    rfl
  · rw [hre]
    rfl

theorem Tree_shrink_leaf {u : Bool} {st st' : KD} {n0 t : ℕ}
    (hlf : (st.node n0).parax % 8 = 7)
    (ht1 : (st.node n0).left ≤ t)
    (ht2 : t < (st.node n0).left + (st.node n0).right)
    (h2 : 2 ≤ (st.node n0).right)
    (hidx : st'.tlasIdx = Function.update st.tlasIdx t
      (st.tlasIdx ((st.node n0).left + (st.node n0).right - 1)))
    (hnd : st'.node n0 = { st.node n0 with right := (st.node n0).right - 1 })
    (hnoteq : ∀ m, m ≠ n0 → st'.node m = st.node m)
    (hleaf : st'.leaf = st.leaf) :
    ∀ {p n : ℕ} {S P L : Finset ℕ}, Tree u st p n S P L → n0 ∈ S →
      Tree u st' p n S (P.erase ((st.node n0).left + (st.node n0).right - 1))
        (L.erase (st.tlasIdx t)) := by
  intro p n S P L h
  induction h with
  | leaf q r h1 h2l h3 h4 =>
    intro hS
    rw [Finset.mem_singleton] at hS
    subst hS
    have hl' : (st'.node n0).left = (st.node n0).left := by rw [hnd]
    have hr' : (st'.node n0).right = (st.node n0).right - 1 := by rw [hnd]
    have hpx' : (st'.node n0).parax = (st.node n0).parax := by rw [hnd]
    have hT : Tree u st' q n0 {n0}
        (Finset.Ico (st'.node n0).left ((st'.node n0).left + (st'.node n0).right))
        ((Finset.Ico (st'.node n0).left
          ((st'.node n0).left + (st'.node n0).right)).image st'.tlasIdx) := by
      refine Tree.leaf q n0 ?_ ?_ ?_ ?_
      · rw [hpx']; exact h1
      · rw [hr']; omega
      · rw [hl', hr']
        intro a ha b hb hab
        rw [Set.mem_Ico] at ha hb
        rw [hidx] at hab
        by_cases ea : a = t <;> by_cases eb : b = t
        · omega
        · rw [ea, Function.update_same, Function.update_noteq eb] at hab
          have := h3 (Set.mem_Ico.mpr ⟨by omega, by omega⟩)
            (Set.mem_Ico.mpr ⟨by omega, by omega⟩) hab
          omega
        · rw [eb, Function.update_same, Function.update_noteq ea] at hab
          have := h3 (Set.mem_Ico.mpr ⟨by omega, by omega⟩)
            (Set.mem_Ico.mpr ⟨by omega, by omega⟩) hab
          omega
        · rw [Function.update_noteq ea, Function.update_noteq eb] at hab
          have := h3 (Set.mem_Ico.mpr ⟨by omega, by omega⟩)
            (Set.mem_Ico.mpr ⟨by omega, by omega⟩) hab
          omega
      · intro hu j hj1 hj2
        rw [hl'] at hj1
        rw [hl', hr'] at hj2
        rw [hleaf, hidx]
        by_cases ej : j = t
        · rw [ej, Function.update_same]
          exact h4 hu ((st.node n0).left + (st.node n0).right - 1) (by omega) (by omega)
        · rw [Function.update_noteq ej]
          exact h4 hu j (by omega) (by omega)
    rw [hl', hr'] at hT
    have hP : Finset.Ico (st.node n0).left
        ((st.node n0).left + ((st.node n0).right - 1)) =
        (Finset.Ico (st.node n0).left
          ((st.node n0).left + (st.node n0).right)).erase
          ((st.node n0).left + (st.node n0).right - 1) := by
      ext a
      simp only [Finset.mem_Ico, Finset.mem_erase]
      omega
    have hL : (Finset.Ico (st.node n0).left
        ((st.node n0).left + ((st.node n0).right - 1))).image st'.tlasIdx =
        ((Finset.Ico (st.node n0).left
          ((st.node n0).left + (st.node n0).right)).image st.tlasIdx).erase
          (st.tlasIdx t) := by
      ext i
      simp only [Finset.mem_image, Finset.mem_erase, Finset.mem_Ico]
      constructor
      · rintro ⟨v, hv, hvv⟩
        by_cases hvt : v = t
        · subst hvt
          rw [hidx, Function.update_same] at hvv
          refine ⟨?_, (st.node n0).left + (st.node n0).right - 1, ⟨by omega, by omega⟩, hvv⟩
          intro he
          rw [← hvv] at he
          have := h3 (Set.mem_Ico.mpr ⟨by omega, by omega⟩)
            (Set.mem_Ico.mpr ⟨by omega, by omega⟩) he
          omega
        · rw [hidx, Function.update_noteq hvt] at hvv
          refine ⟨?_, v, ⟨by omega, by omega⟩, hvv⟩
          intro he
          rw [← hvv] at he
          have := h3 (Set.mem_Ico.mpr ⟨by omega, by omega⟩)
            (Set.mem_Ico.mpr ⟨by omega, by omega⟩) he
          omega
      · rintro ⟨hne, v, hv, hvv⟩
        have hvt : v ≠ t := by
          intro he
          subst he
          exact hne hvv.symm
        by_cases hvlast : v = (st.node n0).left + (st.node n0).right - 1
        · refine ⟨t, ⟨by omega, by omega⟩, ?_⟩
          rw [hidx, Function.update_same, ← hvlast]
          exact hvv
        · refine ⟨v, ⟨by omega, by omega⟩, ?_⟩
          rw [hidx, Function.update_noteq hvt]
          exact hvv
    rw [hL, hP] at hT
    exact hT
  | node q r S1 S2 P1 P2 L1 L2 h1 h2n t1 t2 d1 d2 d3 d4 d5 ih1 ih2 =>
    intro hS
    have hrn0 : r ≠ n0 := by
      intro he
      rw [he] at h1
      omega
    have hxP1 : n0 ∈ S1 → ((st.node n0).left + (st.node n0).right - 1) ∈ P1 :=
      fun hm => Tree_leaf_range_subP t1 n0 hm hlf _ (by omega) (by omega)
    have hxP2 : n0 ∈ S2 → ((st.node n0).left + (st.node n0).right - 1) ∈ P2 :=
      fun hm => Tree_leaf_range_subP t2 n0 hm hlf _ (by omega) (by omega)
    have hvL1 : n0 ∈ S1 → st.tlasIdx t ∈ L1 :=
      fun hm => Tree_leaf_val_mem t1 n0 hm hlf t (by omega) (by omega)
    have hvL2 : n0 ∈ S2 → st.tlasIdx t ∈ L2 :=
      fun hm => Tree_leaf_val_mem t2 n0 hm hlf t (by omega) (by omega)
    have htP1 : n0 ∈ S1 → t ∈ P1 :=
      fun hm => Tree_leaf_range_subP t1 n0 hm hlf t (by omega) (by omega)
    have htP2 : n0 ∈ S2 → t ∈ P2 :=
      fun hm => Tree_leaf_range_subP t2 n0 hm hlf t (by omega) (by omega)
    have hnr : (st'.node r) = st.node r := hnoteq r hrn0
    rcases Finset.mem_insert.mp hS with he | hm
    · exact absurd he.symm hrn0
    rcases Finset.mem_union.mp hm with hm1 | hm2
    · have c1 := ih1 hm1
      have c2 : Tree u st' r (st.node r).right S2 P2 L2 := by
        refine Tree_congr t2 ?_ ?_ ?_
        · intro m hmm
          have : m ≠ n0 := fun he => (Finset.disjoint_left.mp d1 hm1) (he ▸ hmm)
          rw [hnoteq m this]
          exact ⟨rfl, rfl, rfl⟩
        · intro j hj
          have hjt : j ≠ t := fun he =>
            (Finset.disjoint_left.mp d4 (htP1 hm1)) (he ▸ hj)
          rw [hidx, Function.update_noteq hjt]
        · intro j hj
          rw [hleaf]
      have hT := Tree.node q r S1 S2 (P1.erase ((st.node n0).left + (st.node n0).right - 1))
        P2 (L1.erase (st.tlasIdx t)) L2
        (by rw [hnr]; exact h1) (by rw [hnr]; exact h2n)
        (by rw [hnr]; exact c1) (by rw [hnr]; exact c2)
        d1 d2 d3
        (Finset.disjoint_of_subset_left (Finset.erase_subset _ _) d4)
        (Finset.disjoint_of_subset_left (Finset.erase_subset _ _) d5)
      rw [show P1.erase ((st.node n0).left + (st.node n0).right - 1) ∪ P2 =
          (P1 ∪ P2).erase ((st.node n0).left + (st.node n0).right - 1) from ?_,
        show L1.erase (st.tlasIdx t) ∪ L2 = (L1 ∪ L2).erase (st.tlasIdx t) from ?_] at hT
      · exact hT
      · rw [Finset.erase_union_distrib,
          Finset.erase_eq_of_not_mem
            (fun hc => (Finset.disjoint_left.mp d5 (hvL1 hm1)) hc)]
      · rw [Finset.erase_union_distrib,
          Finset.erase_eq_of_not_mem
            (fun hc => (Finset.disjoint_left.mp d4 (hxP1 hm1)) hc)]
    · have c2 := ih2 hm2
      have c1 : Tree u st' r (st.node r).left S1 P1 L1 := by
        refine Tree_congr t1 ?_ ?_ ?_
        · intro m hmm
          have : m ≠ n0 := fun he => (Finset.disjoint_left.mp d1 hmm) (he ▸ hm2)
          rw [hnoteq m this]
          exact ⟨rfl, rfl, rfl⟩
        · intro j hj
          have hjt : j ≠ t := fun he =>
            (Finset.disjoint_left.mp d4.symm (htP2 hm2)) (he ▸ hj)
          rw [hidx, Function.update_noteq hjt]
        · intro j hj
          rw [hleaf]
      have hT := Tree.node q r S1 S2 P1
        (P2.erase ((st.node n0).left + (st.node n0).right - 1)) L1
        (L2.erase (st.tlasIdx t))
        (by rw [hnr]; exact h1) (by rw [hnr]; exact h2n)
        (by rw [hnr]; exact c1) (by rw [hnr]; exact c2)
        d1 d2 d3
        (Finset.disjoint_of_subset_right (Finset.erase_subset _ _) d4)
        (Finset.disjoint_of_subset_right (Finset.erase_subset _ _) d5)
      rw [show P1 ∪ P2.erase ((st.node n0).left + (st.node n0).right - 1) =
          (P1 ∪ P2).erase ((st.node n0).left + (st.node n0).right - 1) from ?_,
        show L1 ∪ L2.erase (st.tlasIdx t) = (L1 ∪ L2).erase (st.tlasIdx t) from ?_] at hT
      · exact hT
      · rw [Finset.erase_union_distrib,
          Finset.erase_eq_of_not_mem
            (fun hc => (Finset.disjoint_left.mp d5.symm
              (hvL2 hm2)) hc)]
      · rw [Finset.erase_union_distrib,
          Finset.erase_eq_of_not_mem
            (fun hc => (Finset.disjoint_left.mp d4.symm
              (hxP2 hm2)) hc)]

/-! ### `removeLeaf`: the sibling-promotion branch -/

theorem Tree_pos_val_mem {u : Bool} {st : KD} {p n : ℕ} {S P L : Finset ℕ}
    (h : Tree u st p n S P L) : ∀ j ∈ P, st.tlasIdx j ∈ L := by
  induction h with
  | leaf q r h1 h2 h3 h4 =>
    intro j hj
    exact Finset.mem_image_of_mem _ hj
  | node q r S1 S2 P1 P2 L1 L2 h1 h2 t1 t2 d1 d2 d3 d4 d5 ih1 ih2 =>
    intro j hj
    rcases Finset.mem_union.mp hj with hh | hh
    · exact Finset.mem_union_left _ (ih1 j hh)
    · exact Finset.mem_union_right _ (ih2 j hh)

theorem Tree_parent_interior {u : Bool} {st : KD} {p n : ℕ} {S P L : Finset ℕ}
    (h : Tree u st p n S P L) :
    ∀ m ∈ S, m ≠ n →
      (st.node m).parax / 8 ∈ S ∧
      (st.node ((st.node m).parax / 8)).parax % 8 ≤ 2 ∧
      ((st.node ((st.node m).parax / 8)).left = m ∨
        (st.node ((st.node m).parax / 8)).right = m) := by
  induction h with
  | leaf q r h1 h2 h3 h4 =>
    intro m hm hmn
    rw [Finset.mem_singleton] at hm
    exact absurd hm hmn
  | node q r S1 S2 P1 P2 L1 L2 h1 h2 t1 t2 d1 d2 d3 d4 d5 ih1 ih2 =>
    intro m hm hmn
    rcases Finset.mem_insert.mp hm with hm1 | hm2
    · exact absurd hm1 hmn
    · rcases Finset.mem_union.mp hm2 with hh | hh
      · by_cases hroot : m = (st.node r).left
        · rw [hroot, Tree_root_parent t1]
          exact ⟨Finset.mem_insert_self r _, h1, Or.inl rfl⟩
        · obtain ⟨a, b, c⟩ := ih1 m hh hroot
          exact ⟨Finset.mem_insert_of_mem (Finset.mem_union_left _ a), b, c⟩
      · by_cases hroot : m = (st.node r).right
        · rw [hroot, Tree_root_parent t2]
          exact ⟨Finset.mem_insert_self r _, h1, Or.inr rfl⟩
        · obtain ⟨a, b, c⟩ := ih2 m hh hroot
          exact ⟨Finset.mem_insert_of_mem (Finset.mem_union_right _ a), b, c⟩

theorem leafRedir_fold (T F : ℕ) :
    ∀ (l : List ℕ) (s : KD),
      ((l.foldl (fun s2 j => s2.setLeaf (s2.tlasIdx (F + j)) T) s).node = s.node) ∧
      ((l.foldl (fun s2 j => s2.setLeaf (s2.tlasIdx (F + j)) T) s).tlasIdx = s.tlasIdx) ∧
      ((l.foldl (fun s2 j => s2.setLeaf (s2.tlasIdx (F + j)) T) s).nodePtr = s.nodePtr) ∧
      ((l.foldl (fun s2 j => s2.setLeaf (s2.tlasIdx (F + j)) T) s).tlasCount = s.tlasCount) ∧
      (∀ x, (∀ j ∈ l, s.tlasIdx (F + j) ≠ x) →
        (l.foldl (fun s2 j => s2.setLeaf (s2.tlasIdx (F + j)) T) s).leaf x = s.leaf x) ∧
      (∀ x, (l.foldl (fun s2 j => s2.setLeaf (s2.tlasIdx (F + j)) T) s).leaf x = T ∨
        (l.foldl (fun s2 j => s2.setLeaf (s2.tlasIdx (F + j)) T) s).leaf x = s.leaf x) ∧
      (∀ j ∈ l,
        (l.foldl (fun s2 j => s2.setLeaf (s2.tlasIdx (F + j)) T) s).leaf
          (s.tlasIdx (F + j)) = T) := by
  intro l
  induction l with
  | nil =>
    intro s
    exact ⟨rfl, rfl, rfl, rfl, fun x _ => rfl, fun x => Or.inr rfl,
      fun j hj => absurd hj (List.not_mem_nil j)⟩
  | cons a t ih =>
    intro s
    rw [List.foldl_cons]
    obtain ⟨ih1, ih2, ih3, ih4, ih5, ih6, ih7⟩ := ih (s.setLeaf (s.tlasIdx (F + a)) T)
    have hstep_leaf : (s.setLeaf (s.tlasIdx (F + a)) T).leaf =
        Function.update s.leaf (s.tlasIdx (F + a)) T := rfl
    refine ⟨ih1, ih2, ih3, ih4, ?_, ?_, ?_⟩
    · intro x hx
      rw [ih5 x (fun j hj => hx j (List.mem_cons_of_mem a hj)), hstep_leaf,
        Function.update_noteq (fun he => hx a (List.mem_cons_self a t) he.symm)]
    · intro x
      rcases ih6 x with hh | hh
      · exact Or.inl hh
      · rw [hh, hstep_leaf]
        by_cases hax : s.tlasIdx (F + a) = x
        · left
          rw [← hax, Function.update_same]
        · right
          rw [Function.update_noteq (fun he => hax he.symm)]
    · intro j hj
      rcases List.mem_cons.mp hj with he | ht
      · subst he
        rcases ih6 (s.tlasIdx (F + j)) with hh | hh
        · exact hh
        · rw [hh, hstep_leaf, Function.update_same]
      · exact ih7 j ht

theorem removeLeafOpB_leaf_spec (st : KD) (idx q sib : ℕ)
    (hcnt : ¬1 < (st.node (st.leaf idx)).right)
    (hq : (st.node (st.leaf idx)).parax / 8 = q)
    (hsib : (if (st.node q).left = st.leaf idx then (st.node q).right
      else (st.node q).left) = sib)
    (hplf : 3 < ((st.node q).parax / 8 * 8 + (st.node sib).parax % 8) % 8) :
    (removeLeafOp st idx).node q =
      { st.node sib with parax := (st.node q).parax / 8 * 8 + (st.node sib).parax % 8 } ∧
    (∀ m, m ≠ q → m ≠ sib → (removeLeafOp st idx).node m = st.node m) ∧
    (removeLeafOp st idx).tlasIdx = st.tlasIdx ∧
    (∀ x, (∀ j, j < (st.node sib).right → st.tlasIdx ((st.node sib).left + j) ≠ x) →
      (removeLeafOp st idx).leaf x = st.leaf x) ∧
    (∀ x, (removeLeafOp st idx).leaf x = q ∨ (removeLeafOp st idx).leaf x = st.leaf x) ∧
    (∀ j, j < (st.node sib).right →
      (removeLeafOp st idx).leaf (st.tlasIdx ((st.node sib).left + j)) = q) ∧
    (removeLeafOp st idx).nodePtr = st.nodePtr ∧
    (removeLeafOp st idx).tlasCount = st.tlasCount ∧
    (removeLeafOp st idx).freed0 = sib ∧
    (removeLeafOp st idx).freed1 = st.leaf idx := by
  have hlfB : ({ st.node sib with
      parax := (st.node q).parax / 8 * 8 + (st.node sib).parax % 8 } : KDNode).isLeaf
      = true := by
    unfold KDNode.isLeaf
    rw [decide_eq_true_eq]
    exact hplf
  have hre : removeLeafOp st idx =
      { ((List.range (st.node sib).right).foldl
          (fun s j => s.setLeaf (s.tlasIdx ((st.node sib).left + j)) q)
          ((st.setNode sib
            { st.node sib with
              parax := (st.node q).parax / 8 * 8 + (st.node sib).parax % 8 }).setNode q
            { st.node sib with
              parax := (st.node q).parax / 8 * 8 + (st.node sib).parax % 8 })) with
        freed0 := sib,
        freed1 := st.leaf idx } := by
    unfold removeLeafOp
    simp only [if_neg hcnt]
    rw [hq, hsib]
    simp only [setNode_node, Function.update_same]
    rw [if_pos hlfB]
  have hfold := leafRedir_fold q (st.node sib).left (List.range (st.node sib).right)
    ((st.setNode sib
      { st.node sib with
        parax := (st.node q).parax / 8 * 8 + (st.node sib).parax % 8 }).setNode q
      { st.node sib with
        parax := (st.node q).parax / 8 * 8 + (st.node sib).parax % 8 })
  obtain ⟨hf1, hf2, hf3, hf4, hf5, hf6, hf7⟩ := hfold
  have hreN : (removeLeafOp st idx).node = ((List.range (st.node sib).right).foldl
      (fun s j => s.setLeaf (s.tlasIdx ((st.node sib).left + j)) q)
      ((st.setNode sib
        { st.node sib with
          parax := (st.node q).parax / 8 * 8 + (st.node sib).parax % 8 }).setNode q
        { st.node sib with
          parax := (st.node q).parax / 8 * 8 + (st.node sib).parax % 8 })).node := by
    rw [hre]
  have hreI : (removeLeafOp st idx).tlasIdx = ((List.range (st.node sib).right).foldl
      (fun s j => s.setLeaf (s.tlasIdx ((st.node sib).left + j)) q)
      ((st.setNode sib
        { st.node sib with
          parax := (st.node q).parax / 8 * 8 + (st.node sib).parax % 8 }).setNode q
        { st.node sib with
          parax := (st.node q).parax / 8 * 8 + (st.node sib).parax % 8 })).tlasIdx := by
    rw [hre]
  have hreL : (removeLeafOp st idx).leaf = ((List.range (st.node sib).right).foldl
      (fun s j => s.setLeaf (s.tlasIdx ((st.node sib).left + j)) q)
      ((st.setNode sib
        { st.node sib with
          parax := (st.node q).parax / 8 * 8 + (st.node sib).parax % 8 }).setNode q
        { st.node sib with
          parax := (st.node q).parax / 8 * 8 + (st.node sib).parax % 8 })).leaf := by
    rw [hre]
  have hreP : (removeLeafOp st idx).nodePtr = ((List.range (st.node sib).right).foldl
      (fun s j => s.setLeaf (s.tlasIdx ((st.node sib).left + j)) q)
      ((st.setNode sib
        { st.node sib with
          parax := (st.node q).parax / 8 * 8 + (st.node sib).parax % 8 }).setNode q
        { st.node sib with
          parax := (st.node q).parax / 8 * 8 + (st.node sib).parax % 8 })).nodePtr := by
    rw [hre]
  have hreC : (removeLeafOp st idx).tlasCount = ((List.range (st.node sib).right).foldl
      (fun s j => s.setLeaf (s.tlasIdx ((st.node sib).left + j)) q)
      ((st.setNode sib
        { st.node sib with
          parax := (st.node q).parax / 8 * 8 + (st.node sib).parax % 8 }).setNode q
        { st.node sib with
          parax := (st.node q).parax / 8 * 8 + (st.node sib).parax % 8 })).tlasCount := by
    rw [hre]
  refine ⟨?_, ?_, ?_, ?_, ?_, ?_, ?_, ?_, ?_, ?_⟩
  · rw [hreN, hf1, setNode_node, Function.update_same]
  · intro m hmq hms
    rw [hreN, hf1, setNode_node, Function.update_noteq hmq, setNode_node,
      Function.update_noteq hms]
  · rw [hreI, hf2, setNode_tlasIdx, setNode_tlasIdx]
  · intro x hx
    rw [hreL, hf5 x (fun j hj => hx j (List.mem_range.mp hj)), setNode_leaf, setNode_leaf]
  · intro x
    rcases hf6 x with hh | hh
    · left
      rw [hreL]
      exact hh
    · right
      rw [hreL, hh, setNode_leaf, setNode_leaf]
  · intro j hj
    rw [hreL]
    exact hf7 j (List.mem_range.mpr hj)
  · rw [hreP, hf3, setNode_nodePtr, setNode_nodePtr]
  · rw [hreC, hf4, setNode_tlasCount, setNode_tlasCount]
  · rw [hre]
  · rw [hre]

theorem removeLeafOpB_int_spec (st : KD) (idx q sib : ℕ)
    (hcnt : ¬1 < (st.node (st.leaf idx)).right)
    (hq : (st.node (st.leaf idx)).parax / 8 = q)
    (hsib : (if (st.node q).left = st.leaf idx then (st.node q).right
      else (st.node q).left) = sib)
    (hpint : ¬3 < ((st.node q).parax / 8 * 8 + (st.node sib).parax % 8) % 8)
    (hc1q : (st.node sib).left ≠ q) (hc1s : (st.node sib).left ≠ sib)
    (hc2q : (st.node sib).right ≠ q) (hc2s : (st.node sib).right ≠ sib)
    (hc12 : (st.node sib).left ≠ (st.node sib).right) :
    (removeLeafOp st idx).node q =
      { st.node sib with parax := (st.node q).parax / 8 * 8 + (st.node sib).parax % 8 } ∧
    (removeLeafOp st idx).node (st.node sib).left =
      { st.node (st.node sib).left with
        parax := q * 8 + (st.node (st.node sib).left).parax % 8 } ∧
    (removeLeafOp st idx).node (st.node sib).right =
      { st.node (st.node sib).right with
        parax := q * 8 + (st.node (st.node sib).right).parax % 8 } ∧
    (∀ m, m ≠ q → m ≠ sib → m ≠ (st.node sib).left → m ≠ (st.node sib).right →
      (removeLeafOp st idx).node m = st.node m) ∧
    (removeLeafOp st idx).tlasIdx = st.tlasIdx ∧
    (removeLeafOp st idx).leaf = st.leaf ∧
    (removeLeafOp st idx).nodePtr = st.nodePtr ∧
    (removeLeafOp st idx).tlasCount = st.tlasCount ∧
    (removeLeafOp st idx).freed0 = sib ∧
    (removeLeafOp st idx).freed1 = st.leaf idx := by
  have hlfB : ¬(({ st.node sib with
      parax := (st.node q).parax / 8 * 8 + (st.node sib).parax % 8 } : KDNode).isLeaf
      = true) := by
    unfold KDNode.isLeaf
    rw [decide_eq_true_eq]
    exact hpint
  have hre : removeLeafOp st idx =
      { ((((st.setNode sib
          { st.node sib with
            parax := (st.node q).parax / 8 * 8 + (st.node sib).parax % 8 }).setNode q
          { st.node sib with
            parax := (st.node q).parax / 8 * 8 + (st.node sib).parax % 8 }).setNode
          (st.node sib).left
          { st.node (st.node sib).left with
            parax := q * 8 + (st.node (st.node sib).left).parax % 8 }).setNode
          (st.node sib).right
          { st.node (st.node sib).right with
            parax := q * 8 + (st.node (st.node sib).right).parax % 8 }) with
        freed0 := sib,
        freed1 := st.leaf idx } := by
    unfold removeLeafOp
    simp only [if_neg hcnt]
    rw [hq, hsib]
    simp only [setNode_node, Function.update_same, Function.update_noteq hc1q,
      Function.update_noteq hc1s, Function.update_noteq hc2q, Function.update_noteq hc2s,
      Function.update_noteq (Ne.symm hc12)]
    rw [if_neg hlfB]
    rfl
  have hreN : (removeLeafOp st idx).node =
      ((((st.setNode sib
          { st.node sib with
            parax := (st.node q).parax / 8 * 8 + (st.node sib).parax % 8 }).setNode q
          { st.node sib with
            parax := (st.node q).parax / 8 * 8 + (st.node sib).parax % 8 }).setNode
          (st.node sib).left
          { st.node (st.node sib).left with
            parax := q * 8 + (st.node (st.node sib).left).parax % 8 }).setNode
          (st.node sib).right
          { st.node (st.node sib).right with
            parax := q * 8 + (st.node (st.node sib).right).parax % 8 }).node := by
    rw [hre]
  refine ⟨?_, ?_, ?_, ?_, ?_, ?_, ?_, ?_, ?_, ?_⟩
  · rw [hreN, setNode_node, Function.update_noteq (Ne.symm hc2q), setNode_node,
      Function.update_noteq (Ne.symm hc1q), setNode_node, Function.update_same]
  · rw [hreN, setNode_node, Function.update_noteq hc12, setNode_node,
      Function.update_same]
  · rw [hreN, setNode_node, Function.update_same]
  · intro m hmq hms hmc1 hmc2
    rw [hreN, setNode_node, Function.update_noteq hmc2, setNode_node,
      Function.update_noteq hmc1, setNode_node, Function.update_noteq hmq,
      setNode_node, Function.update_noteq hms]
  · rw [hre]
    rfl
  · rw [hre]
    rfl
  · rw [hre]
    rfl
  · rw [hre]
    rfl
  · rw [hre]
  · rw [hre]

theorem Tree_removeB_leafcase {st st' : KD} {D q sib : ℕ}
    (hD_par : (st.node D).parax = q * 8 + 7)
    (hD_cnt : (st.node D).right = 1)
    (hDq : D ≠ q) (hsq : sib ≠ q) (hsD : sib ≠ D)
    (hq_int : (st.node q).parax % 8 ≤ 2)
    (hqkids : (st.node q).left = D ∧ (st.node q).right = sib ∨
      (st.node q).right = D ∧ (st.node q).left = sib)
    (hlfS : (st.node sib).parax % 8 = 7)
    (hnq : st'.node q = { st.node sib with
      parax := (st.node q).parax / 8 * 8 + (st.node sib).parax % 8 })
    (hrest : ∀ m, m ≠ q → m ≠ sib → st'.node m = st.node m)
    (hidx : st'.tlasIdx = st.tlasIdx)
    (hlfF : ∀ x, (∀ j, j < (st.node sib).right → st.tlasIdx ((st.node sib).left + j) ≠ x) →
      st'.leaf x = st.leaf x)
    (hlfM : ∀ j, j < (st.node sib).right →
      st'.leaf (st.tlasIdx ((st.node sib).left + j)) = q) :
    ∀ {p n : ℕ} {S P L : Finset ℕ}, Tree true st p n S P L → q ∈ S →
      Tree true st' p n ((S.erase D).erase sib) (P.erase (st.node D).left)
        (L.erase (st.tlasIdx (st.node D).left)) ∧
      D ∈ S ∧ sib ∈ S ∧ (st.node D).left ∈ P ∧ st.tlasIdx (st.node D).left ∈ L ∧
      (∀ j, j < (st.node sib).right → st.tlasIdx ((st.node sib).left + j) ∈ L) := by
  intro p n S P L h
  induction h with
  | leaf q2 r h1 h2 h3 h4 =>
    intro hqS
    rw [Finset.mem_singleton] at hqS
    rw [← hqS] at h1
    omega
  | node q2 r S1 S2 P1 P2 L1 L2 h1 h2 t1 t2 d1 d2 d3 d4 d5 ih1 ih2 =>
    intro hqS
    by_cases hqr : q = r
    · rw [← hqr] at h1 h2 t1 t2 d2 d3 ⊢
      rcases hqkids with ⟨hk1, hk2⟩ | ⟨hk1, hk2⟩
      · rw [hk1] at t1
        rw [hk2] at t2
        cases t1 with
        | node pp nn S1a S2a P1a P2a L1a L2a g1 g2 g3 g4 g5 g6 g7 g8 g9 =>
          omega
        | leaf pp nn g1 g2 g3 g4 =>
        cases t2 with
        | node pp2 nn2 S1b S2b P1b P2b L1b L2b k1 k2 k3 k4 k5 k6 k7 k8 k9 =>
          omega
        | leaf pp2 nn2 k1 k2 k3 k4 =>
          have hT : Tree true st' q2 q {q}
              (Finset.Ico (st'.node q).left ((st'.node q).left + (st'.node q).right))
              ((Finset.Ico (st'.node q).left
                ((st'.node q).left + (st'.node q).right)).image st'.tlasIdx) := by
            refine Tree.leaf q2 q ?_ ?_ ?_ ?_
            · rw [hnq]
              show (st.node q).parax / 8 * 8 + (st.node sib).parax % 8 = q2 * 8 + 7
              omega
            · rw [hnq]
              show 1 ≤ (st.node sib).right
              exact k2
            · rw [hnq, hidx]
              show Set.InjOn st.tlasIdx (Set.Ico (st.node sib).left
                ((st.node sib).left + (st.node sib).right))
              exact k3
            · intro _ j hj1 hj2
              rw [hnq] at hj1 hj2
              have hj1' : (st.node sib).left ≤ j := hj1
              have hj2' : j < (st.node sib).left + (st.node sib).right := hj2
              rw [hidx]
              have := hlfM (j - (st.node sib).left) (by omega)
              rw [show (st.node sib).left + (j - (st.node sib).left) = j from by omega]
                at this
              exact this
          have hql : (st'.node q).left = (st.node sib).left := by rw [hnq]
          have hqr2 : (st'.node q).right = (st.node sib).right := by rw [hnq]
          rw [hql, hqr2, hidx] at hT
          have himg : (Finset.Ico (st.node sib).left
              ((st.node sib).left + (st.node sib).right)).image st.tlasIdx =
              (Finset.Ico (st.node sib).left
                ((st.node sib).left + (st.node sib).right)).image st.tlasIdx := rfl
          have hSeq : ((insert q (({D} : Finset ℕ) ∪ {sib})).erase D).erase sib = {q} := by
            ext a
            simp only [Finset.mem_erase, Finset.mem_insert, Finset.mem_union,
              Finset.mem_singleton]
            omega
          have hfD : (st.node D).left ∈ Finset.Ico (st.node D).left
              ((st.node D).left + (st.node D).right) :=
            Finset.mem_Ico.mpr ⟨le_rfl, by omega⟩
          have hPeq : ((Finset.Ico (st.node D).left
              ((st.node D).left + (st.node D).right)) ∪
              (Finset.Ico (st.node sib).left
                ((st.node sib).left + (st.node sib).right))).erase (st.node D).left =
              Finset.Ico (st.node sib).left
                ((st.node sib).left + (st.node sib).right) := by
            rw [Finset.erase_union_distrib,
              Finset.erase_eq_of_not_mem
                (fun hc => (Finset.disjoint_left.mp d4 hfD) hc)]
            rw [hD_cnt, Nat.Ico_succ_singleton, Finset.erase_singleton,
              Finset.empty_union]
          have hvD : st.tlasIdx (st.node D).left ∈
              (Finset.Ico (st.node D).left
                ((st.node D).left + (st.node D).right)).image st.tlasIdx :=
            Finset.mem_image_of_mem _ hfD
          have hLeq : (((Finset.Ico (st.node D).left
              ((st.node D).left + (st.node D).right)).image st.tlasIdx) ∪
              ((Finset.Ico (st.node sib).left
                ((st.node sib).left + (st.node sib).right)).image st.tlasIdx)).erase
              (st.tlasIdx (st.node D).left) =
              (Finset.Ico (st.node sib).left
                ((st.node sib).left + (st.node sib).right)).image st.tlasIdx := by
            rw [Finset.erase_union_distrib,
              Finset.erase_eq_of_not_mem
                (fun hc => (Finset.disjoint_left.mp d5 hvD) hc)]
            rw [hD_cnt, Nat.Ico_succ_singleton, Finset.image_singleton,
              Finset.erase_singleton, Finset.empty_union]
          rw [hSeq, hPeq, hLeq]
          refine ⟨hT, Finset.mem_insert_of_mem (Finset.mem_union_left _ (Finset.mem_singleton_self _)),
            Finset.mem_insert_of_mem (Finset.mem_union_right _ (Finset.mem_singleton_self _)),
            Finset.mem_union_left _ hfD, Finset.mem_union_left _ hvD, ?_⟩
          · intro j hj
            refine Finset.mem_union_right _ (Finset.mem_image_of_mem _ ?_)
            exact Finset.mem_Ico.mpr ⟨by omega, by omega⟩
      · rw [hk1] at t2
        rw [hk2] at t1
        cases t2 with
        | node pp nn S1a S2a P1a P2a L1a L2a g1 g2 g3 g4 g5 g6 g7 g8 g9 =>
          omega
        | leaf pp nn g1 g2 g3 g4 =>
        cases t1 with
        | node pp2 nn2 S1b S2b P1b P2b L1b L2b k1 k2 k3 k4 k5 k6 k7 k8 k9 =>
          omega
        | leaf pp2 nn2 k1 k2 k3 k4 =>
          have hT : Tree true st' q2 q {q}
              (Finset.Ico (st'.node q).left ((st'.node q).left + (st'.node q).right))
              ((Finset.Ico (st'.node q).left
                ((st'.node q).left + (st'.node q).right)).image st'.tlasIdx) := by
            refine Tree.leaf q2 q ?_ ?_ ?_ ?_
            · rw [hnq]
              show (st.node q).parax / 8 * 8 + (st.node sib).parax % 8 = q2 * 8 + 7
              omega
            · rw [hnq]
              show 1 ≤ (st.node sib).right
              exact k2
            · rw [hnq, hidx]
              show Set.InjOn st.tlasIdx (Set.Ico (st.node sib).left
                ((st.node sib).left + (st.node sib).right))
              exact k3
            · intro _ j hj1 hj2
              rw [hnq] at hj1 hj2
              have hj1' : (st.node sib).left ≤ j := hj1
              have hj2' : j < (st.node sib).left + (st.node sib).right := hj2
              rw [hidx]
              have := hlfM (j - (st.node sib).left) (by omega)
              rw [show (st.node sib).left + (j - (st.node sib).left) = j from by omega]
                at this
              exact this
          have hql : (st'.node q).left = (st.node sib).left := by rw [hnq]
          have hqr2 : (st'.node q).right = (st.node sib).right := by rw [hnq]
          rw [hql, hqr2, hidx] at hT
          have hSeq : ((insert q (({sib} : Finset ℕ) ∪ {D})).erase D).erase sib = {q} := by
            ext a
            simp only [Finset.mem_erase, Finset.mem_insert, Finset.mem_union,
              Finset.mem_singleton]
            omega
          have hfD : (st.node D).left ∈ Finset.Ico (st.node D).left
              ((st.node D).left + (st.node D).right) :=
            Finset.mem_Ico.mpr ⟨le_rfl, by omega⟩
          have hPeq : ((Finset.Ico (st.node sib).left
              ((st.node sib).left + (st.node sib).right)) ∪
              (Finset.Ico (st.node D).left
                ((st.node D).left + (st.node D).right))).erase (st.node D).left =
              Finset.Ico (st.node sib).left
                ((st.node sib).left + (st.node sib).right) := by
            rw [Finset.erase_union_distrib,
              Finset.erase_eq_of_not_mem
                (fun hc => (Finset.disjoint_left.mp d4.symm hfD) hc)]
            rw [hD_cnt, Nat.Ico_succ_singleton, Finset.erase_singleton,
              Finset.union_empty]
          have hvD : st.tlasIdx (st.node D).left ∈
              (Finset.Ico (st.node D).left
                ((st.node D).left + (st.node D).right)).image st.tlasIdx :=
            Finset.mem_image_of_mem _ hfD
          have hLeq : ((((Finset.Ico (st.node sib).left
              ((st.node sib).left + (st.node sib).right)).image st.tlasIdx)) ∪
              ((Finset.Ico (st.node D).left
                ((st.node D).left + (st.node D).right)).image st.tlasIdx)).erase
              (st.tlasIdx (st.node D).left) =
              (Finset.Ico (st.node sib).left
                ((st.node sib).left + (st.node sib).right)).image st.tlasIdx := by
            rw [Finset.erase_union_distrib,
              Finset.erase_eq_of_not_mem
                (fun hc => (Finset.disjoint_left.mp d5.symm hvD) hc)]
            rw [hD_cnt, Nat.Ico_succ_singleton, Finset.image_singleton,
              Finset.erase_singleton, Finset.union_empty]
          rw [hSeq, hPeq, hLeq]
          refine ⟨hT, Finset.mem_insert_of_mem (Finset.mem_union_right _ (Finset.mem_singleton_self _)),
            Finset.mem_insert_of_mem (Finset.mem_union_left _ (Finset.mem_singleton_self _)),
            Finset.mem_union_right _ hfD, Finset.mem_union_right _ hvD, ?_⟩
          · intro j hj
            refine Finset.mem_union_left _ (Finset.mem_image_of_mem _ ?_)
            exact Finset.mem_Ico.mpr ⟨by omega, by omega⟩
    · have hqm : q ∈ S1 ∪ S2 := by
        rcases Finset.mem_insert.mp hqS with he | hh
        · exact absurd he hqr
        · exact hh
      have hrne_q : r ≠ q := fun he => hqr he.symm
      rcases Finset.mem_union.mp hqm with hq1 | hq2
      · obtain ⟨Tsub, hDS, hsibS, hfDP, hvLP, hsvals⟩ := ih1 hq1
        have hrne_s : r ≠ sib := fun he => d2 (he ▸ hsibS)
        have hrD : r ≠ D := fun he => d2 (he ▸ hDS)
        have hnr : st'.node r = st.node r := hrest r hrne_q hrne_s
        have hDnS2 : D ∉ S2 := fun hc => (Finset.disjoint_left.mp d1 hDS) hc
        have hsibnS2 : sib ∉ S2 := fun hc => (Finset.disjoint_left.mp d1 hsibS) hc
        have c2 : Tree true st' r (st.node r).right S2 P2 L2 := by
          refine Tree_congr t2 ?_ ?_ ?_
          · intro m hm
            have hm_q : m ≠ q := fun he => (Finset.disjoint_left.mp d1 hq1) (he ▸ hm)
            have hm_s : m ≠ sib := fun he => (Finset.disjoint_left.mp d1 hsibS) (he ▸ hm)
            rw [hrest m hm_q hm_s]
            exact ⟨rfl, rfl, rfl⟩
          · intro j hj
            rw [hidx]
          · intro j hj
            refine hlfF (st.tlasIdx j) ?_
            intro j2 hj2 hc
            have hv2 := hsvals j2 hj2
            have hvj : st.tlasIdx j ∈ L2 := Tree_pos_val_mem t2 j hj
            rw [hc] at hv2
            exact (Finset.disjoint_left.mp d5 hv2) hvj
        have hSrec : ((insert r (S1 ∪ S2)).erase D).erase sib =
            insert r (((S1.erase D).erase sib) ∪ S2) := by
          ext a
          simp only [Finset.mem_erase, Finset.mem_insert, Finset.mem_union]
          constructor
          · rintro ⟨has, haD, he | h1 | h2⟩
            · exact Or.inl he
            · exact Or.inr (Or.inl ⟨has, haD, h1⟩)
            · exact Or.inr (Or.inr h2)
          · rintro (he | ⟨has, haD, h1⟩ | h2)
            · exact ⟨fun hc => hrne_s (he ▸ hc : r = sib),
                fun hc => hrD (he ▸ hc : r = D), Or.inl he⟩
            · exact ⟨has, haD, Or.inr (Or.inl h1)⟩
            · exact ⟨fun hc => hsibnS2 (hc ▸ h2), fun hc => hDnS2 (hc ▸ h2),
                Or.inr (Or.inr h2)⟩
        have hPrec : (P1.erase (st.node D).left) ∪ P2 =
            (P1 ∪ P2).erase (st.node D).left := by
          rw [Finset.erase_union_distrib,
            Finset.erase_eq_of_not_mem (fun hc => (Finset.disjoint_left.mp d4 hfDP) hc)]
        have hLrec : (L1.erase (st.tlasIdx (st.node D).left)) ∪ L2 =
            (L1 ∪ L2).erase (st.tlasIdx (st.node D).left) := by
          rw [Finset.erase_union_distrib,
            Finset.erase_eq_of_not_mem (fun hc => (Finset.disjoint_left.mp d5 hvLP) hc)]
        have hT := Tree.node q2 r ((S1.erase D).erase sib) S2
          (P1.erase (st.node D).left) P2 (L1.erase (st.tlasIdx (st.node D).left)) L2
          (by rw [hnr]; exact h1) (by rw [hnr]; exact h2)
          (by rw [hnr]; exact Tsub) (by rw [hnr]; exact c2)
          (Finset.disjoint_of_subset_left
            ((Finset.erase_subset _ _).trans (Finset.erase_subset _ _)) d1)
          (fun hc => d2 (Finset.erase_subset _ _ (Finset.erase_subset _ _ hc)))
          d3
          (Finset.disjoint_of_subset_left (Finset.erase_subset _ _) d4)
          (Finset.disjoint_of_subset_left (Finset.erase_subset _ _) d5)
        rw [hPrec, hLrec, ← hSrec] at hT
        exact ⟨hT, Finset.mem_insert_of_mem (Finset.mem_union_left _ hDS),
          Finset.mem_insert_of_mem (Finset.mem_union_left _ hsibS),
          Finset.mem_union_left _ hfDP, Finset.mem_union_left _ hvLP,
          fun j hj => Finset.mem_union_left _ (hsvals j hj)⟩
      · obtain ⟨Tsub, hDS, hsibS, hfDP, hvLP, hsvals⟩ := ih2 hq2
        have hrne_s : r ≠ sib := fun he => d3 (he ▸ hsibS)
        have hrD : r ≠ D := fun he => d3 (he ▸ hDS)
        have hnr : st'.node r = st.node r := hrest r hrne_q hrne_s
        have hDnS1 : D ∉ S1 := fun hc => (Finset.disjoint_left.mp d1 hc) hDS
        have hsibnS1 : sib ∉ S1 := fun hc => (Finset.disjoint_left.mp d1 hc) hsibS
        have c1 : Tree true st' r (st.node r).left S1 P1 L1 := by
          refine Tree_congr t1 ?_ ?_ ?_
          · intro m hm
            have hm_q : m ≠ q := fun he => (Finset.disjoint_left.mp d1 (he ▸ hm)) hq2
            have hm_s : m ≠ sib := fun he => (Finset.disjoint_left.mp d1 (he ▸ hm)) hsibS
            rw [hrest m hm_q hm_s]
            exact ⟨rfl, rfl, rfl⟩
          · intro j hj
            rw [hidx]
          · intro j hj
            refine hlfF (st.tlasIdx j) ?_
            intro j2 hj2 hc
            have hv2 := hsvals j2 hj2
            have hvj : st.tlasIdx j ∈ L1 := Tree_pos_val_mem t1 j hj
            rw [hc] at hv2
            exact (Finset.disjoint_left.mp d5 hvj) hv2
        have hSrec : ((insert r (S1 ∪ S2)).erase D).erase sib =
            insert r (S1 ∪ ((S2.erase D).erase sib)) := by
          ext a
          simp only [Finset.mem_erase, Finset.mem_insert, Finset.mem_union]
          constructor
          · rintro ⟨has, haD, he | h1 | h2⟩
            · exact Or.inl he
            · exact Or.inr (Or.inl h1)
            · exact Or.inr (Or.inr ⟨has, haD, h2⟩)
          · rintro (he | h1 | ⟨has, haD, h2⟩)
            · exact ⟨fun hc => hrne_s (he ▸ hc : r = sib),
                fun hc => hrD (he ▸ hc : r = D), Or.inl he⟩
            · exact ⟨fun hc => hsibnS1 (hc ▸ h1), fun hc => hDnS1 (hc ▸ h1),
                Or.inr (Or.inl h1)⟩
            · exact ⟨has, haD, Or.inr (Or.inr h2)⟩
        have hPrec : P1 ∪ (P2.erase (st.node D).left) =
            (P1 ∪ P2).erase (st.node D).left := by
          rw [Finset.erase_union_distrib,
            Finset.erase_eq_of_not_mem
              (fun hc => (Finset.disjoint_left.mp d4 hc) hfDP)]
        have hLrec : L1 ∪ (L2.erase (st.tlasIdx (st.node D).left)) =
            (L1 ∪ L2).erase (st.tlasIdx (st.node D).left) := by
          rw [Finset.erase_union_distrib,
            Finset.erase_eq_of_not_mem
              (fun hc => (Finset.disjoint_left.mp d5 hc) hvLP)]
        have hT := Tree.node q2 r S1 ((S2.erase D).erase sib)
          P1 (P2.erase (st.node D).left) L1 (L2.erase (st.tlasIdx (st.node D).left))
          (by rw [hnr]; exact h1) (by rw [hnr]; exact h2)
          (by rw [hnr]; exact c1) (by rw [hnr]; exact Tsub)
          (Finset.disjoint_of_subset_right
            ((Finset.erase_subset _ _).trans (Finset.erase_subset _ _)) d1)
          d2
          (fun hc => d3 (Finset.erase_subset _ _ (Finset.erase_subset _ _ hc)))
          (Finset.disjoint_of_subset_right (Finset.erase_subset _ _) d4)
          (Finset.disjoint_of_subset_right (Finset.erase_subset _ _) d5)
        rw [hPrec, hLrec, ← hSrec] at hT
        exact ⟨hT, Finset.mem_insert_of_mem (Finset.mem_union_right _ hDS),
          Finset.mem_insert_of_mem (Finset.mem_union_right _ hsibS),
          Finset.mem_union_right _ hfDP, Finset.mem_union_right _ hvLP,
          fun j hj => Finset.mem_union_right _ (hsvals j hj)⟩

theorem Tree_removeB_intcase {st st' : KD} {D q sib : ℕ}
    (hD_par : (st.node D).parax = q * 8 + 7)
    (hD_cnt : (st.node D).right = 1)
    (hDq : D ≠ q) (hsq : sib ≠ q) (hsD : sib ≠ D)
    (hq_int : (st.node q).parax % 8 ≤ 2)
    (hqkids : (st.node q).left = D ∧ (st.node q).right = sib ∨
      (st.node q).right = D ∧ (st.node q).left = sib)
    (hsib_int : (st.node sib).parax % 8 ≤ 2)
    (hnq : st'.node q = { st.node sib with
      parax := (st.node q).parax / 8 * 8 + (st.node sib).parax % 8 })
    (hnc1 : st'.node (st.node sib).left = { st.node (st.node sib).left with
      parax := q * 8 + (st.node (st.node sib).left).parax % 8 })
    (hnc2 : st'.node (st.node sib).right = { st.node (st.node sib).right with
      parax := q * 8 + (st.node (st.node sib).right).parax % 8 })
    (hrest : ∀ m, m ≠ q → m ≠ sib → m ≠ (st.node sib).left → m ≠ (st.node sib).right →
      st'.node m = st.node m)
    (hidx : st'.tlasIdx = st.tlasIdx)
    (hlf : st'.leaf = st.leaf) :
    ∀ {p n : ℕ} {S P L : Finset ℕ}, Tree true st p n S P L → q ∈ S →
      Tree true st' p n ((S.erase D).erase sib) (P.erase (st.node D).left)
        (L.erase (st.tlasIdx (st.node D).left)) ∧
      D ∈ S ∧ sib ∈ S ∧ (st.node sib).left ∈ S ∧ (st.node sib).right ∈ S ∧
      (st.node D).left ∈ P ∧ st.tlasIdx (st.node D).left ∈ L := by
  intro p n S P L h
  induction h with
  | leaf q2 r h1 h2 h3 h4 =>
    intro hqS
    rw [Finset.mem_singleton] at hqS
    rw [← hqS] at h1
    omega
  | node q2 r S1 S2 P1 P2 L1 L2 h1 h2 t1 t2 d1 d2 d3 d4 d5 ih1 ih2 =>
    intro hqS
    by_cases hqr : q = r
    · rw [← hqr] at h1 h2 t1 t2 d2 d3 ⊢
      have hql : (st'.node q).left = (st.node sib).left := by rw [hnq]
      have hqrr : (st'.node q).right = (st.node sib).right := by rw [hnq]
      rcases hqkids with ⟨hk1, hk2⟩ | ⟨hk1, hk2⟩
      · rw [hk1] at t1
        rw [hk2] at t2
        cases t1 with
        | node pp nn S1a S2a P1a P2a L1a L2a g1 g2 g3 g4 g5 g6 g7 g8 g9 =>
          omega
        | leaf pp nn g1 g2 g3 g4 =>
        cases t2 with
        | leaf pp2 nn2 k1 k2 k3 k4 =>
          omega
        | node pp2 nn2 S1b S2b P1b P2b L1b L2b k1 k2 k3 k4 k5 k6 k7 k8 k9 =>
          have hqn1 : q ∉ S1b := fun hc =>
            d3 (Finset.mem_insert_of_mem (Finset.mem_union_left _ hc))
          have hqn2 : q ∉ S2b := fun hc =>
            d3 (Finset.mem_insert_of_mem (Finset.mem_union_right _ hc))
          have hc1m : (st.node sib).left ∈ S1b := Tree_root_mem k3
          have hc2m : (st.node sib).right ∈ S2b := Tree_root_mem k4
          have rc1 : Tree true st' q (st.node sib).left S1b P1b L1b := by
            refine Tree_reparent k3 ⟨by rw [hnc1], by rw [hnc1], by rw [hnc1]⟩ ?_ ?_ ?_
            · intro m hm hmc1
              have hmq : m ≠ q := fun he => hqn1 (he ▸ hm)
              have hms : m ≠ sib := fun he => k6 (he ▸ hm)
              have hmc2 : m ≠ (st.node sib).right := fun he =>
                (Finset.disjoint_left.mp k5 hm) (he ▸ hc2m)
              rw [hrest m hmq hms hmc1 hmc2]
              exact ⟨rfl, rfl, rfl⟩
            · intro j hj
              rw [hidx]
            · intro j hj
              rw [hlf]
          have rc2 : Tree true st' q (st.node sib).right S2b P2b L2b := by
            refine Tree_reparent k4 ⟨by rw [hnc2], by rw [hnc2], by rw [hnc2]⟩ ?_ ?_ ?_
            · intro m hm hmc2
              have hmq : m ≠ q := fun he => hqn2 (he ▸ hm)
              have hms : m ≠ sib := fun he => k7 (he ▸ hm)
              have hmc1 : m ≠ (st.node sib).left := fun he =>
                (Finset.disjoint_left.mp k5 (he ▸ hc1m)) hm
              rw [hrest m hmq hms hmc1 hmc2]
              exact ⟨rfl, rfl, rfl⟩
            · intro j hj
              rw [hidx]
            · intro j hj
              rw [hlf]
          have hT : Tree true st' q2 q (insert q (S1b ∪ S2b)) (P1b ∪ P2b)
              (L1b ∪ L2b) := by
            refine Tree.node q2 q S1b S2b P1b P2b L1b L2b ?_ ?_ ?_ ?_ k5 hqn1 hqn2 k8 k9
            · rw [hnq]
              show ((st.node q).parax / 8 * 8 + (st.node sib).parax % 8) % 8 ≤ 2
              omega
            · rw [hnq]
              show ((st.node q).parax / 8 * 8 + (st.node sib).parax % 8) / 8 = q2
              omega
            · rw [hql]
              exact rc1
            · rw [hqrr]
              exact rc2
          have hDnot : D ∉ S1b ∪ S2b := fun hc =>
            (Finset.disjoint_left.mp d1 (Finset.mem_singleton_self D))
              (Finset.mem_insert_of_mem hc)
          have hSeq : ((insert q (({D} : Finset ℕ) ∪
              insert sib (S1b ∪ S2b))).erase D).erase sib = insert q (S1b ∪ S2b) := by
            ext a
            simp only [Finset.mem_erase, Finset.mem_insert, Finset.mem_union,
              Finset.mem_singleton]
            constructor
            · rintro ⟨has, haD, he | hD2 | hs2 | h1b | h2b⟩
              · exact Or.inl he
              · exact absurd hD2 haD
              · exact absurd hs2 has
              · exact Or.inr (Or.inl h1b)
              · exact Or.inr (Or.inr h2b)
            · rintro (he | h1b | h2b)
              · exact ⟨fun hc => hsq ((he ▸ hc : q = sib)).symm,
                  fun hc => hDq ((he ▸ hc : q = D)).symm, Or.inl he⟩
              · exact ⟨fun hc => k6 (hc ▸ h1b),
                  fun hc => hDnot (Finset.mem_union_left _ (hc ▸ h1b)),
                  Or.inr (Or.inr (Or.inr (Or.inl h1b)))⟩
              · exact ⟨fun hc => k7 (hc ▸ h2b),
                  fun hc => hDnot (Finset.mem_union_right _ (hc ▸ h2b)),
                  Or.inr (Or.inr (Or.inr (Or.inr h2b)))⟩
          have hfD : (st.node D).left ∈ Finset.Ico (st.node D).left
              ((st.node D).left + (st.node D).right) :=
            Finset.mem_Ico.mpr ⟨le_rfl, by omega⟩
          have hvD : st.tlasIdx (st.node D).left ∈
              (Finset.Ico (st.node D).left
                ((st.node D).left + (st.node D).right)).image st.tlasIdx :=
            Finset.mem_image_of_mem _ hfD
          have hPeq : ((Finset.Ico (st.node D).left
              ((st.node D).left + (st.node D).right)) ∪
              (P1b ∪ P2b)).erase (st.node D).left = P1b ∪ P2b := by
            rw [Finset.erase_union_distrib,
              Finset.erase_eq_of_not_mem
                (fun hc => (Finset.disjoint_left.mp d4 hfD) hc)]
            rw [hD_cnt, Nat.Ico_succ_singleton, Finset.erase_singleton,
              Finset.empty_union]
          have hLeq : (((Finset.Ico (st.node D).left
              ((st.node D).left + (st.node D).right)).image st.tlasIdx) ∪
              (L1b ∪ L2b)).erase (st.tlasIdx (st.node D).left) = L1b ∪ L2b := by
            rw [Finset.erase_union_distrib,
              Finset.erase_eq_of_not_mem
                (fun hc => (Finset.disjoint_left.mp d5 hvD) hc)]
            rw [hD_cnt, Nat.Ico_succ_singleton, Finset.image_singleton,
              Finset.erase_singleton, Finset.empty_union]
          rw [hSeq, hPeq, hLeq]
          refine ⟨hT,
            Finset.mem_insert_of_mem (Finset.mem_union_left _
              (Finset.mem_singleton_self _)),
            Finset.mem_insert_of_mem (Finset.mem_union_right _
              (Finset.mem_insert_self _ _)),
            Finset.mem_insert_of_mem (Finset.mem_union_right _
              (Finset.mem_insert_of_mem (Finset.mem_union_left _ hc1m))),
            Finset.mem_insert_of_mem (Finset.mem_union_right _
              (Finset.mem_insert_of_mem (Finset.mem_union_right _ hc2m))),
            Finset.mem_union_left _ hfD, Finset.mem_union_left _ hvD⟩
      · rw [hk1] at t2
        rw [hk2] at t1
        cases t2 with
        | node pp nn S1a S2a P1a P2a L1a L2a g1 g2 g3 g4 g5 g6 g7 g8 g9 =>
          omega
        | leaf pp nn g1 g2 g3 g4 =>
        cases t1 with
        | leaf pp2 nn2 k1 k2 k3 k4 =>
          omega
        | node pp2 nn2 S1b S2b P1b P2b L1b L2b k1 k2 k3 k4 k5 k6 k7 k8 k9 =>
          have hqn1 : q ∉ S1b := fun hc =>
            d2 (Finset.mem_insert_of_mem (Finset.mem_union_left _ hc))
          have hqn2 : q ∉ S2b := fun hc =>
            d2 (Finset.mem_insert_of_mem (Finset.mem_union_right _ hc))
          have hc1m : (st.node sib).left ∈ S1b := Tree_root_mem k3
          have hc2m : (st.node sib).right ∈ S2b := Tree_root_mem k4
          have rc1 : Tree true st' q (st.node sib).left S1b P1b L1b := by
            refine Tree_reparent k3 ⟨by rw [hnc1], by rw [hnc1], by rw [hnc1]⟩ ?_ ?_ ?_
            · intro m hm hmc1
              have hmq : m ≠ q := fun he => hqn1 (he ▸ hm)
              have hms : m ≠ sib := fun he => k6 (he ▸ hm)
              have hmc2 : m ≠ (st.node sib).right := fun he =>
                (Finset.disjoint_left.mp k5 hm) (he ▸ hc2m)
              rw [hrest m hmq hms hmc1 hmc2]
              exact ⟨rfl, rfl, rfl⟩
            · intro j hj
              rw [hidx]
            · intro j hj
              rw [hlf]
          have rc2 : Tree true st' q (st.node sib).right S2b P2b L2b := by
            refine Tree_reparent k4 ⟨by rw [hnc2], by rw [hnc2], by rw [hnc2]⟩ ?_ ?_ ?_
            · intro m hm hmc2
              have hmq : m ≠ q := fun he => hqn2 (he ▸ hm)
              have hms : m ≠ sib := fun he => k7 (he ▸ hm)
              have hmc1 : m ≠ (st.node sib).left := fun he =>
                (Finset.disjoint_left.mp k5 (he ▸ hc1m)) hm
              rw [hrest m hmq hms hmc1 hmc2]
              exact ⟨rfl, rfl, rfl⟩
            · intro j hj
              rw [hidx]
            · intro j hj
              rw [hlf]
          have hT : Tree true st' q2 q (insert q (S1b ∪ S2b)) (P1b ∪ P2b)
              (L1b ∪ L2b) := by
            refine Tree.node q2 q S1b S2b P1b P2b L1b L2b ?_ ?_ ?_ ?_ k5 hqn1 hqn2 k8 k9
            · rw [hnq]
              show ((st.node q).parax / 8 * 8 + (st.node sib).parax % 8) % 8 ≤ 2
              omega
            · rw [hnq]
              show ((st.node q).parax / 8 * 8 + (st.node sib).parax % 8) / 8 = q2
              omega
            · rw [hql]
              exact rc1
            · rw [hqrr]
              exact rc2
          have hDnot : D ∉ S1b ∪ S2b := fun hc =>
            (Finset.disjoint_right.mp d1 (Finset.mem_singleton_self D))
              (Finset.mem_insert_of_mem hc)
          have hSeq : ((insert q ((insert sib (S1b ∪ S2b)) ∪
              ({D} : Finset ℕ))).erase D).erase sib = insert q (S1b ∪ S2b) := by
            ext a
            simp only [Finset.mem_erase, Finset.mem_insert, Finset.mem_union,
              Finset.mem_singleton]
            constructor
            · rintro ⟨has, haD, he | (hs2 | h1b | h2b) | hD2⟩
              · exact Or.inl he
              · exact absurd hs2 has
              · exact Or.inr (Or.inl h1b)
              · exact Or.inr (Or.inr h2b)
              · exact absurd hD2 haD
            · rintro (he | h1b | h2b)
              · exact ⟨fun hc => hsq ((he ▸ hc : q = sib)).symm,
                  fun hc => hDq ((he ▸ hc : q = D)).symm, Or.inl he⟩
              · exact ⟨fun hc => k6 (hc ▸ h1b),
                  fun hc => hDnot (Finset.mem_union_left _ (hc ▸ h1b)),
                  Or.inr (Or.inl (Or.inr (Or.inl h1b)))⟩
              · exact ⟨fun hc => k7 (hc ▸ h2b),
                  fun hc => hDnot (Finset.mem_union_right _ (hc ▸ h2b)),
                  Or.inr (Or.inl (Or.inr (Or.inr h2b)))⟩
          have hfD : (st.node D).left ∈ Finset.Ico (st.node D).left
              ((st.node D).left + (st.node D).right) :=
            Finset.mem_Ico.mpr ⟨le_rfl, by omega⟩
          have hvD : st.tlasIdx (st.node D).left ∈
              (Finset.Ico (st.node D).left
                ((st.node D).left + (st.node D).right)).image st.tlasIdx :=
            Finset.mem_image_of_mem _ hfD
          have hPeq : ((P1b ∪ P2b) ∪
              (Finset.Ico (st.node D).left
                ((st.node D).left + (st.node D).right))).erase (st.node D).left =
              P1b ∪ P2b := by
            rw [Finset.erase_union_distrib,
              Finset.erase_eq_of_not_mem
                (fun hc => (Finset.disjoint_left.mp d4.symm hfD) hc)]
            rw [hD_cnt, Nat.Ico_succ_singleton, Finset.erase_singleton,
              Finset.union_empty]
          have hLeq : ((L1b ∪ L2b) ∪
              ((Finset.Ico (st.node D).left
                ((st.node D).left + (st.node D).right)).image st.tlasIdx)).erase
              (st.tlasIdx (st.node D).left) = L1b ∪ L2b := by
            rw [Finset.erase_union_distrib,
              Finset.erase_eq_of_not_mem
                (fun hc => (Finset.disjoint_left.mp d5.symm hvD) hc)]
            rw [hD_cnt, Nat.Ico_succ_singleton, Finset.image_singleton,
              Finset.erase_singleton, Finset.union_empty]
          rw [hSeq, hPeq, hLeq]
          refine ⟨hT,
            Finset.mem_insert_of_mem (Finset.mem_union_right _
              (Finset.mem_singleton_self _)),
            Finset.mem_insert_of_mem (Finset.mem_union_left _
              (Finset.mem_insert_self _ _)),
            Finset.mem_insert_of_mem (Finset.mem_union_left _
              (Finset.mem_insert_of_mem (Finset.mem_union_left _ hc1m))),
            Finset.mem_insert_of_mem (Finset.mem_union_left _
              (Finset.mem_insert_of_mem (Finset.mem_union_right _ hc2m))),
            Finset.mem_union_right _ hfD, Finset.mem_union_right _ hvD⟩
    · have hqm : q ∈ S1 ∪ S2 := by
        rcases Finset.mem_insert.mp hqS with he | hh
        · exact absurd he hqr
        · exact hh
      have hrne_q : r ≠ q := fun he => hqr he.symm
      rcases Finset.mem_union.mp hqm with hq1 | hq2
      · obtain ⟨Tsub, hDS, hsibS, hc1S, hc2S, hfDP, hvLP⟩ := ih1 hq1
        have hrne_s : r ≠ sib := fun he => d2 (he ▸ hsibS)
        have hrD : r ≠ D := fun he => d2 (he ▸ hDS)
        have hrc1 : r ≠ (st.node sib).left := fun he => d2 (he ▸ hc1S)
        have hrc2 : r ≠ (st.node sib).right := fun he => d2 (he ▸ hc2S)
        have hnr : st'.node r = st.node r := hrest r hrne_q hrne_s hrc1 hrc2
        have hDnS2 : D ∉ S2 := fun hc => (Finset.disjoint_left.mp d1 hDS) hc
        have hsibnS2 : sib ∉ S2 := fun hc => (Finset.disjoint_left.mp d1 hsibS) hc
        have c2 : Tree true st' r (st.node r).right S2 P2 L2 := by
          refine Tree_congr t2 ?_ ?_ ?_
          · intro m hm
            have hm_q : m ≠ q := fun he => (Finset.disjoint_left.mp d1 hq1) (he ▸ hm)
            have hm_s : m ≠ sib := fun he => (Finset.disjoint_left.mp d1 hsibS) (he ▸ hm)
            have hm_c1 : m ≠ (st.node sib).left := fun he =>
              (Finset.disjoint_left.mp d1 hc1S) (he ▸ hm)
            have hm_c2 : m ≠ (st.node sib).right := fun he =>
              (Finset.disjoint_left.mp d1 hc2S) (he ▸ hm)
            rw [hrest m hm_q hm_s hm_c1 hm_c2]
            exact ⟨rfl, rfl, rfl⟩
          · intro j hj
            rw [hidx]
          · intro j hj
            rw [hlf]
        have hSrec : ((insert r (S1 ∪ S2)).erase D).erase sib =
            insert r (((S1.erase D).erase sib) ∪ S2) := by
          ext a
          simp only [Finset.mem_erase, Finset.mem_insert, Finset.mem_union]
          constructor
          · rintro ⟨has, haD, he | h1 | h2⟩
            · exact Or.inl he
            · exact Or.inr (Or.inl ⟨has, haD, h1⟩)
            · exact Or.inr (Or.inr h2)
          · rintro (he | ⟨has, haD, h1⟩ | h2)
            · exact ⟨fun hc => hrne_s (he ▸ hc : r = sib),
                fun hc => hrD (he ▸ hc : r = D), Or.inl he⟩
            · exact ⟨has, haD, Or.inr (Or.inl h1)⟩
            · exact ⟨fun hc => hsibnS2 (hc ▸ h2), fun hc => hDnS2 (hc ▸ h2),
                Or.inr (Or.inr h2)⟩
        have hPrec : (P1.erase (st.node D).left) ∪ P2 =
            (P1 ∪ P2).erase (st.node D).left := by
          rw [Finset.erase_union_distrib,
            Finset.erase_eq_of_not_mem (fun hc => (Finset.disjoint_left.mp d4 hfDP) hc)]
        have hLrec : (L1.erase (st.tlasIdx (st.node D).left)) ∪ L2 =
            (L1 ∪ L2).erase (st.tlasIdx (st.node D).left) := by
          rw [Finset.erase_union_distrib,
            Finset.erase_eq_of_not_mem (fun hc => (Finset.disjoint_left.mp d5 hvLP) hc)]
        have hT := Tree.node q2 r ((S1.erase D).erase sib) S2
          (P1.erase (st.node D).left) P2 (L1.erase (st.tlasIdx (st.node D).left)) L2
          (by rw [hnr]; exact h1) (by rw [hnr]; exact h2)
          (by rw [hnr]; exact Tsub) (by rw [hnr]; exact c2)
          (Finset.disjoint_of_subset_left
            ((Finset.erase_subset _ _).trans (Finset.erase_subset _ _)) d1)
          (fun hc => d2 (Finset.erase_subset _ _ (Finset.erase_subset _ _ hc)))
          d3
          (Finset.disjoint_of_subset_left (Finset.erase_subset _ _) d4)
          (Finset.disjoint_of_subset_left (Finset.erase_subset _ _) d5)
        rw [hPrec, hLrec, ← hSrec] at hT
        exact ⟨hT, Finset.mem_insert_of_mem (Finset.mem_union_left _ hDS),
          Finset.mem_insert_of_mem (Finset.mem_union_left _ hsibS),
          Finset.mem_insert_of_mem (Finset.mem_union_left _ hc1S),
          Finset.mem_insert_of_mem (Finset.mem_union_left _ hc2S),
          Finset.mem_union_left _ hfDP, Finset.mem_union_left _ hvLP⟩
      · obtain ⟨Tsub, hDS, hsibS, hc1S, hc2S, hfDP, hvLP⟩ := ih2 hq2
        have hrne_s : r ≠ sib := fun he => d3 (he ▸ hsibS)
        have hrD : r ≠ D := fun he => d3 (he ▸ hDS)
        have hrc1 : r ≠ (st.node sib).left := fun he => d3 (he ▸ hc1S)
        have hrc2 : r ≠ (st.node sib).right := fun he => d3 (he ▸ hc2S)
        have hnr : st'.node r = st.node r := hrest r hrne_q hrne_s hrc1 hrc2
        have hDnS1 : D ∉ S1 := fun hc => (Finset.disjoint_left.mp d1 hc) hDS
        have hsibnS1 : sib ∉ S1 := fun hc => (Finset.disjoint_left.mp d1 hc) hsibS
        have c1 : Tree true st' r (st.node r).left S1 P1 L1 := by
          refine Tree_congr t1 ?_ ?_ ?_
          · intro m hm
            have hm_q : m ≠ q := fun he => (Finset.disjoint_left.mp d1 (he ▸ hm)) hq2
            have hm_s : m ≠ sib := fun he => (Finset.disjoint_left.mp d1 (he ▸ hm)) hsibS
            have hm_c1 : m ≠ (st.node sib).left := fun he =>
              (Finset.disjoint_left.mp d1 (he ▸ hm)) hc1S
            have hm_c2 : m ≠ (st.node sib).right := fun he =>
              (Finset.disjoint_left.mp d1 (he ▸ hm)) hc2S
            rw [hrest m hm_q hm_s hm_c1 hm_c2]
            exact ⟨rfl, rfl, rfl⟩
          · intro j hj
            rw [hidx]
          · intro j hj
            rw [hlf]
        have hSrec : ((insert r (S1 ∪ S2)).erase D).erase sib =
            insert r (S1 ∪ ((S2.erase D).erase sib)) := by
          ext a
          simp only [Finset.mem_erase, Finset.mem_insert, Finset.mem_union]
          constructor
          · rintro ⟨has, haD, he | h1 | h2⟩
            · exact Or.inl he
            · exact Or.inr (Or.inl h1)
            · exact Or.inr (Or.inr ⟨has, haD, h2⟩)
          · rintro (he | h1 | ⟨has, haD, h2⟩)
            · exact ⟨fun hc => hrne_s (he ▸ hc : r = sib),
                fun hc => hrD (he ▸ hc : r = D), Or.inl he⟩
            · exact ⟨fun hc => hsibnS1 (hc ▸ h1), fun hc => hDnS1 (hc ▸ h1),
                Or.inr (Or.inl h1)⟩
            · exact ⟨has, haD, Or.inr (Or.inr h2)⟩
        have hPrec : P1 ∪ (P2.erase (st.node D).left) =
            (P1 ∪ P2).erase (st.node D).left := by
          rw [Finset.erase_union_distrib,
            Finset.erase_eq_of_not_mem
              (fun hc => (Finset.disjoint_left.mp d4 hc) hfDP)]
        have hLrec : L1 ∪ (L2.erase (st.tlasIdx (st.node D).left)) =
            (L1 ∪ L2).erase (st.tlasIdx (st.node D).left) := by
          rw [Finset.erase_union_distrib,
            Finset.erase_eq_of_not_mem
              (fun hc => (Finset.disjoint_left.mp d5 hc) hvLP)]
        have hT := Tree.node q2 r S1 ((S2.erase D).erase sib)
          P1 (P2.erase (st.node D).left) L1 (L2.erase (st.tlasIdx (st.node D).left))
          (by rw [hnr]; exact h1) (by rw [hnr]; exact h2)
          (by rw [hnr]; exact c1) (by rw [hnr]; exact Tsub)
          (Finset.disjoint_of_subset_right
            ((Finset.erase_subset _ _).trans (Finset.erase_subset _ _)) d1)
          d2
          (fun hc => d3 (Finset.erase_subset _ _ (Finset.erase_subset _ _ hc)))
          (Finset.disjoint_of_subset_right (Finset.erase_subset _ _) d4)
          (Finset.disjoint_of_subset_right (Finset.erase_subset _ _) d5)
        rw [hPrec, hLrec, ← hSrec] at hT
        exact ⟨hT, Finset.mem_insert_of_mem (Finset.mem_union_right _ hDS),
          Finset.mem_insert_of_mem (Finset.mem_union_right _ hsibS),
          Finset.mem_insert_of_mem (Finset.mem_union_right _ hc1S),
          Finset.mem_insert_of_mem (Finset.mem_union_right _ hc2S),
          Finset.mem_union_right _ hfDP, Finset.mem_union_right _ hvLP⟩

theorem Tree_subtree {u : Bool} {st : KD} {p n : ℕ} {S P L : Finset ℕ}
    (h : Tree u st p n S P L) :
    ∀ m ∈ S, ∃ pm Sm Pm Lm, Tree u st pm m Sm Pm Lm ∧ Sm ⊆ S := by
  induction h with
  | leaf q r h1 h2 h3 h4 =>
    intro m hm
    rw [Finset.mem_singleton] at hm
    subst hm
    exact ⟨q, _, _, _, Tree.leaf q m h1 h2 h3 h4, Finset.Subset.refl _⟩
  | node q r S1 S2 P1 P2 L1 L2 h1 h2 t1 t2 d1 d2 d3 d4 d5 ih1 ih2 =>
    intro m hm
    rcases Finset.mem_insert.mp hm with he | hm2
    · subst he
      exact ⟨q, _, _, _, Tree.node q m S1 S2 P1 P2 L1 L2 h1 h2 t1 t2 d1 d2 d3 d4 d5,
        Finset.Subset.refl _⟩
    · rcases Finset.mem_union.mp hm2 with hh | hh
      · obtain ⟨pm, Sm, Pm, Lm, hT, hsub⟩ := ih1 m hh
        exact ⟨pm, Sm, Pm, Lm, hT, hsub.trans
          (fun x hx => Finset.mem_insert_of_mem (Finset.mem_union_left _ hx))⟩
      · obtain ⟨pm, Sm, Pm, Lm, hT, hsub⟩ := ih2 m hh
        exact ⟨pm, Sm, Pm, Lm, hT, hsub.trans
          (fun x hx => Finset.mem_insert_of_mem (Finset.mem_union_right _ hx))⟩

theorem inv_remove (st : KD) (live : Finset ℕ) (cA : Bool) (idx : ℕ)
    (hI : Inv st live cA) (hidx : idx ∈ live) (hcard : 2 ≤ live.card) :
    Inv (removeLeafOp st idx) (live.erase idx) true := by
  obtain ⟨S, P, h, hSb, hPb, _⟩ := hI
  obtain ⟨hD_mem, hD7, t, ht1, ht2, htv⟩ := Tree_lookup h idx hidx
  obtain ⟨hinj, hge1⟩ := Tree_leaf_injOn h (st.leaf idx) hD_mem hD7
  by_cases hbig : 1 < (st.node (st.leaf idx)).right
  · have huniq : ∀ u, (st.node (st.leaf idx)).left ≤ u →
        u < (st.node (st.leaf idx)).left + (st.node (st.leaf idx)).right →
        st.tlasIdx u = idx → u = t := by
      intro u hu1 hu2 hu3
      exact hinj (Set.mem_Ico.mpr ⟨hu1, hu2⟩) (Set.mem_Ico.mpr ⟨ht1, ht2⟩)
        (by rw [hu3, htv])
    obtain ⟨sidx, snd, srest, slf, snp, stc, sf0, sf1⟩ :=
      removeLeafOpA_spec st idx t hbig ht1 ht2 htv huniq
    have hT := Tree_shrink_leaf hD7 ht1 ht2 (by omega) sidx snd srest slf h hD_mem
    rw [htv] at hT
    refine ⟨S, P.erase ((st.node (st.leaf idx)).left +
      (st.node (st.leaf idx)).right - 1), hT, ?_, ?_, ?_⟩
    · intro m hm
      rw [snp]
      have := hSb m hm
      omega
    · intro j hj
      rw [stc]
      exact hPb j (Finset.erase_subset _ _ hj)
    · intro _
      refine ⟨?_, ?_, ?_, ?_, ?_⟩
      · rw [sf0]
        intro hc
        have := hSb _ hc
        omega
      · rw [sf1]
        intro hc
        have := hSb _ hc
        omega
      · rw [sf0, sf1]
        omega
      · rw [sf0, snp]
        omega
      · rw [sf1, snp]
        omega
  · have hr1 : (st.node (st.leaf idx)).right = 1 := by omega
    have hteq : t = (st.node (st.leaf idx)).left := by omega
    have hvfd : st.tlasIdx (st.node (st.leaf idx)).left = idx := by
      rw [← hteq]
      exact htv
    have hD0 : st.leaf idx ≠ 0 := by
      intro he
      cases h with
      | leaf q2 r h1 h2 h3 h4 =>
        rw [he] at hr1
        have h5 : ((Finset.Ico (st.node 0).left
            ((st.node 0).left + (st.node 0).right)).image st.tlasIdx).card ≤
            (Finset.Ico (st.node 0).left
              ((st.node 0).left + (st.node 0).right)).card := Finset.card_image_le
        rw [Nat.card_Ico] at h5
        omega
      | node q2 r S1 S2 P1 P2 L1 L2 h1 h2 t1 t2 d1 d2 d3 d4 d5 =>
        rw [he] at hD7
        omega
    obtain ⟨hq_mem, hq_int, hlink⟩ := Tree_parent_interior h (st.leaf idx) hD_mem hD0
    set Q := (st.node (st.leaf idx)).parax / 8 with hQdef
    set B := if (st.node Q).left = st.leaf idx then (st.node Q).right
      else (st.node Q).left with hBdef
    obtain ⟨hlm, hrm, hlr⟩ := Tree_children_mem h Q hq_mem hq_int
    have hD_par : (st.node (st.leaf idx)).parax = Q * 8 + 7 := by
      rw [hQdef]
      omega
    have hqkids : (st.node Q).left = st.leaf idx ∧ (st.node Q).right = B ∨
        (st.node Q).right = st.leaf idx ∧ (st.node Q).left = B := by
      by_cases hlD : (st.node Q).left = st.leaf idx
      · exact Or.inl ⟨hlD, by rw [hBdef, if_pos hlD]⟩
      · rcases hlink with hh | hh
        · exact absurd hh hlD
        · exact Or.inr ⟨hh, by rw [hBdef, if_neg hlD]⟩
    have hB_mem : B ∈ S := by
      rcases hqkids with ⟨_, hk⟩ | ⟨_, hk⟩
      · rw [← hk]
        exact hrm
      · rw [← hk]
        exact hlm
    have hsD : B ≠ st.leaf idx := by
      rcases hqkids with ⟨hk1, hk2⟩ | ⟨hk1, hk2⟩
      · rw [← hk1, ← hk2]
        exact fun he => hlr he.symm
      · rw [← hk1, ← hk2]
        exact hlr
    have hDq : st.leaf idx ≠ Q := by
      intro he
      rw [he] at hD7
      omega
    obtain ⟨pq, Sq, Pq, Lq, Tq, hSqsub⟩ := Tree_subtree h Q hq_mem
    cases Tq with
    | leaf pp rr g1 g2 g3 g4 =>
      omega
    | node pp rr S1q S2q P1q P2q L1q L2q g1 g2 g3 g4 g5 g6 g7 g8 g9 =>
      have hTsib : ∃ Sb Pb Lb, Tree true st Q B Sb Pb Lb ∧ Q ∉ Sb := by
        rcases hqkids with ⟨hk1, hk2⟩ | ⟨hk1, hk2⟩
        · exact ⟨S2q, P2q, L2q, by rw [← hk2]; exact g4, g7⟩
        · exact ⟨S1q, P1q, L1q, by rw [← hk2]; exact g3, g6⟩
      obtain ⟨Sb, Pb, Lb, Tsib, hQnb⟩ := hTsib
      have hsq : B ≠ Q := fun he => hQnb (he ▸ Tree_root_mem Tsib)
      rcases Tree_parax_cases h B hB_mem with hlfS | hintS
      · obtain ⟨bnq, brest, bidx, blfF, blfo, blfM, bnp, btc, bf0, bf1⟩ :=
          removeLeafOpB_leaf_spec st idx Q B hbig hQdef.symm hBdef.symm (by omega)
        obtain ⟨hT, _, _, _, _, _⟩ := Tree_removeB_leafcase hD_par hr1 hDq hsq hsD
          hq_int hqkids hlfS bnq brest bidx blfF blfM h hq_mem
        rw [hvfd] at hT
        refine ⟨(S.erase (st.leaf idx)).erase B,
          P.erase (st.node (st.leaf idx)).left, hT, ?_, ?_, ?_⟩
        · intro m hm
          rw [bnp]
          exact hSb m (Finset.erase_subset _ _ (Finset.erase_subset _ _ hm))
        · intro j hj
          rw [btc]
          exact hPb j (Finset.erase_subset _ _ hj)
        · intro _
          refine ⟨?_, ?_, ?_, ?_, ?_⟩
          · rw [bf0]
            exact Finset.not_mem_erase B _
          · rw [bf1]
            intro hc
            exact Finset.not_mem_erase (st.leaf idx) S (Finset.erase_subset _ _ hc)
          · rw [bf0, bf1]
            exact hsD
          · rw [bf0, bnp]
            exact hSb B hB_mem
          · rw [bf1, bnp]
            exact hSb _ hD_mem
      · cases Tsib with
        | leaf ppb rrb k1 k2 k3 k4 =>
          omega
        | node ppb rrb S1b S2b P1b P2b L1b L2b k1 k2 k3 k4 k5 k6 k7 k8 k9 =>
          have hc1m := Tree_root_mem k3
          have hc2m := Tree_root_mem k4
          have hc1q : (st.node B).left ≠ Q := fun he =>
            hQnb (he ▸ Finset.mem_insert_of_mem (Finset.mem_union_left _ hc1m))
          have hc2q : (st.node B).right ≠ Q := fun he =>
            hQnb (he ▸ Finset.mem_insert_of_mem (Finset.mem_union_right _ hc2m))
          have hc1s : (st.node B).left ≠ B := fun he => k6 (he ▸ hc1m)
          have hc2s : (st.node B).right ≠ B := fun he => k7 (he ▸ hc2m)
          have hc12 : (st.node B).left ≠ (st.node B).right := fun he =>
            (Finset.disjoint_left.mp k5 hc1m) (he ▸ hc2m)
          obtain ⟨bnq, bnc1, bnc2, brest, bidx, blf, bnp, btc, bf0, bf1⟩ :=
            removeLeafOpB_int_spec st idx Q B hbig hQdef.symm hBdef.symm (by omega)
              hc1q hc1s hc2q hc2s hc12
          obtain ⟨hT, _, _, _, _, _, _⟩ := Tree_removeB_intcase hD_par hr1 hDq hsq
            hsD hq_int hqkids hintS bnq bnc1 bnc2 brest bidx blf h hq_mem
          rw [hvfd] at hT
          refine ⟨(S.erase (st.leaf idx)).erase B,
            P.erase (st.node (st.leaf idx)).left, hT, ?_, ?_, ?_⟩
          · intro m hm
            rw [bnp]
            exact hSb m (Finset.erase_subset _ _ (Finset.erase_subset _ _ hm))
          · intro j hj
            rw [btc]
            exact hPb j (Finset.erase_subset _ _ hj)
          · intro _
            refine ⟨?_, ?_, ?_, ?_, ?_⟩
            · rw [bf0]
              exact Finset.not_mem_erase B _
            · rw [bf1]
              intro hc
              exact Finset.not_mem_erase (st.leaf idx) S (Finset.erase_subset _ _ hc)
            · rw [bf0, bf1]
              exact hsD
            · rw [bf0, bnp]
              exact hSb B hB_mem
            · rw [bf1, bnp]
              exact hSb _ hD_mem

theorem addOp_eq (st0 : KD) (idx : ℕ) :
    addOp st0 idx =
      (let stD := addStD st0 idx
       let m := addM st0 idx
       let stF := if m = 0 then addRootOp stD idx else addSpliceOp stD idx m
       recurseRefit (stF.nodePtr + 1) stF (stF.leaf idx)) := rfl

theorem descend_succ (fuel : ℕ) (st : KD) (Pv : Vec3) (n : ℕ) :
    descend (fuel + 1) st Pv n =
      if (st.node n).isLeaf then n
      else descend fuel st Pv
        (if Pv.get ((st.node n).parax % 8) < (st.node n).splitPos
         then (st.node n).left else (st.node n).right) := rfl

theorem recurseRefit_succ (fuel : ℕ) (st : KD) (i : ℕ) :
    recurseRefit (fuel + 1) st i =
      if i = 0 then st
      else recurseRefit fuel (combineAt st ((st.node i).parax / 8))
        ((st.node i).parax / 8) := rfl

theorem descend_leaf {u : Bool} {st : KD} (Pv : Vec3) :
    ∀ (fuel : ℕ) {p n : ℕ} {S P L : Finset ℕ}, Tree u st p n S P L → S.card ≤ fuel →
      ∃ m, m ∈ S ∧ (st.node m).parax % 8 = 7 ∧ descend fuel st Pv n = m := by
  intro fuel
  induction fuel with
  | zero =>
    intro p n S P L h hc
    have := Finset.card_pos.mpr ⟨n, Tree_root_mem h⟩
    omega
  | succ fuel ih =>
    intro p n S P L h hc
    cases h with
    | leaf q r h1 h2 h3 h4 =>
      have hlf : (st.node n).isLeaf = true := by
        unfold KDNode.isLeaf
        rw [decide_eq_true_eq]
        omega
      refine ⟨n, Finset.mem_singleton_self n, by omega, ?_⟩
      rw [descend_succ, if_pos hlf]
    | node q r S1 S2 P1 P2 L1 L2 h1 h2 t1 t2 d1 d2 d3 d4 d5 =>
      have hlf : ¬((st.node n).isLeaf = true) := by
        unfold KDNode.isLeaf
        rw [decide_eq_true_eq]
        omega
      have hcard : (insert n (S1 ∪ S2)).card = S1.card + S2.card + 1 := by
        rw [Finset.card_insert_of_not_mem
          (fun hc2 => by rcases Finset.mem_union.mp hc2 with hh | hh
                         · exact d2 hh
                         · exact d3 hh),
          Finset.card_union_of_disjoint d1]
      rw [descend_succ, if_neg hlf]
      by_cases hside : Pv.get ((st.node n).parax % 8) < (st.node n).splitPos
      · rw [if_pos hside]
        obtain ⟨m, hmS, hm7, hde⟩ := ih t1 (by omega)
        exact ⟨m, Finset.mem_insert_of_mem (Finset.mem_union_left _ hmS), hm7, hde⟩
      · rw [if_neg hside]
        obtain ⟨m, hmS, hm7, hde⟩ := ih t2 (by omega)
        exact ⟨m, Finset.mem_insert_of_mem (Finset.mem_union_right _ hmS), hm7, hde⟩

theorem recurseRefit_frame : ∀ (fuel : ℕ) (s : KD) (i : ℕ),
    (∀ k, ((recurseRefit fuel s i).node k).parax = (s.node k).parax ∧
      ((recurseRefit fuel s i).node k).left = (s.node k).left ∧
      ((recurseRefit fuel s i).node k).right = (s.node k).right) ∧
    (recurseRefit fuel s i).tlasIdx = s.tlasIdx ∧
    (recurseRefit fuel s i).leaf = s.leaf ∧
    (recurseRefit fuel s i).nodePtr = s.nodePtr ∧
    (recurseRefit fuel s i).tlasCount = s.tlasCount ∧
    (recurseRefit fuel s i).blasCount = s.blasCount ∧
    (recurseRefit fuel s i).freed0 = s.freed0 ∧
    (recurseRefit fuel s i).freed1 = s.freed1 := by
  intro fuel
  induction fuel with
  | zero =>
    intro s i
    exact ⟨fun k => ⟨rfl, rfl, rfl⟩, rfl, rfl, rfl, rfl, rfl, rfl, rfl⟩
  | succ fuel ih =>
    intro s i
    by_cases hi : i = 0
    · rw [recurseRefit_succ, if_pos hi]
      exact ⟨fun k => ⟨rfl, rfl, rfl⟩, rfl, rfl, rfl, rfl, rfl, rfl, rfl⟩
    · rw [recurseRefit_succ, if_neg hi]
      obtain ⟨hn, hti, hlf, hnp, htc, hbc, hf0, hf1⟩ :=
        ih (combineAt s ((s.node i).parax / 8)) ((s.node i).parax / 8)
      refine ⟨fun k => ?_, ?_, ?_, hnp, htc, hbc, hf0, hf1⟩
      · obtain ⟨a, b, c⟩ := hn k
        by_cases hk : k = (s.node i).parax / 8
        · rw [a, b, c, hk, combineAt_node_self]
          exact ⟨rfl, rfl, rfl⟩
        · rw [a, b, c, combineAt_node_noteq _ _ _ hk]
          exact ⟨rfl, rfl, rfl⟩
      · rw [hti, combineAt_tlasIdx]
      · rw [hlf, combineAt_leaf]

theorem addStD_node (st0 : KD) (idx : ℕ) :
    (addStD st0 idx).node = Function.update st0.node st0.freed0
      { st0.node st0.freed0 with
        left := st0.tlasCount + 1 - 1, right := 1,
        bmin := centroidOf ((addStD st0 idx).bounds idx),
        bmax := centroidOf ((addStD st0 idx).bounds idx),
        minSize := scl (1/2) (((addStD st0 idx).bounds idx).bmax -
          ((addStD st0 idx).bounds idx).bmin) } := rfl

theorem addStD_spec (st0 : KD) (idx : ℕ) :
    ((addStD st0 idx).node st0.freed0).parax = (st0.node st0.freed0).parax ∧
    ((addStD st0 idx).node st0.freed0).left = st0.tlasCount ∧
    ((addStD st0 idx).node st0.freed0).right = 1 ∧
    (∀ k, k ≠ st0.freed0 → (addStD st0 idx).node k = st0.node k) ∧
    (addStD st0 idx).tlasIdx = Function.update st0.tlasIdx st0.tlasCount idx ∧
    (addStD st0 idx).leaf = Function.update st0.leaf idx st0.freed0 ∧
    (addStD st0 idx).tlasCount = st0.tlasCount + 1 ∧
    (addStD st0 idx).nodePtr = st0.nodePtr ∧
    (addStD st0 idx).freed0 = st0.freed0 ∧
    (addStD st0 idx).freed1 = st0.freed1 ∧
    (addStD st0 idx).blasCount = st0.blasCount := by
  refine ⟨?_, ?_, ?_, ?_, rfl, rfl, rfl, rfl, rfl, rfl, rfl⟩
  · rw [addStD_node, Function.update_same]
  · rw [addStD_node, Function.update_same]
    show st0.tlasCount + 1 - 1 = st0.tlasCount
    omega
  · rw [addStD_node, Function.update_same]
  · intro k hk
    rw [addStD_node, Function.update_noteq hk]

theorem addFinish_spec (st : KD) (intI leafI otherI : ℕ) (P Pn : Vec3) :
    ((addFinish st intI leafI otherI P Pn).node intI).parax =
      (st.node intI).parax + dominantAxis (P - Pn) ∧
    (((addFinish st intI leafI otherI P Pn).node intI).left = leafI ∧
      ((addFinish st intI leafI otherI P Pn).node intI).right = otherI ∨
     ((addFinish st intI leafI otherI P Pn).node intI).left = otherI ∧
      ((addFinish st intI leafI otherI P Pn).node intI).right = leafI) ∧
    (∀ k, k ≠ intI → (addFinish st intI leafI otherI P Pn).node k = st.node k) ∧
    (addFinish st intI leafI otherI P Pn).tlasIdx = st.tlasIdx ∧
    (addFinish st intI leafI otherI P Pn).leaf = st.leaf ∧
    (addFinish st intI leafI otherI P Pn).nodePtr = st.nodePtr ∧
    (addFinish st intI leafI otherI P Pn).tlasCount = st.tlasCount ∧
    (addFinish st intI leafI otherI P Pn).blasCount = st.blasCount ∧
    (addFinish st intI leafI otherI P Pn).freed0 = st.freed0 ∧
    (addFinish st intI leafI otherI P Pn).freed1 = st.freed1 := by
  unfold addFinish
  by_cases hside : P.get (dominantAxis (P - Pn)) <
      (scl (1/2) (Pn + P)).get (dominantAxis (P - Pn))
  · rw [if_pos hside]
    refine ⟨?_, Or.inl ⟨?_, ?_⟩, ?_, rfl, rfl, rfl, rfl, rfl, rfl, rfl⟩
    · simp only [setNode_node, Function.update_same]
    · simp only [setNode_node, Function.update_same]
    · simp only [setNode_node, Function.update_same]
    · intro k hk
      simp only [setNode_node, Function.update_noteq hk]
  · rw [if_neg hside]
    refine ⟨?_, Or.inr ⟨?_, ?_⟩, ?_, rfl, rfl, rfl, rfl, rfl, rfl, rfl⟩
    · simp only [setNode_node, Function.update_same]
    · simp only [setNode_node, Function.update_same]
    · simp only [setNode_node, Function.update_same]
    · intro k hk
      simp only [setNode_node, Function.update_noteq hk]

theorem leafRedirNode_fold (T F : ℕ) :
    ∀ (l : List ℕ) (s : KD), (s.node T).left = F →
      l.foldl (fun s2 j => s2.setLeaf (s2.tlasIdx ((s2.node T).left + j)) T) s =
      l.foldl (fun s2 j => s2.setLeaf (s2.tlasIdx (F + j)) T) s := by
  intro l
  induction l with
  | nil =>
    intro s hF
    rfl
  | cons a t ih =>
    intro s hF
    rw [List.foldl_cons, List.foldl_cons, hF]
    exact ih (s.setLeaf (s.tlasIdx (F + a)) T) hF

theorem addSpliceOp_spec (stD : KD) (idx m q : ℕ)
    (hq : (stD.node m).parax / 8 = q)
    (hmq : m ≠ q) (hF0q : stD.freed0 ≠ q) (hF0m : stD.freed0 ≠ m)
    (hF1q : stD.freed1 ≠ q) (hF1m : stD.freed1 ≠ m) (hF01 : stD.freed0 ≠ stD.freed1) :
    ((stD.node q).left = m →
      (addSpliceOp stD idx m).node q = { stD.node q with left := stD.freed1 }) ∧
    (¬(stD.node q).left = m →
      (addSpliceOp stD idx m).node q = { stD.node q with right := stD.freed1 }) ∧
    ((addSpliceOp stD idx m).node stD.freed1).parax % 8 ≤ 2 ∧
    ((addSpliceOp stD idx m).node stD.freed1).parax / 8 = q ∧
    (((addSpliceOp stD idx m).node stD.freed1).left = stD.freed0 ∧
      ((addSpliceOp stD idx m).node stD.freed1).right = m ∨
     ((addSpliceOp stD idx m).node stD.freed1).left = m ∧
      ((addSpliceOp stD idx m).node stD.freed1).right = stD.freed0) ∧
    (addSpliceOp stD idx m).node m = { stD.node m with parax := stD.freed1 * 8 + 7 } ∧
    (addSpliceOp stD idx m).node stD.freed0 =
      { stD.node stD.freed0 with parax := stD.freed1 * 8 + 7 } ∧
    (∀ k, k ≠ q → k ≠ m → k ≠ stD.freed0 → k ≠ stD.freed1 →
      (addSpliceOp stD idx m).node k = stD.node k) ∧
    (addSpliceOp stD idx m).tlasIdx = stD.tlasIdx ∧
    (addSpliceOp stD idx m).leaf = stD.leaf ∧
    (addSpliceOp stD idx m).nodePtr = stD.nodePtr ∧
    (addSpliceOp stD idx m).tlasCount = stD.tlasCount ∧
    (addSpliceOp stD idx m).blasCount = stD.blasCount := by
  have hmF0 : m ≠ stD.freed0 := Ne.symm hF0m
  have hmF1 : m ≠ stD.freed1 := Ne.symm hF1m
  have hqm : q ≠ m := Ne.symm hmq
  have hqF0 : q ≠ stD.freed0 := Ne.symm hF0q
  have hqF1 : q ≠ stD.freed1 := Ne.symm hF1q
  have hF10 : stD.freed1 ≠ stD.freed0 := Ne.symm hF01
  have haxis := dominantAxis_le_two (centroidOf (stD.bounds idx) -
    centroidNode { stD.node m with parax := stD.freed1 * 8 + 7 })
  by_cases hlm : (stD.node q).left = m
  · have hre : addSpliceOp stD idx m =
        addFinish
          ((((stD.setNode q { stD.node q with left := stD.freed1 }).setNode stD.freed1
              { stD.node stD.freed1 with parax := q * 8 }).setNode m
              { stD.node m with parax := stD.freed1 * 8 + 7 }).setNode stD.freed0
              { stD.node stD.freed0 with parax := stD.freed1 * 8 + 7 })
          stD.freed1 stD.freed0 m (centroidOf (stD.bounds idx))
          (centroidNode { stD.node m with parax := stD.freed1 * 8 + 7 }) := by
      unfold addSpliceOp
      rw [hq]
      simp only [if_pos hlm, setNode_node, Function.update_same, Function.update_noteq hF1q,
        Function.update_noteq hmq, Function.update_noteq hmF1,
        Function.update_noteq hF0q, Function.update_noteq hF0m,
        Function.update_noteq hF01, Function.update_noteq hmF0, hq]
    obtain ⟨fpar, fkids, fframe, fti, flf, fnp, ftc, fbc, ff0, ff1⟩ :=
      addFinish_spec
        ((((stD.setNode q { stD.node q with left := stD.freed1 }).setNode stD.freed1
            { stD.node stD.freed1 with parax := q * 8 }).setNode m
            { stD.node m with parax := stD.freed1 * 8 + 7 }).setNode stD.freed0
            { stD.node stD.freed0 with parax := stD.freed1 * 8 + 7 })
        stD.freed1 stD.freed0 m (centroidOf (stD.bounds idx))
        (centroidNode { stD.node m with parax := stD.freed1 * 8 + 7 })
    have hF1v : ((addSpliceOp stD idx m).node stD.freed1).parax =
        q * 8 + dominantAxis (centroidOf (stD.bounds idx) -
          centroidNode { stD.node m with parax := stD.freed1 * 8 + 7 }) := by
      rw [hre, fpar, setNode_node, Function.update_noteq hF10, setNode_node,
        Function.update_noteq hF1m, setNode_node, Function.update_same]
    refine ⟨fun _ => ?_, fun hc => absurd hlm hc, ?_, ?_, ?_, ?_, ?_, ?_, ?_, ?_, ?_,
      ?_, ?_⟩
    · rw [hre, fframe q hqF1, setNode_node, Function.update_noteq hqF0, setNode_node,
        Function.update_noteq hqm, setNode_node, Function.update_noteq hqF1,
        setNode_node, Function.update_same]
    · rw [hF1v]
      omega
    · rw [hF1v]
      omega
    · rw [hre]
      exact fkids
    · rw [hre, fframe m hmF1, setNode_node, Function.update_noteq hmF0, setNode_node,
        Function.update_same]
    · rw [hre, fframe stD.freed0 hF01, setNode_node, Function.update_same]
    · intro k hkq hkm hk0 hk1
      rw [hre, fframe k hk1, setNode_node, Function.update_noteq hk0, setNode_node,
        Function.update_noteq hkm, setNode_node, Function.update_noteq hk1,
        setNode_node, Function.update_noteq hkq]
    · rw [hre]
      exact fti
    · rw [hre]
      exact flf
    · rw [hre]
      exact fnp
    · rw [hre]
      exact ftc
    · rw [hre]
      exact fbc
  · have hre : addSpliceOp stD idx m =
        addFinish
          ((((stD.setNode q { stD.node q with right := stD.freed1 }).setNode stD.freed1
              { stD.node stD.freed1 with parax := q * 8 }).setNode m
              { stD.node m with parax := stD.freed1 * 8 + 7 }).setNode stD.freed0
              { stD.node stD.freed0 with parax := stD.freed1 * 8 + 7 })
          stD.freed1 stD.freed0 m (centroidOf (stD.bounds idx))
          (centroidNode { stD.node m with parax := stD.freed1 * 8 + 7 }) := by
      unfold addSpliceOp
      rw [hq]
      simp only [if_neg hlm, setNode_node, Function.update_same, Function.update_noteq hF1q,
        Function.update_noteq hmq, Function.update_noteq hmF1,
        Function.update_noteq hF0q, Function.update_noteq hF0m,
        Function.update_noteq hF01, Function.update_noteq hmF0, hq]
    obtain ⟨fpar, fkids, fframe, fti, flf, fnp, ftc, fbc, ff0, ff1⟩ :=
      addFinish_spec
        ((((stD.setNode q { stD.node q with right := stD.freed1 }).setNode stD.freed1
            { stD.node stD.freed1 with parax := q * 8 }).setNode m
            { stD.node m with parax := stD.freed1 * 8 + 7 }).setNode stD.freed0
            { stD.node stD.freed0 with parax := stD.freed1 * 8 + 7 })
        stD.freed1 stD.freed0 m (centroidOf (stD.bounds idx))
        (centroidNode { stD.node m with parax := stD.freed1 * 8 + 7 })
    have hF1v : ((addSpliceOp stD idx m).node stD.freed1).parax =
        q * 8 + dominantAxis (centroidOf (stD.bounds idx) -
          centroidNode { stD.node m with parax := stD.freed1 * 8 + 7 }) := by
      rw [hre, fpar, setNode_node, Function.update_noteq hF10, setNode_node,
        Function.update_noteq hF1m, setNode_node, Function.update_same]
    refine ⟨fun hc => absurd hc hlm, fun _ => ?_, ?_, ?_, ?_, ?_, ?_, ?_, ?_, ?_, ?_,
      ?_, ?_⟩
    · rw [hre, fframe q hqF1, setNode_node, Function.update_noteq hqF0, setNode_node,
        Function.update_noteq hqm, setNode_node, Function.update_noteq hqF1,
        setNode_node, Function.update_same]
    · rw [hF1v]
      omega
    · rw [hF1v]
      omega
    · rw [hre]
      exact fkids
    · rw [hre, fframe m hmF1, setNode_node, Function.update_noteq hmF0, setNode_node,
        Function.update_same]
    · rw [hre, fframe stD.freed0 hF01, setNode_node, Function.update_same]
    · intro k hkq hkm hk0 hk1
      rw [hre, fframe k hk1, setNode_node, Function.update_noteq hk0, setNode_node,
        Function.update_noteq hkm, setNode_node, Function.update_noteq hk1,
        setNode_node, Function.update_noteq hkq]
    · rw [hre]
      exact fti
    · rw [hre]
      exact flf
    · rw [hre]
      exact fnp
    · rw [hre]
      exact ftc
    · rw [hre]
      exact fbc

theorem addRootOp_spec (stD : KD) (idx : ℕ)
    (hF00 : stD.freed0 ≠ 0) (hF10 : stD.freed1 ≠ 0) (hF01 : stD.freed0 ≠ stD.freed1) :
    ((addRootOp stD idx).node 0).parax % 8 ≤ 2 ∧
    ((addRootOp stD idx).node 0).parax / 8 = 0 ∧
    (((addRootOp stD idx).node 0).left = stD.freed0 ∧
      ((addRootOp stD idx).node 0).right = stD.freed1 ∨
     ((addRootOp stD idx).node 0).left = stD.freed1 ∧
      ((addRootOp stD idx).node 0).right = stD.freed0) ∧
    (addRootOp stD idx).node stD.freed1 =
      { stD.node 0 with parax := (stD.node 0).parax % 8 } ∧
    (addRootOp stD idx).node stD.freed0 =
      { stD.node stD.freed0 with parax := 7 } ∧
    (∀ k, k ≠ 0 → k ≠ stD.freed0 → k ≠ stD.freed1 →
      (addRootOp stD idx).node k = stD.node k) ∧
    (addRootOp stD idx).tlasIdx = stD.tlasIdx ∧
    (∀ x, (∀ j, j < (stD.node 0).right → stD.tlasIdx ((stD.node 0).left + j) ≠ x) →
      (addRootOp stD idx).leaf x = stD.leaf x) ∧
    (∀ j, j < (stD.node 0).right →
      (addRootOp stD idx).leaf (stD.tlasIdx ((stD.node 0).left + j)) = stD.freed1) ∧
    (addRootOp stD idx).nodePtr = stD.nodePtr ∧
    (addRootOp stD idx).tlasCount = stD.tlasCount := by
  have h0F0 : (0 : ℕ) ≠ stD.freed0 := Ne.symm hF00
  have h0F1 : (0 : ℕ) ≠ stD.freed1 := Ne.symm hF10
  have hF1F0 : stD.freed1 ≠ stD.freed0 := Ne.symm hF01
  have haxis := dominantAxis_le_two (centroidOf (stD.bounds idx) -
    centroidNode { stD.node 0 with parax := (stD.node 0).parax % 8 })
  have hEX3F : ((((stD.setNode stD.freed1 (stD.node 0)).setNode stD.freed1
      { stD.node 0 with parax := (stD.node 0).parax % 8 }).setNode stD.freed0
      { stD.node stD.freed0 with parax := 7 }).node stD.freed1).left =
      (stD.node 0).left := by
    rw [setNode_node, Function.update_noteq hF1F0, setNode_node, Function.update_same]
  have hre1 : addRootOp stD idx =
      addFinish
        (((List.range (stD.node 0).right).foldl
            (fun s j => s.setLeaf (s.tlasIdx ((s.node stD.freed1).left + j)) stD.freed1)
            (((stD.setNode stD.freed1 (stD.node 0)).setNode stD.freed1
              { stD.node 0 with parax := (stD.node 0).parax % 8 }).setNode stD.freed0
              { stD.node stD.freed0 with parax := 7 })).setNode 0
          { ((List.range (stD.node 0).right).foldl
              (fun s j =>
                s.setLeaf (s.tlasIdx ((s.node stD.freed1).left + j)) stD.freed1)
              (((stD.setNode stD.freed1 (stD.node 0)).setNode stD.freed1
                { stD.node 0 with parax := (stD.node 0).parax % 8 }).setNode stD.freed0
                { stD.node stD.freed0 with parax := 7 })).node 0 with parax := 0 })
        0 stD.freed0 stD.freed1 (centroidOf (stD.bounds idx))
        (centroidNode { stD.node 0 with parax := (stD.node 0).parax % 8 }) := by
    unfold addRootOp
    simp only [setNode_node, Function.update_same, Function.update_noteq hF01,
      Function.update_noteq hF1F0]
  have hre : addRootOp stD idx =
      addFinish
        (((List.range (stD.node 0).right).foldl
            (fun s j => s.setLeaf (s.tlasIdx ((stD.node 0).left + j)) stD.freed1)
            (((stD.setNode stD.freed1 (stD.node 0)).setNode stD.freed1
              { stD.node 0 with parax := (stD.node 0).parax % 8 }).setNode stD.freed0
              { stD.node stD.freed0 with parax := 7 })).setNode 0
          { ((List.range (stD.node 0).right).foldl
              (fun s j => s.setLeaf (s.tlasIdx ((stD.node 0).left + j)) stD.freed1)
              (((stD.setNode stD.freed1 (stD.node 0)).setNode stD.freed1
                { stD.node 0 with parax := (stD.node 0).parax % 8 }).setNode stD.freed0
                { stD.node stD.freed0 with parax := 7 })).node 0 with parax := 0 })
        0 stD.freed0 stD.freed1 (centroidOf (stD.bounds idx))
        (centroidNode { stD.node 0 with parax := (stD.node 0).parax % 8 }) := by
    rw [hre1, leafRedirNode_fold stD.freed1 (stD.node 0).left
      (List.range (stD.node 0).right)
      (((stD.setNode stD.freed1 (stD.node 0)).setNode stD.freed1
        { stD.node 0 with parax := (stD.node 0).parax % 8 }).setNode stD.freed0
        { stD.node stD.freed0 with parax := 7 }) hEX3F]
  obtain ⟨fold1, fold2, fold3, fold4, fold5, fold6, fold7⟩ :=
    leafRedir_fold stD.freed1 (stD.node 0).left (List.range (stD.node 0).right)
      (((stD.setNode stD.freed1 (stD.node 0)).setNode stD.freed1
        { stD.node 0 with parax := (stD.node 0).parax % 8 }).setNode stD.freed0
        { stD.node stD.freed0 with parax := 7 })
  obtain ⟨fpar, fkids, fframe, fti, flf, fnp, ftc, fbc, ff0, ff1⟩ :=
    addFinish_spec
      (((List.range (stD.node 0).right).foldl
          (fun s j => s.setLeaf (s.tlasIdx ((stD.node 0).left + j)) stD.freed1)
          (((stD.setNode stD.freed1 (stD.node 0)).setNode stD.freed1
            { stD.node 0 with parax := (stD.node 0).parax % 8 }).setNode stD.freed0
            { stD.node stD.freed0 with parax := 7 })).setNode 0
        { ((List.range (stD.node 0).right).foldl
            (fun s j => s.setLeaf (s.tlasIdx ((stD.node 0).left + j)) stD.freed1)
            (((stD.setNode stD.freed1 (stD.node 0)).setNode stD.freed1
              { stD.node 0 with parax := (stD.node 0).parax % 8 }).setNode stD.freed0
              { stD.node stD.freed0 with parax := 7 })).node 0 with parax := 0 })
      0 stD.freed0 stD.freed1 (centroidOf (stD.bounds idx))
      (centroidNode { stD.node 0 with parax := (stD.node 0).parax % 8 })
  have hX0 : ((addRootOp stD idx).node 0).parax =
      0 + dominantAxis (centroidOf (stD.bounds idx) -
        centroidNode { stD.node 0 with parax := (stD.node 0).parax % 8 }) := by
    rw [hre, fpar, setNode_node, Function.update_same]
  refine ⟨?_, ?_, ?_, ?_, ?_, ?_, ?_, ?_, ?_, ?_, ?_⟩
  · rw [hX0]
    omega
  · rw [hX0]
    omega
  · rw [hre]
    exact fkids
  · rw [hre, fframe stD.freed1 hF10, setNode_node, Function.update_noteq hF10, fold1,
      setNode_node, Function.update_noteq hF1F0, setNode_node, Function.update_same]
  · rw [hre, fframe stD.freed0 hF00, setNode_node, Function.update_noteq hF00, fold1,
      setNode_node, Function.update_same]
  · intro k hk0 hkF0 hkF1
    rw [hre, fframe k hk0, setNode_node, Function.update_noteq hk0, fold1,
      setNode_node, Function.update_noteq hkF0, setNode_node,
      Function.update_noteq hkF1, setNode_node, Function.update_noteq hkF1]
  · rw [hre, fti]
    exact fold2
  · intro x hx
    rw [hre, flf]
    exact fold5 x (fun j hj => hx j (List.mem_range.mp hj))
  · intro j hj
    rw [hre, flf]
    exact fold7 j (List.mem_range.mpr hj)
  · rw [hre, fnp]
    exact fold3
  · rw [hre, ftc]
    exact fold4

theorem insert_splice_sets (F1 F0 r : ℕ) (A B : Finset ℕ) :
    insert r ((insert F1 (insert F0 A)) ∪ B) =
      insert F1 (insert F0 (insert r (A ∪ B))) := by
  ext a
  simp only [Finset.mem_insert, Finset.mem_union]
  tauto

theorem insert_splice_sets_r (F1 F0 r : ℕ) (A B : Finset ℕ) :
    insert r (B ∪ (insert F1 (insert F0 A))) =
      insert F1 (insert F0 (insert r (B ∪ A))) := by
  ext a
  simp only [Finset.mem_insert, Finset.mem_union]
  tauto

theorem ins_union_left (a : ℕ) (s t : Finset ℕ) :
    (insert a s) ∪ t = insert a (s ∪ t) := by
  ext x
  simp only [Finset.mem_insert, Finset.mem_union]
  tauto

theorem ins_union_right (a : ℕ) (s t : Finset ℕ) :
    s ∪ (insert a t) = insert a (s ∪ t) := by
  ext x
  simp only [Finset.mem_insert, Finset.mem_union]
  tauto

theorem singl_union (a : ℕ) (s : Finset ℕ) : ({a} : Finset ℕ) ∪ s = insert a s := by
  ext x
  simp only [Finset.mem_insert, Finset.mem_union, Finset.mem_singleton]

theorem Tree_addB {stD stF : KD} {m q F0 F1 pos idx' : ℕ}
    (hm7 : (stD.node m).parax = q * 8 + 7)
    (hF0m : F0 ≠ m) (hF1m : F1 ≠ m) (hF01 : F0 ≠ F1)
    (hnq_l : (stD.node q).left = m → stF.node q = { stD.node q with left := F1 })
    (hnq_r : ¬(stD.node q).left = m → stF.node q = { stD.node q with right := F1 })
    (hF1par : (stF.node F1).parax % 8 ≤ 2)
    (hF1p : (stF.node F1).parax / 8 = q)
    (hF1kids : (stF.node F1).left = F0 ∧ (stF.node F1).right = m ∨
      (stF.node F1).left = m ∧ (stF.node F1).right = F0)
    (hnm : stF.node m = { stD.node m with parax := F1 * 8 + 7 })
    (hF0par : (stF.node F0).parax = F1 * 8 + 7)
    (hF0l : (stF.node F0).left = pos)
    (hF0r : (stF.node F0).right = 1)
    (hrest : ∀ k, k ≠ q → k ≠ m → k ≠ F0 → k ≠ F1 → stF.node k = stD.node k)
    (hti : stF.tlasIdx = stD.tlasIdx)
    (hlf : stF.leaf = stD.leaf)
    (hvpos : stD.tlasIdx pos = idx')
    (hlfidx : stD.leaf idx' = F0) :
    ∀ {p n : ℕ} {S P L : Finset ℕ}, Tree true stD p n S P L →
      m ∈ S → m ≠ n → F0 ∉ S → F1 ∉ S → pos ∉ P → idx' ∉ L →
      Tree true stF p n (insert F1 (insert F0 S)) (insert pos P) (insert idx' L) := by
  have hTF0 : Tree true stF F1 F0 {F0} {pos} {idx'} := by
    have hT0 : Tree true stF F1 F0 {F0}
        (Finset.Ico (stF.node F0).left ((stF.node F0).left + (stF.node F0).right))
        ((Finset.Ico (stF.node F0).left
          ((stF.node F0).left + (stF.node F0).right)).image stF.tlasIdx) := by
      refine Tree.leaf F1 F0 ?_ ?_ ?_ ?_
      · exact hF0par
      · rw [hF0r]
      · intro a ha b hb hab
        rw [Set.mem_Ico, hF0l, hF0r] at ha hb
        omega
      · intro _ j hj1 hj2
        rw [hF0l] at hj1
        rw [hF0l, hF0r] at hj2
        have hjp : j = pos := by omega
        rw [hjp, hti, hvpos, hlf, hlfidx]
    rw [hF0l, hF0r, Nat.Ico_succ_singleton, Finset.image_singleton, hti, hvpos] at hT0
    exact hT0
  intro p n S P L h
  induction h with
  | leaf q2 r h1 h2 h3 h4 =>
    intro hmS hmn hx1 hx2 hx3 hx4
    rw [Finset.mem_singleton] at hmS
    exact absurd hmS hmn
  | node q2 r S1 S2 P1 P2 L1 L2 h1 h2 t1 t2 d1 d2 d3 d4 d5 ih1 ih2 =>
    intro hmS hmn hF0S hF1S hposP hidxL
    have hmS2 : m ∈ S1 ∪ S2 := by
      rcases Finset.mem_insert.mp hmS with he | hh
      · exact absurd he hmn
      · exact hh
    have hF0S1 : F0 ∉ S1 := fun hc =>
      hF0S (Finset.mem_insert_of_mem (Finset.mem_union_left _ hc))
    have hF0S2 : F0 ∉ S2 := fun hc =>
      hF0S (Finset.mem_insert_of_mem (Finset.mem_union_right _ hc))
    have hF1S1 : F1 ∉ S1 := fun hc =>
      hF1S (Finset.mem_insert_of_mem (Finset.mem_union_left _ hc))
    have hF1S2 : F1 ∉ S2 := fun hc =>
      hF1S (Finset.mem_insert_of_mem (Finset.mem_union_right _ hc))
    have hposP1 : pos ∉ P1 := fun hc => hposP (Finset.mem_union_left _ hc)
    have hposP2 : pos ∉ P2 := fun hc => hposP (Finset.mem_union_right _ hc)
    have hidxL1 : idx' ∉ L1 := fun hc => hidxL (Finset.mem_union_left _ hc)
    have hidxL2 : idx' ∉ L2 := fun hc => hidxL (Finset.mem_union_right _ hc)
    have hrF0 : r ≠ F0 := fun he =>
      hF0S (by rw [← he]; exact Finset.mem_insert_self r _)
    have hrF1 : r ≠ F1 := fun he =>
      hF1S (by rw [← he]; exact Finset.mem_insert_self r _)
    have hrm : r ≠ m := fun he => hmn he.symm
    rcases Finset.mem_union.mp hmS2 with hm1 | hm2
    · by_cases hroot : m = (stD.node r).left
      · rw [← hroot] at t1
        have hqr : q = r := by
          have h5 := Tree_root_parent t1
          omega
        cases t1 with
        | node pp nn S1a S2a P1a P2a L1a L2a g1 g2 g3 g4 g5 g6 g7 g8 g9 =>
          omega
        | leaf pp nn g1 g2 g3 g4 =>
          have hl : (stF.node m).left = (stD.node m).left := by rw [hnm]
          have hr : (stF.node m).right = (stD.node m).right := by rw [hnm]
          have hTmL : Tree true stF F1 m {m}
              (Finset.Ico (stD.node m).left ((stD.node m).left + (stD.node m).right))
              ((Finset.Ico (stD.node m).left
                ((stD.node m).left + (stD.node m).right)).image stD.tlasIdx) := by
            have hT0 : Tree true stF F1 m {m}
                (Finset.Ico (stF.node m).left ((stF.node m).left + (stF.node m).right))
                ((Finset.Ico (stF.node m).left
                  ((stF.node m).left + (stF.node m).right)).image stF.tlasIdx) := by
              refine Tree.leaf F1 m ?_ ?_ ?_ ?_
              · rw [hnm]
              · rw [hr]
                exact g2
              · rw [hl, hr, hti]
                exact g3
              · intro hu j hj1 hj2
                rw [hl] at hj1
                rw [hl, hr] at hj2
                rw [hti, hlf]
                exact g4 rfl j hj1 hj2
            rw [hl, hr, hti] at hT0
            exact hT0
          have hF1pr : (stF.node F1).parax / 8 = r := by rw [hF1p, hqr]
          have hTF1 : Tree true stF r F1 (insert F1 (insert F0 {m}))
              (insert pos (Finset.Ico (stD.node m).left
                ((stD.node m).left + (stD.node m).right)))
              (insert idx' ((Finset.Ico (stD.node m).left
                ((stD.node m).left + (stD.node m).right)).image stD.tlasIdx)) := by
            rcases hF1kids with ⟨hk1, hk2⟩ | ⟨hk1, hk2⟩
            · have hT5 := Tree.node r F1 {F0} {m} {pos}
                (Finset.Ico (stD.node m).left ((stD.node m).left + (stD.node m).right))
                {idx'}
                ((Finset.Ico (stD.node m).left
                  ((stD.node m).left + (stD.node m).right)).image stD.tlasIdx)
                hF1par hF1pr (by rw [hk1]; exact hTF0) (by rw [hk2]; exact hTmL)
                (by rw [Finset.disjoint_left]
                    intro a ha hb
                    rw [Finset.mem_singleton] at ha hb
                    exact hF0m (ha ▸ hb))
                (fun hc => hF01 (Finset.mem_singleton.mp hc).symm)
                (fun hc => hF1m (Finset.mem_singleton.mp hc))
                (by rw [Finset.disjoint_left]
                    intro a ha hb
                    rw [Finset.mem_singleton] at ha
                    rw [ha] at hb
                    exact hposP1 hb)
                (by rw [Finset.disjoint_left]
                    intro a ha hb
                    rw [Finset.mem_singleton] at ha
                    rw [ha] at hb
                    exact hidxL1 hb)
              simp only [singl_union] at hT5
              exact hT5
            · have hT5 := Tree.node r F1 {m} {F0}
                (Finset.Ico (stD.node m).left ((stD.node m).left + (stD.node m).right))
                {pos}
                ((Finset.Ico (stD.node m).left
                  ((stD.node m).left + (stD.node m).right)).image stD.tlasIdx)
                {idx'}
                hF1par hF1pr (by rw [hk1]; exact hTmL) (by rw [hk2]; exact hTF0)
                (by rw [Finset.disjoint_left]
                    intro a ha hb
                    rw [Finset.mem_singleton] at ha hb
                    exact hF0m (hb ▸ ha))
                (fun hc => hF1m (Finset.mem_singleton.mp hc))
                (fun hc => hF01 (Finset.mem_singleton.mp hc).symm)
                (by rw [Finset.disjoint_right]
                    intro a ha hb
                    rw [Finset.mem_singleton] at ha
                    rw [ha] at hb
                    exact hposP1 hb)
                (by rw [Finset.disjoint_right]
                    intro a ha hb
                    rw [Finset.mem_singleton] at ha
                    rw [ha] at hb
                    exact hidxL1 hb)
              rw [Finset.union_comm ({m} : Finset ℕ) {F0},
                Finset.union_comm _ ({pos} : Finset ℕ),
                Finset.union_comm _ ({idx'} : Finset ℕ)] at hT5
              simp only [singl_union] at hT5
              exact hT5
          have hnr : stF.node r = { stD.node r with left := F1 } := by
            have h6 := hnq_l (by rw [hqr]; exact hroot.symm)
            rw [hqr] at h6
            exact h6
          have c2 : Tree true stF r (stD.node r).right S2 P2 L2 := by
            refine Tree_congr t2 ?_ ?_ ?_
            · intro k hk
              have hkq : k ≠ q := fun he => d3 (by rw [← hqr, ← he]; exact hk)
              have hkm : k ≠ m := fun he =>
                (Finset.disjoint_left.mp d1 (Finset.mem_singleton_self m)) (he ▸ hk)
              have hkF0 : k ≠ F0 := fun he => hF0S2 (he ▸ hk)
              have hkF1 : k ≠ F1 := fun he => hF1S2 (he ▸ hk)
              rw [hrest k hkq hkm hkF0 hkF1]
              exact ⟨rfl, rfl, rfl⟩
            · intro j hj
              rw [hti]
            · intro j hj
              rw [hlf]
          have hl2 : (stF.node r).left = F1 := by rw [hnr]
          have hr2 : (stF.node r).right = (stD.node r).right := by rw [hnr]
          have hT := Tree.node q2 r (insert F1 (insert F0 {m})) S2
            (insert pos (Finset.Ico (stD.node m).left
              ((stD.node m).left + (stD.node m).right))) P2
            (insert idx' ((Finset.Ico (stD.node m).left
              ((stD.node m).left + (stD.node m).right)).image stD.tlasIdx)) L2
            (by rw [hnr]; exact h1) (by rw [hnr]; exact h2)
            (by rw [hl2]; exact hTF1) (by rw [hr2]; exact c2)
            (by rw [Finset.disjoint_left]
                intro a ha hb
                rcases Finset.mem_insert.mp ha with he | hh
                · rw [he] at hb
                  exact hF1S2 hb
                · rcases Finset.mem_insert.mp hh with he2 | hh2
                  · rw [he2] at hb
                    exact hF0S2 hb
                  · rw [Finset.mem_singleton] at hh2
                    rw [hh2] at hb
                    exact (Finset.disjoint_left.mp d1 (Finset.mem_singleton_self m)) hb)
            (by intro hc
                rcases Finset.mem_insert.mp hc with he | hh
                · exact hrF1 he
                · rcases Finset.mem_insert.mp hh with he2 | hh2
                  · exact hrF0 he2
                  · rw [Finset.mem_singleton] at hh2
                    exact hrm hh2)
            d3
            (by rw [Finset.disjoint_left]
                intro a ha hb
                rcases Finset.mem_insert.mp ha with he | hh
                · rw [he] at hb
                  exact hposP2 hb
                · exact (Finset.disjoint_left.mp d4 hh) hb)
            (by rw [Finset.disjoint_left]
                intro a ha hb
                rcases Finset.mem_insert.mp ha with he | hh
                · rw [he] at hb
                  exact hidxL2 hb
                · exact (Finset.disjoint_left.mp d5 hh) hb)
          have eS := insert_splice_sets F1 F0 r ({m} : Finset ℕ) S2
          have eP := ins_union_left pos (Finset.Ico (stD.node m).left
            ((stD.node m).left + (stD.node m).right)) P2
          have eL := ins_union_left idx' ((Finset.Ico (stD.node m).left
            ((stD.node m).left + (stD.node m).right)).image stD.tlasIdx) L2
          rw [eS, eP, eL] at hT
          exact hT
      · have Tsub := ih1 hm1 hroot hF0S1 hF1S1 hposP1 hidxL1
        have hq5 : (stD.node m).parax / 8 = q := by omega
        have hqS1 : q ∈ S1 := by
          obtain ⟨hqmem, hx1, hx2⟩ := Tree_parent_interior t1 m hm1 hroot
          rw [hq5] at hqmem
          exact hqmem
        have hrq : r ≠ q := fun he => d2 (he ▸ hqS1)
        have hnr : stF.node r = stD.node r := hrest r hrq hrm hrF0 hrF1
        have c2 : Tree true stF r (stD.node r).right S2 P2 L2 := by
          refine Tree_congr t2 ?_ ?_ ?_
          · intro k hk
            have hkq : k ≠ q := fun he =>
              (Finset.disjoint_left.mp d1 hqS1) (he ▸ hk)
            have hkm : k ≠ m := fun he =>
              (Finset.disjoint_left.mp d1 hm1) (he ▸ hk)
            have hkF0 : k ≠ F0 := fun he => hF0S2 (he ▸ hk)
            have hkF1 : k ≠ F1 := fun he => hF1S2 (he ▸ hk)
            rw [hrest k hkq hkm hkF0 hkF1]
            exact ⟨rfl, rfl, rfl⟩
          · intro j hj
            rw [hti]
          · intro j hj
            rw [hlf]
        have hl2 : (stF.node r).left = (stD.node r).left := by rw [hnr]
        have hr2 : (stF.node r).right = (stD.node r).right := by rw [hnr]
        have hT := Tree.node q2 r (insert F1 (insert F0 S1)) S2
          (insert pos P1) P2 (insert idx' L1) L2
          (by rw [hnr]; exact h1) (by rw [hnr]; exact h2)
          (by rw [hl2]; exact Tsub) (by rw [hr2]; exact c2)
          (by rw [Finset.disjoint_left]
              intro a ha hb
              rcases Finset.mem_insert.mp ha with he | hh
              · rw [he] at hb
                exact hF1S2 hb
              · rcases Finset.mem_insert.mp hh with he2 | hh2
                · rw [he2] at hb
                  exact hF0S2 hb
                · exact (Finset.disjoint_left.mp d1 hh2) hb)
          (by intro hc
              rcases Finset.mem_insert.mp hc with he | hh
              · exact hrF1 he
              · rcases Finset.mem_insert.mp hh with he2 | hh2
                · exact hrF0 he2
                · exact d2 hh2)
          d3
          (by rw [Finset.disjoint_left]
              intro a ha hb
              rcases Finset.mem_insert.mp ha with he | hh
              · rw [he] at hb
                exact hposP2 hb
              · exact (Finset.disjoint_left.mp d4 hh) hb)
          (by rw [Finset.disjoint_left]
              intro a ha hb
              rcases Finset.mem_insert.mp ha with he | hh
              · rw [he] at hb
                exact hidxL2 hb
              · exact (Finset.disjoint_left.mp d5 hh) hb)
        have eS := insert_splice_sets F1 F0 r S1 S2
        have eP := ins_union_left pos P1 P2
        have eL := ins_union_left idx' L1 L2
        rw [eS, eP, eL] at hT
        exact hT
    · by_cases hroot : m = (stD.node r).right
      · rw [← hroot] at t2
        have hqr : q = r := by
          have h5 := Tree_root_parent t2
          omega
        cases t2 with
        | node pp nn S1a S2a P1a P2a L1a L2a g1 g2 g3 g4 g5 g6 g7 g8 g9 =>
          omega
        | leaf pp nn g1 g2 g3 g4 =>
          have hl : (stF.node m).left = (stD.node m).left := by rw [hnm]
          have hr : (stF.node m).right = (stD.node m).right := by rw [hnm]
          have hTmL : Tree true stF F1 m {m}
              (Finset.Ico (stD.node m).left ((stD.node m).left + (stD.node m).right))
              ((Finset.Ico (stD.node m).left
                ((stD.node m).left + (stD.node m).right)).image stD.tlasIdx) := by
            have hT0 : Tree true stF F1 m {m}
                (Finset.Ico (stF.node m).left ((stF.node m).left + (stF.node m).right))
                ((Finset.Ico (stF.node m).left
                  ((stF.node m).left + (stF.node m).right)).image stF.tlasIdx) := by
              refine Tree.leaf F1 m ?_ ?_ ?_ ?_
              · rw [hnm]
              · rw [hr]
                exact g2
              · rw [hl, hr, hti]
                exact g3
              · intro hu j hj1 hj2
                rw [hl] at hj1
                rw [hl, hr] at hj2
                rw [hti, hlf]
                exact g4 rfl j hj1 hj2
            rw [hl, hr, hti] at hT0
            exact hT0
          have hF1pr : (stF.node F1).parax / 8 = r := by rw [hF1p, hqr]
          have hTF1 : Tree true stF r F1 (insert F1 (insert F0 {m}))
              (insert pos (Finset.Ico (stD.node m).left
                ((stD.node m).left + (stD.node m).right)))
              (insert idx' ((Finset.Ico (stD.node m).left
                ((stD.node m).left + (stD.node m).right)).image stD.tlasIdx)) := by
            rcases hF1kids with ⟨hk1, hk2⟩ | ⟨hk1, hk2⟩
            · have hT5 := Tree.node r F1 {F0} {m} {pos}
                (Finset.Ico (stD.node m).left ((stD.node m).left + (stD.node m).right))
                {idx'}
                ((Finset.Ico (stD.node m).left
                  ((stD.node m).left + (stD.node m).right)).image stD.tlasIdx)
                hF1par hF1pr (by rw [hk1]; exact hTF0) (by rw [hk2]; exact hTmL)
                (by rw [Finset.disjoint_left]
                    intro a ha hb
                    rw [Finset.mem_singleton] at ha hb
                    exact hF0m (ha ▸ hb))
                (fun hc => hF01 (Finset.mem_singleton.mp hc).symm)
                (fun hc => hF1m (Finset.mem_singleton.mp hc))
                (by rw [Finset.disjoint_left]
                    intro a ha hb
                    rw [Finset.mem_singleton] at ha
                    rw [ha] at hb
                    exact hposP2 hb)
                (by rw [Finset.disjoint_left]
                    intro a ha hb
                    rw [Finset.mem_singleton] at ha
                    rw [ha] at hb
                    exact hidxL2 hb)
              simp only [singl_union] at hT5
              exact hT5
            · have hT5 := Tree.node r F1 {m} {F0}
                (Finset.Ico (stD.node m).left ((stD.node m).left + (stD.node m).right))
                {pos}
                ((Finset.Ico (stD.node m).left
                  ((stD.node m).left + (stD.node m).right)).image stD.tlasIdx)
                {idx'}
                hF1par hF1pr (by rw [hk1]; exact hTmL) (by rw [hk2]; exact hTF0)
                (by rw [Finset.disjoint_left]
                    intro a ha hb
                    rw [Finset.mem_singleton] at ha hb
                    exact hF0m (hb ▸ ha))
                (fun hc => hF1m (Finset.mem_singleton.mp hc))
                (fun hc => hF01 (Finset.mem_singleton.mp hc).symm)
                (by rw [Finset.disjoint_right]
                    intro a ha hb
                    rw [Finset.mem_singleton] at ha
                    rw [ha] at hb
                    exact hposP2 hb)
                (by rw [Finset.disjoint_right]
                    intro a ha hb
                    rw [Finset.mem_singleton] at ha
                    rw [ha] at hb
                    exact hidxL2 hb)
              rw [Finset.union_comm ({m} : Finset ℕ) {F0},
                Finset.union_comm _ ({pos} : Finset ℕ),
                Finset.union_comm _ ({idx'} : Finset ℕ)] at hT5
              simp only [singl_union] at hT5
              exact hT5
          have hlne : (stD.node r).left ≠ m := fun he =>
            (Finset.disjoint_left.mp d1 (he ▸ Tree_root_mem t1)) hm2
          have hnr : stF.node r = { stD.node r with right := F1 } := by
            have h6 := hnq_r (by rw [hqr]; exact hlne)
            rw [hqr] at h6
            exact h6
          have c1 : Tree true stF r (stD.node r).left S1 P1 L1 := by
            refine Tree_congr t1 ?_ ?_ ?_
            · intro k hk
              have hkq : k ≠ q := fun he => d2 (by rw [← hqr, ← he]; exact hk)
              have hkm : k ≠ m := fun he =>
                (Finset.disjoint_left.mp d1 (he ▸ hk)) hm2
              have hkF0 : k ≠ F0 := fun he => hF0S1 (he ▸ hk)
              have hkF1 : k ≠ F1 := fun he => hF1S1 (he ▸ hk)
              rw [hrest k hkq hkm hkF0 hkF1]
              exact ⟨rfl, rfl, rfl⟩
            · intro j hj
              rw [hti]
            · intro j hj
              rw [hlf]
          have hl2 : (stF.node r).left = (stD.node r).left := by rw [hnr]
          have hr2 : (stF.node r).right = F1 := by rw [hnr]
          have hT := Tree.node q2 r S1 (insert F1 (insert F0 {m}))
            P1 (insert pos (Finset.Ico (stD.node m).left
              ((stD.node m).left + (stD.node m).right)))
            L1 (insert idx' ((Finset.Ico (stD.node m).left
              ((stD.node m).left + (stD.node m).right)).image stD.tlasIdx))
            (by rw [hnr]; exact h1) (by rw [hnr]; exact h2)
            (by rw [hl2]; exact c1) (by rw [hr2]; exact hTF1)
            (by rw [Finset.disjoint_right]
                intro a ha hb
                rcases Finset.mem_insert.mp ha with he | hh
                · rw [he] at hb
                  exact hF1S1 hb
                · rcases Finset.mem_insert.mp hh with he2 | hh2
                  · rw [he2] at hb
                    exact hF0S1 hb
                  · rw [Finset.mem_singleton] at hh2
                    rw [hh2] at hb
                    exact (Finset.disjoint_left.mp d1 hb) hm2)
            d2
            (by intro hc
                rcases Finset.mem_insert.mp hc with he | hh
                · exact hrF1 he
                · rcases Finset.mem_insert.mp hh with he2 | hh2
                  · exact hrF0 he2
                  · rw [Finset.mem_singleton] at hh2
                    exact hrm hh2)
            (by rw [Finset.disjoint_right]
                intro a ha hb
                rcases Finset.mem_insert.mp ha with he | hh
                · rw [he] at hb
                  exact hposP1 hb
                · exact (Finset.disjoint_left.mp d4 hb) hh)
            (by rw [Finset.disjoint_right]
                intro a ha hb
                rcases Finset.mem_insert.mp ha with he | hh
                · rw [he] at hb
                  exact hidxL1 hb
                · exact (Finset.disjoint_left.mp d5 hb) hh)
          have eS := insert_splice_sets_r F1 F0 r ({m} : Finset ℕ) S1
          have eP := ins_union_right pos P1 (Finset.Ico (stD.node m).left
            ((stD.node m).left + (stD.node m).right))
          have eL := ins_union_right idx' L1 ((Finset.Ico (stD.node m).left
            ((stD.node m).left + (stD.node m).right)).image stD.tlasIdx)
          rw [eS, eP, eL] at hT
          exact hT
      · have Tsub := ih2 hm2 hroot hF0S2 hF1S2 hposP2 hidxL2
        have hq5 : (stD.node m).parax / 8 = q := by omega
        have hqS2 : q ∈ S2 := by
          obtain ⟨hqmem, hx1, hx2⟩ := Tree_parent_interior t2 m hm2 hroot
          rw [hq5] at hqmem
          exact hqmem
        have hrq : r ≠ q := fun he => d3 (he ▸ hqS2)
        have hnr : stF.node r = stD.node r := hrest r hrq hrm hrF0 hrF1
        have c1 : Tree true stF r (stD.node r).left S1 P1 L1 := by
          refine Tree_congr t1 ?_ ?_ ?_
          · intro k hk
            have hkq : k ≠ q := fun he =>
              (Finset.disjoint_left.mp d1 (he ▸ hk)) hqS2
            have hkm : k ≠ m := fun he =>
              (Finset.disjoint_left.mp d1 (he ▸ hk)) hm2
            have hkF0 : k ≠ F0 := fun he => hF0S1 (he ▸ hk)
            have hkF1 : k ≠ F1 := fun he => hF1S1 (he ▸ hk)
            rw [hrest k hkq hkm hkF0 hkF1]
            exact ⟨rfl, rfl, rfl⟩
          · intro j hj
            rw [hti]
          · intro j hj
            rw [hlf]
        have hl2 : (stF.node r).left = (stD.node r).left := by rw [hnr]
        have hr2 : (stF.node r).right = (stD.node r).right := by rw [hnr]
        have hT := Tree.node q2 r S1 (insert F1 (insert F0 S2))
          P1 (insert pos P2) L1 (insert idx' L2)
          (by rw [hnr]; exact h1) (by rw [hnr]; exact h2)
          (by rw [hl2]; exact c1) (by rw [hr2]; exact Tsub)
          (by rw [Finset.disjoint_right]
              intro a ha hb
              rcases Finset.mem_insert.mp ha with he | hh
              · rw [he] at hb
                exact hF1S1 hb
              · rcases Finset.mem_insert.mp hh with he2 | hh2
                · rw [he2] at hb
                  exact hF0S1 hb
                · exact (Finset.disjoint_left.mp d1 hb) hh2)
          d2
          (by intro hc
              rcases Finset.mem_insert.mp hc with he | hh
              · exact hrF1 he
              · rcases Finset.mem_insert.mp hh with he2 | hh2
                · exact hrF0 he2
                · exact d3 hh2)
          (by rw [Finset.disjoint_right]
              intro a ha hb
              rcases Finset.mem_insert.mp ha with he | hh
              · rw [he] at hb
                exact hposP1 hb
              · exact (Finset.disjoint_left.mp d4 hb) hh)
          (by rw [Finset.disjoint_right]
              intro a ha hb
              rcases Finset.mem_insert.mp ha with he | hh
              · rw [he] at hb
                exact hidxL1 hb
              · exact (Finset.disjoint_left.mp d5 hb) hh)
        have eS := insert_splice_sets_r F1 F0 r S2 S1
        have eP := ins_union_right pos P1 P2
        have eL := ins_union_right idx' L1 L2
        rw [eS, eP, eL] at hT
        exact hT

set_option maxHeartbeats 2000000 in
theorem inv_add (st0 : KD) (live : Finset ℕ) (idx : ℕ)
    (hI : Inv st0 live true) (hidx : idx ∉ live) :
    Inv (addOp st0 idx) (insert idx live) false := by
  obtain ⟨S, P, h, hSb, hPb, hfreed⟩ := hI
  obtain ⟨hf0S, hf1S, hf01, hf0np, hf1np⟩ := hfreed rfl
  obtain ⟨dpar, dleft, dright, dframe, dti, dlf, dtc, dnp, df0, df1, dbc⟩ :=
    addStD_spec st0 idx
  have hD : Tree true (addStD st0 idx) 0 0 S P live := by
    refine Tree_congr h ?_ ?_ ?_
    · intro k hk
      have hkF0 : k ≠ st0.freed0 := fun he => hf0S (he ▸ hk)
      rw [dframe k hkF0]
      exact ⟨rfl, rfl, rfl⟩
    · intro j hj
      rw [dti, Function.update_noteq (show j ≠ st0.tlasCount from by
        have := hPb j hj
        omega)]
    · intro j hj
      have hne : st0.tlasIdx j ≠ idx := by
        intro he
        refine hidx ?_
        rw [← he]
        exact Tree_pos_val_mem h j hj
      rw [dlf, Function.update_noteq hne]
  have hsub : S ⊆ Finset.range st0.nodePtr := fun x hx =>
    Finset.mem_range.mpr (hSb x hx)
  have hcard : S.card ≤ st0.nodePtr := by
    have h5 := Finset.card_le_card hsub
    rw [Finset.card_range] at h5
    exact h5
  obtain ⟨m, hmS, hm7D, hmde⟩ := descend_leaf
    (centroidOf ((addStD st0 idx).bounds idx)) ((addStD st0 idx).nodePtr + 1) hD
    (by rw [dnp]; omega)
  have haddM : addM st0 idx = m := hmde
  have hmF0 : m ≠ st0.freed0 := fun he => hf0S (he ▸ hmS)
  have hmF1 : m ≠ st0.freed1 := fun he => hf1S (he ▸ hmS)
  have hmD : (addStD st0 idx).node m = st0.node m := dframe m hmF0
  have hm7 : (st0.node m).parax % 8 = 7 := by rw [← hmD]; exact hm7D
  have hposP : st0.tlasCount ∉ P := fun hc => by
    have := hPb _ hc
    omega
  by_cases hm0 : m = 0
  · -- the descent stopped at the root: the whole tree is the root leaf
    rw [hm0] at hm7
    cases h with
    | node q2 r S1 S2 P1 P2 L1 L2 h1 h2 t1 t2 d1 d2 d3 d4 d5 =>
      omega
    | leaf q2 r h1 h2 h3 h4 =>
      have hF00 : st0.freed0 ≠ 0 := fun he =>
        hf0S (by rw [he]; exact Finset.mem_singleton_self 0)
      have hF10 : st0.freed1 ≠ 0 := fun he =>
        hf1S (by rw [he]; exact Finset.mem_singleton_self 0)
      obtain ⟨rpm, rpd, rkids, rnF1, rnF0, rframe, rti, rlfF, rlfM, rnp, rtc⟩ :=
        addRootOp_spec (addStD st0 idx) idx (by rw [df0]; exact hF00)
          (by rw [df1]; exact hF10) (by rw [df0, df1]; exact hf01)
      have hn0D : (addStD st0 idx).node 0 = st0.node 0 :=
        dframe 0 (Ne.symm hF00)
      rw [df1, hn0D] at rnF1
      rw [df0] at rnF0
      rw [df0, df1] at rkids
      rw [hn0D, dti] at rlfF rlfM
      rw [dlf] at rlfF
      rw [df1] at rlfM
      rw [dti] at rti
      rw [dnp] at rnp
      rw [dtc] at rtc
      have hXF0l : ((addRootOp (addStD st0 idx) idx).node st0.freed0).left =
          st0.tlasCount := by
        rw [rnF0]
        exact dleft
      have hXF0r : ((addRootOp (addStD st0 idx) idx).node st0.freed0).right = 1 := by
        rw [rnF0]
        exact dright
      have hXF0p : ((addRootOp (addStD st0 idx) idx).node st0.freed0).parax = 7 := by
        rw [rnF0]
      have hXl : ((addRootOp (addStD st0 idx) idx).node st0.freed1).left =
          (st0.node 0).left := by rw [rnF1]
      have hXr : ((addRootOp (addStD st0 idx) idx).node st0.freed1).right =
          (st0.node 0).right := by rw [rnF1]
      have hidxEq : ∀ j, (st0.node 0).left ≤ j →
          j < (st0.node 0).left + (st0.node 0).right →
          (addRootOp (addStD st0 idx) idx).tlasIdx j = st0.tlasIdx j := by
        intro j hj1 hj2
        rw [rti, Function.update_noteq (show j ≠ st0.tlasCount from by
          have := hPb j (Finset.mem_Ico.mpr ⟨hj1, hj2⟩)
          omega)]
      have hTleafF1 : Tree true (addRootOp (addStD st0 idx) idx) 0 st0.freed1
          {st0.freed1}
          (Finset.Ico (st0.node 0).left ((st0.node 0).left + (st0.node 0).right))
          ((Finset.Ico (st0.node 0).left
            ((st0.node 0).left + (st0.node 0).right)).image st0.tlasIdx) := by
        have hT0 : Tree true (addRootOp (addStD st0 idx) idx) 0 st0.freed1
            {st0.freed1}
            (Finset.Ico ((addRootOp (addStD st0 idx) idx).node st0.freed1).left
              (((addRootOp (addStD st0 idx) idx).node st0.freed1).left +
                ((addRootOp (addStD st0 idx) idx).node st0.freed1).right))
            ((Finset.Ico ((addRootOp (addStD st0 idx) idx).node st0.freed1).left
              (((addRootOp (addStD st0 idx) idx).node st0.freed1).left +
                ((addRootOp (addStD st0 idx) idx).node st0.freed1).right)).image
              (addRootOp (addStD st0 idx) idx).tlasIdx) := by
          refine Tree.leaf 0 st0.freed1 ?_ ?_ ?_ ?_
          · rw [rnF1]
            show (st0.node 0).parax % 8 = 0 * 8 + 7
            omega
          · rw [hXr]
            exact h2
          · rw [hXl, hXr]
            intro a ha b hb hab
            rw [Set.mem_Ico] at ha hb
            rw [hidxEq a ha.1 ha.2, hidxEq b hb.1 hb.2] at hab
            exact h3 (Set.mem_Ico.mpr ha) (Set.mem_Ico.mpr hb) hab
          · intro hu j hj1 hj2
            rw [hXl] at hj1
            rw [hXl, hXr] at hj2
            rw [hidxEq j hj1 hj2]
            have h6 := rlfM (j - (st0.node 0).left) (by omega)
            rw [show (st0.node 0).left + (j - (st0.node 0).left) = j from by omega,
              Function.update_noteq (show j ≠ st0.tlasCount from by
                have := hPb j (Finset.mem_Ico.mpr ⟨hj1, hj2⟩)
                omega)] at h6
            exact h6
        rw [hXl, hXr] at hT0
        have himg : (Finset.Ico (st0.node 0).left
            ((st0.node 0).left + (st0.node 0).right)).image
            (addRootOp (addStD st0 idx) idx).tlasIdx =
            (Finset.Ico (st0.node 0).left
              ((st0.node 0).left + (st0.node 0).right)).image st0.tlasIdx := by
          apply Finset.image_congr
          intro j hj
          have hj2 := Finset.mem_Ico.mp hj
          exact hidxEq j hj2.1 hj2.2
        rw [himg] at hT0
        exact hT0
      have hTleafF0 : Tree true (addRootOp (addStD st0 idx) idx) 0 st0.freed0
          {st0.freed0} {st0.tlasCount} {idx} := by
        have hT0 : Tree true (addRootOp (addStD st0 idx) idx) 0 st0.freed0
            {st0.freed0}
            (Finset.Ico ((addRootOp (addStD st0 idx) idx).node st0.freed0).left
              (((addRootOp (addStD st0 idx) idx).node st0.freed0).left +
                ((addRootOp (addStD st0 idx) idx).node st0.freed0).right))
            ((Finset.Ico ((addRootOp (addStD st0 idx) idx).node st0.freed0).left
              (((addRootOp (addStD st0 idx) idx).node st0.freed0).left +
                ((addRootOp (addStD st0 idx) idx).node st0.freed0).right)).image
              (addRootOp (addStD st0 idx) idx).tlasIdx) := by
          refine Tree.leaf 0 st0.freed0 ?_ ?_ ?_ ?_
          · rw [hXF0p]
          · rw [hXF0r]
          · intro a ha b hb hab
            rw [Set.mem_Ico, hXF0l, hXF0r] at ha hb
            omega
          · intro hu j hj1 hj2
            rw [hXF0l] at hj1
            rw [hXF0l, hXF0r] at hj2
            have hjp : j = st0.tlasCount := by omega
            rw [hjp, rti, Function.update_same]
            have h9 := rlfF idx ?_
            · rw [h9, Function.update_same]
            · intro j2 hj2b
              rw [Function.update_noteq (show (st0.node 0).left + j2 ≠ st0.tlasCount
                from by
                  have := hPb ((st0.node 0).left + j2)
                    (Finset.mem_Ico.mpr ⟨by omega, by omega⟩)
                  omega)]
              intro he
              refine hidx ?_
              rw [← he]
              exact Finset.mem_image_of_mem st0.tlasIdx
                (Finset.mem_Ico.mpr ⟨by omega, by omega⟩)
        rw [hXF0l, hXF0r, Nat.Ico_succ_singleton, Finset.image_singleton, rti,
          Function.update_same] at hT0
        exact hT0
      have hIf : (if addM st0 idx = 0 then addRootOp (addStD st0 idx) idx
          else addSpliceOp (addStD st0 idx) idx (addM st0 idx)) =
          addRootOp (addStD st0 idx) idx := by
        rw [haddM, hm0, if_pos rfl]
      rw [addOp_eq]
      simp only [hIf]
      obtain ⟨rrn, rrti, rrlf, rrnp, rrtc, rrbc, rrf0, rrf1⟩ :=
        recurseRefit_frame ((addRootOp (addStD st0 idx) idx).nodePtr + 1)
          (addRootOp (addStD st0 idx) idx)
          ((addRootOp (addStD st0 idx) idx).leaf idx)
      rcases rkids with ⟨hk1, hk2⟩ | ⟨hk1, hk2⟩
      · have hT := Tree.node 0 0 {st0.freed0} {st0.freed1} {st0.tlasCount}
          (Finset.Ico (st0.node 0).left ((st0.node 0).left + (st0.node 0).right))
          {idx}
          ((Finset.Ico (st0.node 0).left
            ((st0.node 0).left + (st0.node 0).right)).image st0.tlasIdx)
          rpm rpd (by rw [hk1]; exact hTleafF0) (by rw [hk2]; exact hTleafF1)
          (by rw [Finset.disjoint_left]
              intro a ha hb
              rw [Finset.mem_singleton] at ha hb
              exact hf01 (ha ▸ hb))
          (fun hc => hF00 (Finset.mem_singleton.mp hc).symm)
          (fun hc => hF10 (Finset.mem_singleton.mp hc).symm)
          (by rw [Finset.disjoint_left]
              intro a ha hb
              rw [Finset.mem_singleton] at ha
              rw [ha] at hb
              exact hposP hb)
          (by rw [Finset.disjoint_left]
              intro a ha hb
              rw [Finset.mem_singleton] at ha
              rw [ha] at hb
              exact hidx hb)
        rw [singl_union, singl_union, singl_union] at hT
        refine ⟨(insert 0 (insert st0.freed1 {st0.freed0}) : Finset ℕ),
          insert st0.tlasCount (Finset.Ico (st0.node 0).left
            ((st0.node 0).left + (st0.node 0).right)), ?_, ?_, ?_,
          fun hc => Bool.noConfusion hc⟩
        · have hseq : (insert 0 (insert st0.freed0 {st0.freed1}) : Finset ℕ) =
              insert 0 (insert st0.freed1 {st0.freed0}) := by
            ext a
            simp only [Finset.mem_insert, Finset.mem_singleton]
            tauto
          rw [← hseq]
          exact Tree_congr hT (fun k hk => rrn k) (fun j hj => by rw [rrti])
            (fun j hj => by rw [rrlf])
        · intro k hk
          rw [rrnp, rnp]
          rcases Finset.mem_insert.mp hk with he | hh
          · rw [he]
            exact hSb 0 (Finset.mem_singleton_self 0)
          · rcases Finset.mem_insert.mp hh with he2 | hh2
            · rw [he2]
              exact hf1np
            · rw [Finset.mem_singleton] at hh2
              rw [hh2]
              exact hf0np
        · intro j hj
          rw [rrtc, rtc]
          rcases Finset.mem_insert.mp hj with he | hh
          · rw [he]
            omega
          · have := hPb j hh
            omega
      · have hT := Tree.node 0 0 {st0.freed1} {st0.freed0}
          (Finset.Ico (st0.node 0).left ((st0.node 0).left + (st0.node 0).right))
          {st0.tlasCount}
          ((Finset.Ico (st0.node 0).left
            ((st0.node 0).left + (st0.node 0).right)).image st0.tlasIdx)
          {idx}
          rpm rpd (by rw [hk1]; exact hTleafF1) (by rw [hk2]; exact hTleafF0)
          (by rw [Finset.disjoint_left]
              intro a ha hb
              rw [Finset.mem_singleton] at ha hb
              exact hf01 (hb ▸ ha))
          (fun hc => hF10 (Finset.mem_singleton.mp hc).symm)
          (fun hc => hF00 (Finset.mem_singleton.mp hc).symm)
          (by rw [Finset.disjoint_right]
              intro a ha hb
              rw [Finset.mem_singleton] at ha
              rw [ha] at hb
              exact hposP hb)
          (by rw [Finset.disjoint_right]
              intro a ha hb
              rw [Finset.mem_singleton] at ha
              rw [ha] at hb
              exact hidx hb)
        rw [Finset.union_comm _ ({st0.tlasCount} : Finset ℕ),
          Finset.union_comm _ ({idx} : Finset ℕ),
          Finset.union_comm ({st0.freed1} : Finset ℕ) {st0.freed0}] at hT
        simp only [singl_union] at hT
        refine ⟨(insert 0 (insert st0.freed0 {st0.freed1}) : Finset ℕ),
          insert st0.tlasCount (Finset.Ico (st0.node 0).left
            ((st0.node 0).left + (st0.node 0).right)), ?_, ?_, ?_,
          fun hc => Bool.noConfusion hc⟩
        · exact Tree_congr hT (fun k hk => rrn k) (fun j hj => by rw [rrti])
            (fun j hj => by rw [rrlf])
        · intro k hk
          rw [rrnp, rnp]
          rcases Finset.mem_insert.mp hk with he | hh
          · rw [he]
            exact hSb 0 (Finset.mem_singleton_self 0)
          · rcases Finset.mem_insert.mp hh with he2 | hh2
            · rw [he2]
              exact hf0np
            · rw [Finset.mem_singleton] at hh2
              rw [hh2]
              exact hf1np
        · intro j hj
          rw [rrtc, rtc]
          rcases Finset.mem_insert.mp hj with he | hh
          · rw [he]
            omega
          · have := hPb j hh
            omega
  · -- generic splice below an interior parent
    obtain ⟨hq_mem, hq_int, hlink⟩ := Tree_parent_interior h m hmS hm0
    set Q := (st0.node m).parax / 8 with hQdef
    have hm7full : (st0.node m).parax = Q * 8 + 7 := by
      rw [hQdef]
      omega
    have hmQ : m ≠ Q := by
      intro he
      rw [← he] at hq_int
      omega
    have hF0Q : st0.freed0 ≠ Q := fun he => hf0S (he ▸ hq_mem)
    have hF0m2 : st0.freed0 ≠ m := fun he => hf0S (he ▸ hmS)
    have hF1Q : st0.freed1 ≠ Q := fun he => hf1S (he ▸ hq_mem)
    have hF1m2 : st0.freed1 ≠ m := fun he => hf1S (he ▸ hmS)
    obtain ⟨snql, snqr, sF1par, sF1div, sF1kids, snm, snF0, sframe, sti, slf, snp,
      stc, sbc⟩ :=
      addSpliceOp_spec (addStD st0 idx) idx m Q (by rw [hmD, hQdef]) hmQ
        (by rw [df0]; exact hF0Q) (by rw [df0]; exact hF0m2)
        (by rw [df1]; exact hF1Q) (by rw [df1]; exact hF1m2)
        (by rw [df0, df1]; exact hf01)
    rw [df1] at snql snqr sF1par sF1div snm
    rw [df0, df1] at sF1kids snF0 sframe
    have hXF0p : ((addSpliceOp (addStD st0 idx) idx m).node st0.freed0).parax =
        st0.freed1 * 8 + 7 := by
      rw [snF0]
    have hXF0l : ((addSpliceOp (addStD st0 idx) idx m).node st0.freed0).left =
        st0.tlasCount := by
      rw [snF0]
      exact dleft
    have hXF0r : ((addSpliceOp (addStD st0 idx) idx m).node st0.freed0).right = 1 := by
      rw [snF0]
      exact dright
    have hvp : (addStD st0 idx).tlasIdx st0.tlasCount = idx := by
      rw [dti, Function.update_same]
    have hlfx : (addStD st0 idx).leaf idx = st0.freed0 := by
      rw [dlf, Function.update_same]
    have hTX := Tree_addB (by rw [hmD]; exact hm7full) hF0m2 hF1m2 hf01
      snql snqr sF1par sF1div sF1kids snm hXF0p hXF0l hXF0r sframe sti slf hvp hlfx
      hD hmS hm0 hf0S hf1S hposP hidx
    have hIf : (if addM st0 idx = 0 then addRootOp (addStD st0 idx) idx
        else addSpliceOp (addStD st0 idx) idx (addM st0 idx)) =
        addSpliceOp (addStD st0 idx) idx m := by
      rw [haddM, if_neg hm0]
    rw [addOp_eq]
    simp only [hIf]
    obtain ⟨rrn, rrti, rrlf, rrnp, rrtc, rrbc, rrf0, rrf1⟩ :=
      recurseRefit_frame ((addSpliceOp (addStD st0 idx) idx m).nodePtr + 1)
        (addSpliceOp (addStD st0 idx) idx m)
        ((addSpliceOp (addStD st0 idx) idx m).leaf idx)
    refine ⟨insert st0.freed1 (insert st0.freed0 S), insert st0.tlasCount P, ?_, ?_,
      ?_, fun hc => Bool.noConfusion hc⟩
    · exact Tree_congr hTX (fun k hk => rrn k) (fun j hj => by rw [rrti])
        (fun j hj => by rw [rrlf])
    · intro k hk
      rw [rrnp, snp, dnp]
      rcases Finset.mem_insert.mp hk with he | hh
      · rw [he]
        exact hf1np
      · rcases Finset.mem_insert.mp hh with he2 | hh2
        · rw [he2]
          exact hf0np
        · exact hSb k hh2
    · intro j hj
      rw [rrtc, stc, dtc]
      rcases Finset.mem_insert.mp hj with he | hh
      · rw [he]
        omega
      · have := hPb j hh
        omega

/-! ### The reachability invariant and the C4/C6/C9 structural claims -/

theorem reach_inv (st0 st : KD) (live : Finset ℕ) (c : Bool)
    (h : Reach st0 st live c) : Inv st live c := by
  induction h with
  | rebuilt hbl =>
    exact rebuild_inv st0 hbl
  | remove s l cc i hr hmem hcard ih =>
    exact inv_remove s l cc i ih hmem hcard
  | addStep s l i hr hnot ih =>
    exact inv_add s l i ih hnot

/-- C4.  In every state reachable by `rebuild` followed by any sequence of
`add`/`removeLeaf`, the live tree occupies a set `S` of node slots rooted in
slot 0, and every non-root tree node `n` is the `left` or the `right` child
of the node indexed by the parent bits `parax / 8` stored in its `parax`. -/
theorem reach_parent_link (st0 st : KD) (live : Finset ℕ) (c : Bool)
    (h : Reach st0 st live c) :
    ∃ S P, Tree true st 0 0 S P live ∧
      ∀ n ∈ S, n ≠ 0 →
        (st.node ((st.node n).parax / 8)).left = n ∨
        (st.node ((st.node n).parax / 8)).right = n := by
  obtain ⟨S, P, hT, hb1, hb2, hb3⟩ := reach_inv st0 st live c h
  exact ⟨S, P, hT, fun n hn hne => Tree_parent_link hT n hn hne⟩

theorem reach_parent_link_witness :
    Reach c2Init (rebuildOp c2Init) (liveInit c2Init.blasCount) false ∧
    (∃ S P, Tree true (rebuildOp c2Init) 0 0 S P (liveInit c2Init.blasCount) ∧
      ∀ n ∈ S, n ≠ 0 →
        ((rebuildOp c2Init).node
          (((rebuildOp c2Init).node n).parax / 8)).left = n ∨
        ((rebuildOp c2Init).node
          (((rebuildOp c2Init).node n).parax / 8)).right = n) :=
  ⟨Reach.rebuilt (by decide),
   reach_parent_link c2Init (rebuildOp c2Init) (liveInit c2Init.blasCount) false
     (Reach.rebuilt (by decide))⟩

/-- C6.  In every state reachable by `rebuild` followed by any sequence of
`add`/`removeLeaf`, every live instance `i` occurs in the `tlasIdx` range
`[first, first + count)` of the leaf node `leaf[i]` points to. -/
theorem reach_leafmap (st0 st : KD) (live : Finset ℕ) (c : Bool)
    (h : Reach st0 st live c) :
    ∀ i ∈ live, ∃ j, (st.node (st.leaf i)).left ≤ j ∧
      j < (st.node (st.leaf i)).left + (st.node (st.leaf i)).right ∧
      st.tlasIdx j = i := by
  obtain ⟨S, P, hT, hb1, hb2, hb3⟩ := reach_inv st0 st live c h
  intro i hi
  exact (Tree_lookup hT i hi).2.2

theorem reach_leafmap_witness :
    Reach c2Init (rebuildOp c2Init) (liveInit c2Init.blasCount) false ∧
    (∀ i ∈ liveInit c2Init.blasCount, ∃ j,
      ((rebuildOp c2Init).node ((rebuildOp c2Init).leaf i)).left ≤ j ∧
      j < ((rebuildOp c2Init).node ((rebuildOp c2Init).leaf i)).left +
        ((rebuildOp c2Init).node ((rebuildOp c2Init).leaf i)).right ∧
      (rebuildOp c2Init).tlasIdx j = i) :=
  ⟨Reach.rebuilt (by decide),
   reach_leafmap c2Init (rebuildOp c2Init) (liveInit c2Init.blasCount) false
     (Reach.rebuilt (by decide))⟩

/-- C9.  In every state reachable by `rebuild` followed by any sequence of
`add`/`removeLeaf`, the low 3 bits of every live tree node's `parax` are
either `7` (leaf) or a split axis `≤ 2` (interior), and on such nodes the
source's leaf test `(parax & 7) > 3` coincides with `(parax & 7) == 7`. -/
theorem reach_parax_wf (st0 st : KD) (live : Finset ℕ) (c : Bool)
    (h : Reach st0 st live c) :
    ∃ S P, Tree true st 0 0 S P live ∧
      ∀ n ∈ S, ((st.node n).parax % 8 = 7 ∨ (st.node n).parax % 8 ≤ 2) ∧
        ((st.node n).isLeaf = true ↔ (st.node n).parax % 8 = 7) := by
  obtain ⟨S, P, hT, hb1, hb2, hb3⟩ := reach_inv st0 st live c h
  refine ⟨S, P, hT, fun n hn => ⟨Tree_parax_cases hT n hn, ?_⟩⟩
  have hd := Tree_parax_cases hT n hn
  unfold KDNode.isLeaf
  rw [decide_eq_true_eq]
  constructor
  · intro h3
    rcases hd with h7 | h2
    · exact h7
    · omega
  · intro h7
    omega

theorem reach_parax_wf_witness :
    Reach c2Init (rebuildOp c2Init) (liveInit c2Init.blasCount) false ∧
    (∃ S P, Tree true (rebuildOp c2Init) 0 0 S P (liveInit c2Init.blasCount) ∧
      ∀ n ∈ S, (((rebuildOp c2Init).node n).parax % 8 = 7 ∨
          ((rebuildOp c2Init).node n).parax % 8 ≤ 2) ∧
        (((rebuildOp c2Init).node n).isLeaf = true ↔
          ((rebuildOp c2Init).node n).parax % 8 = 7)) :=
  ⟨Reach.rebuilt (by decide),
   reach_parax_wf c2Init (rebuildOp c2Init) (liveInit c2Init.blasCount) false
     (Reach.rebuilt (by decide))⟩

/-! ### C10 — FindNearest is a pure query -/

/-- Helper for C10: the traversal threads the state through unchanged at
every fuel level, node and branch. -/
theorem findNearestGo_state (fuel : ℕ) :
    ∀ st A Pa eA hA bA n best, (findNearestGo fuel st A Pa eA hA bA n best).1 = st := by
  induction fuel with
  | zero => intro st A Pa eA hA bA n best; rfl
  | succ k ih =>
    intro st A Pa eA hA bA n best
    rw [findNearestGo]
    by_cases hl : (st.node n).isLeaf
    · simp [hl]
    · simp only [hl, Bool.false_eq_true, if_false]
      split_ifs <;> simp [ih]

/-- C10: `FindNearest` leaves the entire `KDTree` state unchanged — the
returned state (every field: `node`, `bounds`, `tlasIdx`, `leaf`, `nodePtr`,
`tlasCount`, `blasCount`, `freed0/1`, `tlas`) is exactly the input state;
only the written-back best pair and the return value are produced. -/
theorem FindNearest_pure_query (st : KD) (A startB : ℕ) (startSA : WithTop ℚ) :
    (FindNearest st A startB startSA).1 = st := by
  unfold FindNearest
  exact findNearestGo_state _ st A _ _ _ _ 0 (startB, startSA)

/-! ### C1 — the FindNearest surface area is not the union's area -/

/-- C1 (code bug): on `fnState` with `A = 1` and `startSA = +∞`,
`FindNearest` returns `bestB = 3` with `smallestSA = 3/25`, although the
half area of `union(bounds 1, bounds 3)` is `5043/100` and candidate `2` has
the strictly smaller union area `48`: the written-back pair is neither the
minimiser of `area(union(bounds[A], bounds[B]))` nor its area.  The cause is
`bvh.h` line 408, which computes the union box as
`max(tlasAbmax4, bmax_B) - min(tlasAbmax4, bmin_B)`, using `tlasAbmax4`
where the intended lower corner `tlasAbmin4` (loaded just above) should be. -/
theorem FindNearest_sa_code_bug :
    (FindNearest fnState 1 0 ⊤).2 = (3, ((3/25 : ℚ) : WithTop ℚ)) ∧
    unionArea (fnState.bounds 1) (fnState.bounds 3) = 5043/100 ∧
    unionArea (fnState.bounds 1) (fnState.bounds 2) = 48 ∧
    (48 : ℚ) < 5043/100 := by decide

/-! ### C5 — the leaf test is `(parax & 7) > 3`, not `== 7` -/

/-- C5 counterexample: a node whose `parax` is `4` is classified as a leaf
by `KDNode::isLeaf` although its low three bits are not `7`. -/
theorem isLeaf_not_eq7_counterexample :
    ({ zeroNode with parax := 4 } : KDNode).isLeaf = true ∧
    ({ zeroNode with parax := 4 } : KDNode).parax % 8 ≠ 7 := by decide

/-- C5 amended: `isLeaf` returns `(parax & 7) > 3`; on any node whose low
three bits are a valid tag — a split axis (`≤ 2`) or the leaf mark `7`, the
only values the tree operations ever store (C9) — this coincides with
`(parax & 7) == 7`. -/
theorem isLeaf_amended (nd : KDNode) (h : nd.parax % 8 ≤ 2 ∨ nd.parax % 8 = 7) :
    nd.isLeaf = true ↔ nd.parax % 8 = 7 := by
  simp only [KDNode.isLeaf, decide_eq_true_eq]
  omega

/-- Witness for `isLeaf_amended` at a concrete leaf-tagged node. -/
theorem isLeaf_amended_witness :
    (({ zeroNode with parax := 15 } : KDNode).parax % 8 ≤ 2 ∨
      ({ zeroNode with parax := 15 } : KDNode).parax % 8 = 7) ∧
    (({ zeroNode with parax := 15 } : KDNode).isLeaf = true ↔
      ({ zeroNode with parax := 15 } : KDNode).parax % 8 = 7) :=
  ⟨Or.inr (by decide), isLeaf_amended _ (Or.inr (by decide))⟩

/-! ### C8 — the Ray constructor does not seed the hit record -/

/-- C8 counterexample: a `Ray` default-constructed over memory whose stale
intersection record has `t = 0` still has `t = 0`, not `+∞`: the constructor
writes only `O4`, `D4`, `rD4`. -/
theorem ray_hit_uninitialized :
    (mkRay { t := ((0:ℚ) : WithTop ℚ), u := 0, v := 0, instPrim := 0 }).hit.t ≠ ⊤ := by decide

/-- C8 amended: `Ray()` sets `O`, `D` and `rD` to all-ones vectors and
leaves the `hit` member exactly as it found it; the `t = +∞` sentinel is not
established by the constructor (callers must seed it). -/
theorem ray_ctor_amended (h : Intersection) :
    (mkRay h).hit = h ∧ (mkRay h).O = vec3const 1 ∧
    (mkRay h).D = vec3const 1 ∧ (mkRay h).rD = vec3const 1 :=
  ⟨rfl, rfl, rfl, rfl⟩

/-! ### C3 counterexample — `count == 2` nodes are split positionally -/

/-- C3 counterexample: in `c3State` (a `rebuild` over two instances whose
centroids sit at `10` and `0` on every axis, stored in that order), the root
is split (`parax` tag `≤ 2`), its left child holds exactly one instance, and
that instance's centroid lies strictly on the RIGHT side of the stored split
position: for `count == 2`, `partition` takes the `N < 3` shortcut
(`last = first + 1`) and splits positionally, not by centroid side. -/
theorem partition_count2_counterexample :
    (c3State.node 0).parax % 8 ≤ 2 ∧
    (c3State.node (c3State.node 0).left).right = 1 ∧
    (c3State.node 0).splitPos <
      (centroidOf (c3State.bounds
        (c3State.tlasIdx (c3State.node (c3State.node 0).left).left))).get
        ((c3State.node 0).parax % 8) := by decide

/-! ### C2 counterexample — removeLeaf defers refitting -/

/-- C2 counterexample: after `rebuild` over three diagonal point instances
and `removeLeaf(1)` — a state reachable under the caller contract — the root
is an interior node whose `bmin` is NOT the componentwise minimum of its
children's `bmin`s: `removeLeaf` defers refitting, so the bounds invariant
fails after a removal (until a later `add` refits that path). -/
theorem kd_refit_deferred_counterexample :
    Reach c2Init c2State ((liveInit 3).erase 1) true ∧
    (c2State.node 0).isLeaf = false ∧
    (c2State.node 0).bmin ≠
      fminf (c2State.node (c2State.node 0).left).bmin
        (c2State.node (c2State.node 0).right).bmin := by
  refine ⟨?_, by decide, by decide⟩
  exact Reach.remove _ _ _ _ (Reach.rebuilt (by decide)) (by decide) (by decide)

end KDVerify
